import Mathlib

/-!
Verification development for the VisualEditor DataModel core
(src/dm/ve.dm.Surface.js: ve.dm.Surface and ve.dm.Converter).

The Surface and Converter methods are translated line by line from the
source. Collaborator classes that are part of the repository but not of
the provided sources (ve.dm.AnnotationSet, ve.dm.Document, ve.Range,
ve.dm.Transaction, the model registry and factories) are modelled from
the specification, either as small value types or as parameters of the
embedding; each such definition carries a comment saying so.
-/

namespace VE

/-- Modelled from the spec: an AnnotationSet (ve.dm.AnnotationSet is not under
src/) is an ordered sequence of index-value-store indices; duplicates of the
same index collapse on insertion, and removeIndex drops an index. -/
abbrev AnnIdxSeq := List Nat

/-- Modelled from the spec: AnnotationSet.removeIndex removes the given store
index from the ordered sequence. -/
def removeIdx (s : AnnIdxSeq) (idx : Nat) : AnnIdxSeq := s.erase idx

/-- Modelled from the spec: AnnotationSet.containsIndex. -/
def containsIdx (s : AnnIdxSeq) (idx : Nat) : Bool := s.contains idx

/-- Result of ve.dm.Converter.static.openAndCloseAnnotations: the final state
of currentSet (the source mutates it in place) together with the sequences of
annotations handed to the open and close callbacks, in call order. -/
structure OacResult where
  currentSet : AnnIdxSeq
  opens : List Nat
  closes : List Nat
deriving DecidableEq, Repr

/-- Closing phase scan of openAndCloseAnnotations: go through currentSet from
bottom to top, removing already-open target annotations from targetSetOpen,
and return the position of the first annotation of currentSet that is not in
the target set (startClosingAt), or none when every current annotation is
matched. comp is containsComparableForSerialization on store values. -/
def oacStartClosingAt (comp : Nat → Nat → Bool) :
    AnnIdxSeq → AnnIdxSeq → Nat → Option Nat
  | [], _, _ => none
  | idx :: rest, targetSetOpen, i =>
    if containsIdx targetSetOpen idx || targetSetOpen.any (fun b => comp b idx) then
      oacStartClosingAt comp rest (removeIdx targetSetOpen idx) (i + 1)
    else
      some i

/-- Opening phase of openAndCloseAnnotations: for each target annotation in
order, skip it when it is still open (removing it from currentSetOpen so a
duplicate can be opened again), otherwise call open and push its index onto
currentSet. Returns the final currentSet and the opened annotations. -/
def oacOpenPhase (comp : Nat → Nat → Bool) :
    AnnIdxSeq → AnnIdxSeq → AnnIdxSeq → List Nat → AnnIdxSeq × List Nat
  | [], _, currentSet, opens => (currentSet, opens)
  | idx :: rest, currentSetOpen, currentSet, opens =>
    if containsIdx currentSetOpen idx || currentSetOpen.any (fun b => comp b idx) then
      oacOpenPhase comp rest (removeIdx currentSetOpen idx) currentSet opens
    else
      oacOpenPhase comp rest currentSetOpen (currentSet ++ [idx]) (opens ++ [idx])

/-- ve.dm.Converter.static.openAndCloseAnnotations, translated from the
source: first find startClosingAt by scanning currentSet bottom to top against
a clone of targetSet; close every annotation from the top of currentSet down
to startClosingAt (removing each from currentSet); then open every target
annotation that is not already open, pushing it onto currentSet. -/
def openAndCloseAnns (comp : Nat → Nat → Bool)
    (currentSet targetSet : AnnIdxSeq) : OacResult :=
  let startClosingAt := oacStartClosingAt comp currentSet targetSet 0
  let (currentSet, closes) :=
    match startClosingAt with
    | none => (currentSet, [])
    | some k => (currentSet.take k, (currentSet.drop k).reverse)
  let (currentSet, opens) := oacOpenPhase comp targetSet currentSet currentSet []
  { currentSet := currentSet, opens := opens, closes := closes }

/-- Store indices for the concrete annotations of claim C5. -/
def boldIdx : Nat := 0

/-- Italic annotation store index for claim C5. -/
def italicIdx : Nat := 1

/-- Underline annotation store index for claim C5. -/
def underlineIdx : Nat := 2

/-- C5: for currentSet [Bold, Italic] (Bold opened first) and targetSet
[Italic, Underline], openAndCloseAnnotations closes Italic then Bold
(innermost first, two closes), opens Italic then Underline (two opens), and
leaves currentSet equal to targetSet in order. Distinct annotations compare
comparable-for-serialization exactly when their store indices agree. -/
theorem C5_open_close_minimal_diff :
    openAndCloseAnns (fun a b => a == b) [boldIdx, italicIdx] [italicIdx, underlineIdx] =
      { currentSet := [italicIdx, underlineIdx],
        opens := [italicIdx, underlineIdx],
        closes := [italicIdx, boldIdx] } := by
  decide

/-! Link-boundary fixup (ve.dm.Surface.prototype.fixupRangeForLinks). -/

/-- Modelled from the spec: ve.Range (not under src/) holds from and to
offsets; start is the smaller, end the larger, and the range is backwards
when from exceeds to. -/
structure VeRange where
  fromOff : Nat
  toOff : Nat
deriving DecidableEq, Repr

/-- Smaller end of the range (ve.Range start). -/
def VeRange.startOff (r : VeRange) : Nat := min r.fromOff r.toOff

/-- Larger end of the range (ve.Range end). -/
def VeRange.endOff (r : VeRange) : Nat := max r.fromOff r.toOff

/-- ve.Range.isCollapsed: from equals to. -/
def VeRange.isCollapsed (r : VeRange) : Bool := r.fromOff == r.toOff

/-- ve.Range.isBackwards: from exceeds to. -/
def VeRange.isBackwards (r : VeRange) : Bool := r.toOff < r.fromOff

/-- Modelled from the spec: a stored annotation value in the index-value
store; fixupRangeForLinks only inspects its name. -/
structure StoreAnn where
  name : String
deriving DecidableEq, Repr

/-- Modelled from the spec: the slice of document state fixupRangeForLinks
reads. store maps a store index to its annotation value; chars lists, per
linear-data offset, the store indices of the annotations applied to the
character there (a pure content run). getLength is chars.length. -/
structure LinAnnDoc where
  store : List StoreAnn
  chars : List (List Nat)
deriving DecidableEq, Repr

/-- Modelled from the spec: ElementLinearData.getAnnotationsFromOffset
returns the annotation set of the item at the given offset (empty beyond
the data). -/
def LinAnnDoc.annsAt (d : LinAnnDoc) (off : Nat) : List Nat := d.chars.getD off []

/-- Name of the annotation value stored at a store index. -/
def LinAnnDoc.annName (d : LinAnnDoc) (idx : Nat) : String :=
  (d.store.getD idx { name := "" }).name

/-- The local getLinks helper of fixupRangeForLinks: annotations at the
offset filtered to those whose name is link. -/
def getLinks (d : LinAnnDoc) (off : Nat) : List Nat :=
  (d.annsAt off).filter (fun i => d.annName i == "link")

/-- Modelled from the spec: AnnotationSet.diffWith keeps the annotations of
the left set that have no comparable-for-serialization counterpart in the
right set; annotation values here are compared structurally. -/
def annSeqDiff (d : LinAnnDoc) (s t : AnnIdxSeq) : AnnIdxSeq :=
  s.filter (fun i =>
    !(t.any (fun j => i == j || d.store.getD i { name := "" } == d.store.getD j { name := "" })))

/-- Modelled from the spec: ElementLinearData.getAnnotationsFromRange of a
non-collapsed range returns the annotations covering the full range, i.e.
the annotations of the first offset intersected with those of every further
offset before the end. -/
def LinAnnDoc.annsFromRange (d : LinAnnDoc) (r : VeRange) : AnnIdxSeq :=
  (List.range (r.endOff - r.startOff - 1)).foldl
    (fun acc k => acc.filter (fun a => (d.annsAt (r.startOff + 1 + k)).contains a))
    (d.annsAt r.startOff)

/-- The start-walking loop of fixupRangeForLinks: while start is positive and
the same link annotation is present at start - 1, decrement start. -/
def walkStartLeft (d : LinAnnDoc) (link : Nat) : Nat → Nat
  | 0 => 0
  | s + 1 => if containsIdx (getLinks d s) link then walkStartLeft d link s else s + 1

/-- The end-walking loop of fixupRangeForLinks: while end is below the data
length and the same link annotation is present at end, increment end. The
fuel is the distance to the data length, after which the guard fails. -/
def walkEndRight (d : LinAnnDoc) (link : Nat) : Nat → Nat → Nat
  | 0, e => e
  | f + 1, e =>
    if e < d.chars.length && containsIdx (getLinks d e) link then
      walkEndRight d link f (e + 1)
    else e

/-- ve.dm.Surface.prototype.fixupRangeForLinks, translated from the source:
collapsed ranges are returned unchanged; otherwise the link annotations at
each end that are not in the annotations of the whole range determine
startLink and endLink (first such link each), the matching end is walked
outward while that link continues to cover the adjacent offset, and the
result preserves the direction of the input range. -/
def fixupRangeForLinks (d : LinAnnDoc) (range : VeRange) : VeRange :=
  if range.isCollapsed then range
  else
    let start := range.startOff
    let stop := range.endOff
    let rangeAnns := d.annsFromRange range
    let startLink := (annSeqDiff d (getLinks d start) rangeAnns).head?
    let endLink := (annSeqDiff d (getLinks d stop) rangeAnns).head?
    if startLink == none && endLink == none then range
    else
      let start := match startLink with
        | some l => walkStartLeft d l start
        | none => start
      let stop := match endLink with
        | some l => walkEndRight d l (d.chars.length - stop) stop
        | none => stop
      if range.isBackwards then { fromOff := stop, toOff := start }
      else { fromOff := start, toOff := stop }

/-- A twelve-character content run with one link annotation (store index 0)
covering offsets 5 through 9, i.e. spanning the range from 5 to 10. -/
def linkDoc : LinAnnDoc :=
  { store := [{ name := "link" }],
    chars := [[], [], [], [], [], [0], [0], [0], [0], [0], [], []] }

/-- C6 counterexample: with a link annotation spanning offsets 5 to 10, the
input range from 7 to 8 lies entirely inside the link, so the link is in the
annotations of the whole range, both diffs are empty, and fixupRangeForLinks
returns the range unchanged instead of the claimed range from 5 to 10. -/
theorem C6_counterexample :
    fixupRangeForLinks linkDoc { fromOff := 7, toOff := 8 } = { fromOff := 7, toOff := 8 } ∧
      ({ fromOff := 7, toOff := 8 } : VeRange) ≠ { fromOff := 5, toOff := 10 } := by
  decide

/-- C6 amended: an end of a non-collapsed range is walked outward only when a
link annotation at that end is absent from the annotations covering the whole
range. A range lying entirely inside the link, such as 7 to 8 under a link
spanning 5 to 10, is returned unchanged; a range straddling the link start,
such as 3 to 8, has its end walked to 10; a range straddling the link end,
such as 6 to 11, has its start walked to 5; a backwards straddling range
keeps its direction. -/
theorem C6_amended_walks_only_partially_covered_ends :
    fixupRangeForLinks linkDoc { fromOff := 7, toOff := 8 } = { fromOff := 7, toOff := 8 } ∧
      fixupRangeForLinks linkDoc { fromOff := 3, toOff := 8 } = { fromOff := 3, toOff := 10 } ∧
      fixupRangeForLinks linkDoc { fromOff := 6, toOff := 11 } = { fromOff := 5, toOff := 11 } ∧
      fixupRangeForLinks linkDoc { fromOff := 8, toOff := 3 } = { fromOff := 10, toOff := 3 } := by
  decide

/-! The ve.dm.Surface model. The Surface methods below are translated from
src/dm/ve.dm.Surface.js. The Document, Transaction and linear-data
collaborators they call are not under src/, so they appear as the abstract
parameters Doc and Tx together with a SurfEnv record of their operations,
modelled from the spec (transactions are reversible, no-op detectable;
document queries for branch nodes and annotations). Timer management
(startHistoryTracking / stopHistoryTracking / the 3000 ms interval) only
schedules breakpoint calls and holds no modelled state. -/

/-- ve.dm.Selection: Linear (a range), Table (modelled by the node of its
first matrix cell, the only part setSelection reads) or Null. Selections are
immutable value objects; clone is the identity. -/
inductive Sel where
  | linear (range : VeRange)
  | table (node : Nat)
  | nullSel
deriving DecidableEq, Repr

/-- ve.dm.Selection.isNull. -/
def Sel.isNull : Sel → Bool
  | Sel.nullSel => true
  | _ => false

/-- Events a Surface emits, in emission order. -/
inductive SEvent where
  | select (sel : Sel)
  | focus
  | blur
  | documentUpdate
  | contextChange
  | insertionAnnsChange (anns : List Nat)
  | history
deriving DecidableEq, Repr

/-- The branchNodes cache of the Surface: branch node at the selection start
and end offsets (none models both null results and the fields of the fresh
empty object assigned for non-linear selections). -/
structure BranchNodes where
  startNode : Option Nat := none
  endNode : Option Nat := none
deriving DecidableEq, Repr

/-- One undo-stack checkpoint: the committed transactions with the selection
after and before them. -/
structure UndoItem (Tx : Type) where
  transactions : List Tx
  selection : Sel
  selectionBefore : Sel
deriving DecidableEq, Repr

/-- One staging-stack frame: recorded transactions, the selection before the
first of them, and whether undo is allowed while this frame is active. -/
structure StagingFrame (Tx : Type) where
  transactions : List Tx
  selectionBefore : Sel
  allowUndo : Bool
deriving DecidableEq, Repr

/-- The state of a ve.dm.Surface, field for field from the constructor.
isCollapsedF is the this.isCollapsed field (initially null). The
metaList and the timer handle are not modelled (the former is never read by
the methods below, the latter only schedules breakpoint calls). -/
structure Surf (Doc Tx : Type) where
  doc : Doc
  selection : Sel := Sel.nullSel
  selectionBefore : Sel := Sel.nullSel
  translatedSelection : Option Sel := none
  branchNodes : BranchNodes := {}
  selectedNode : Option Nat := none
  newTransactions : List Tx := []
  stagingStack : List (StagingFrame Tx) := []
  undoStack : List (UndoItem Tx) := []
  undoIndex : Nat := 0
  insertionAnns : List Nat := []
  selectedAnns : List Nat := []
  isCollapsedF : Option Bool := none
  enabled : Bool := true
  transacting : Bool := false
  queueingContextChanges : Bool := false
  contextChangeQueued : Bool := false
deriving DecidableEq, Repr

/-- Modelled from the spec: the operations of the Transaction, Document and
linear-data collaborators (not under src/) that the Surface methods call.
commit applies a transaction to the document (the staging flag passed by the
source only affects document-internal bookkeeping); reversed yields the
transaction that undoes it; copyTx is the per-transaction clone used by
redo. The remaining fields are the document queries used by selection
processing. -/
structure SurfEnv (Doc Tx : Type) where
  commit : Doc → Tx → Doc
  reversed : Tx → Tx
  isNoOp : Tx → Bool
  hasElementAttributeOperations : Tx → Bool
  translateByTransaction : Sel → Tx → Sel
  copyTx : Tx → Tx
  getBranchNodeFromOffset : Doc → Nat → Option Nat
  getNodeFromOffset : Doc → Nat → Option Nat
  getOuterRange : Doc → Nat → VeRange
  getInsertionAnnsFromRange : Doc → VeRange → List Nat
  getAnnsFromOffset : Doc → Nat → List Nat
  getAnnsFromRangeAll : Doc → VeRange → List Nat

/-- Replace the last element of a list in place (JavaScript mutation of the
object at the top of a stack). -/
def updateLast (l : List α) (f : α → α) : List α :=
  match l.getLast? with
  | none => l
  | some a => l.dropLast ++ [f a]

/-- JavaScript array indexing with a possibly negative index: negative or
out-of-range indices yield undefined. -/
def jsIndex (l : List α) (i : Int) : Option α :=
  if i < 0 then none else l.get? i.toNat

variable {Doc Tx : Type}

/-- ve.dm.Surface.prototype.isStaging. -/
def isStaging (s : Surf Doc Tx) : Bool := s.stagingStack.length > 0

/-- ve.dm.Surface.prototype.getStaging: the frame at the top of the staging
stack (the last pushed), or undefined. -/
def getStaging (s : Surf Doc Tx) : Option (StagingFrame Tx) := s.stagingStack.getLast?

/-- ve.dm.Surface.prototype.doesStagingAllowUndo. -/
def doesStagingAllowUndo (s : Surf Doc Tx) : Bool :=
  match getStaging s with
  | some staging => staging.allowUndo
  | none => false

/-- ve.dm.Surface.prototype.hasBeenModified. -/
def hasBeenModified (s : Surf Doc Tx) : Bool :=
  s.undoStack.length - s.undoIndex > 0 || !s.newTransactions.isEmpty

/-- ve.dm.Surface.prototype.canUndo. -/
def canUndo (s : Surf Doc Tx) : Bool :=
  hasBeenModified s && s.enabled && (!isStaging s || doesStagingAllowUndo s)

/-- ve.dm.Surface.prototype.canRedo. -/
def canRedo (s : Surf Doc Tx) : Bool := s.undoIndex > 0 && s.enabled

/-- ve.dm.Surface.prototype.truncateUndoStack: drop the top undoIndex
checkpoints and reset undoIndex to zero. -/
def truncateUndoStack (s : Surf Doc Tx) : Surf Doc Tx :=
  if s.undoIndex ≠ 0 then
    { s with undoStack := s.undoStack.take (s.undoStack.length - s.undoIndex), undoIndex := 0 }
  else s

/-- ve.dm.Surface.prototype.startQueueingContextChanges. -/
def startQueueingContextChanges (s : Surf Doc Tx) : Surf Doc Tx :=
  if !s.queueingContextChanges then
    { s with queueingContextChanges := true, contextChangeQueued := false }
  else s

/-- ve.dm.Surface.prototype.emitContextChange: queue the event while
queueing is active, emit it immediately otherwise. -/
def emitContextChange (s : Surf Doc Tx) : Surf Doc Tx × List SEvent :=
  if s.queueingContextChanges then ({ s with contextChangeQueued := true }, [])
  else (s, [SEvent.contextChange])

/-- ve.dm.Surface.prototype.stopQueueingContextChanges: leave the queueing
scope, emitting one contextChange if any was queued. -/
def stopQueueingContextChanges (s : Surf Doc Tx) : Surf Doc Tx × List SEvent :=
  if s.queueingContextChanges then
    if s.contextChangeQueued then
      ({ s with queueingContextChanges := false, contextChangeQueued := false },
        [SEvent.contextChange])
    else ({ s with queueingContextChanges := false }, [])
  else (s, [])

/-- Modelled from the spec: AnnotationSet.compareTo compares contents
ignoring order. -/
def sameAnnsIgnoringOrder (a b : List Nat) : Bool :=
  a.length == b.length && a.all (fun x => b.contains x)

/-- Modelled from the spec: AnnotationSet.push collapses duplicates of the
same store index, appending a new index at the end. -/
def annSeqPush (s : List Nat) (idx : Nat) : List Nat :=
  if s.contains idx then s else s ++ [idx]

/-- ve.dm.Surface.prototype.setInsertionAnnotations: on an enabled surface
store a clone of the given set (or a fresh empty set for null) and emit
insertionAnnotationsChange followed directly by contextChange. -/
def setInsertionAnns (s : Surf Doc Tx) (anns : Option (List Nat)) :
    Surf Doc Tx × List SEvent :=
  if !s.enabled then (s, [])
  else
    let s := { s with insertionAnns := anns.getD [] }
    (s, [SEvent.insertionAnnsChange s.insertionAnns, SEvent.contextChange])

/-- The argument union of addInsertionAnnotations and
removeInsertionAnnotations: a single annotation, a set, or an invalid value
(anything else raises). -/
inductive AnnsArg where
  | one (idx : Nat)
  | set (anns : List Nat)
  | invalid
deriving DecidableEq, Repr

/-- ve.dm.Surface.prototype.addInsertionAnnotations: gated by enabled, then
push a single annotation or add a whole set, raising on invalid input. -/
def addInsertionAnns (s : Surf Doc Tx) (arg : AnnsArg) :
    Except String (Surf Doc Tx × List SEvent) :=
  if !s.enabled then Except.ok (s, [])
  else
    match arg with
    | AnnsArg.one idx =>
      let s := { s with insertionAnns := annSeqPush s.insertionAnns idx }
      Except.ok (s, [SEvent.insertionAnnsChange s.insertionAnns, SEvent.contextChange])
    | AnnsArg.set anns =>
      let s := { s with insertionAnns := anns.foldl annSeqPush s.insertionAnns }
      Except.ok (s, [SEvent.insertionAnnsChange s.insertionAnns, SEvent.contextChange])
    | AnnsArg.invalid => Except.error "Invalid"

/-- ve.dm.Surface.prototype.removeInsertionAnnotations: gated by enabled,
then remove a single annotation or a whole set, raising on invalid input. -/
def removeInsertionAnns (s : Surf Doc Tx) (arg : AnnsArg) :
    Except String (Surf Doc Tx × List SEvent) :=
  if !s.enabled then Except.ok (s, [])
  else
    match arg with
    | AnnsArg.one idx =>
      let s := { s with insertionAnns := s.insertionAnns.erase idx }
      Except.ok (s, [SEvent.insertionAnnsChange s.insertionAnns, SEvent.contextChange])
    | AnnsArg.set anns =>
      let s := { s with insertionAnns := anns.foldl List.erase s.insertionAnns }
      Except.ok (s, [SEvent.insertionAnnsChange s.insertionAnns, SEvent.contextChange])
    | AnnsArg.invalid => Except.error "Invalid"

/-- ve.dm.Surface.prototype.getSelectedNodeFromSelection: for a non-collapsed
linear selection, the node at start + 1 whose outer range equals the
selection range (ignoring direction), else null. -/
def getSelectedNodeFromSelection (env : SurfEnv Doc Tx) (doc : Doc) (selection : Sel) :
    Option Nat :=
  match selection with
  | Sel.linear range =>
    if !range.isCollapsed then
      match env.getNodeFromOffset doc (range.startOff + 1) with
      | some startNode =>
        let outer := env.getOuterRange doc startNode
        if outer.startOff == range.startOff && outer.endOff == range.endOff then
          some startNode
        else none
      | none => none
    else none
  | _ => none

/-- The selection-variant dispatch of setSelection (lines 658 to 694 of the
source): for a linear selection compute the branch nodes, the selected node,
reset the insertion annotations from the document when they differ in order
(emitting through setInsertionAnnotations), and reset the selected
annotations when they differ as sets (requesting a context change); a table
selection selects the node of its first matrix cell and always requests a
context change; a null selection always requests a context change. Returns
the updated surface, the range when linear, the fresh branchNodes object, the
local selectedNode, the contextChange flag and the events emitted so far. -/
def selVariantUpdate (env : SurfEnv Doc Tx) (s : Surf Doc Tx) (selection : Sel) :
    Surf Doc Tx × Option VeRange × BranchNodes × Option Nat × Bool × List SEvent :=
  match selection with
  | Sel.linear range =>
    let bnStart := env.getBranchNodeFromOffset s.doc range.startOff
    let bn : BranchNodes :=
      { startNode := bnStart,
        endNode :=
          if !range.isCollapsed then env.getBranchNodeFromOffset s.doc range.endOff
          else bnStart }
    let selNode := getSelectedNodeFromSelection env s.doc selection
    let insertionAnns := env.getInsertionAnnsFromRange s.doc range
    let (s, annEvents) :=
      if !(insertionAnns == s.insertionAnns) then setInsertionAnns s (some insertionAnns)
      else (s, [])
    let selectedAnns :=
      if range.isCollapsed then env.getAnnsFromOffset s.doc range.startOff
      else env.getAnnsFromRangeAll s.doc range
    let (s, contextChange) :=
      if !sameAnnsIgnoringOrder selectedAnns s.selectedAnns then
        ({ s with selectedAnns := selectedAnns }, true)
      else (s, false)
    (s, some range, bn, selNode, contextChange, annEvents)
  | Sel.table node => (s, none, {}, some node, true, [])
  | Sel.nullSel => (s, none, {}, none, true, [])

/-- The full-processing tail of setSelection (variant dispatch, isCollapsed
transition check, branch-node and selected-node cache update), emitting
select (with focus or blur on null transitions) when the selection changed
and a possibly queued contextChange when any check requested one. -/
def setSelectionProcess (env : SurfEnv Doc Tx) (s : Surf Doc Tx)
    (oldSelection selection : Sel) (selectionChange : Bool) :
    Surf Doc Tx × List SEvent :=
  let (s, rangeOpt, bn, selNode, contextChange, annEvents) :=
    selVariantUpdate env s selection
  let (s, contextChange) :=
    match rangeOpt with
    | some range =>
      if !(some range.isCollapsed == s.isCollapsedF) then
        ({ s with isCollapsedF := some range.isCollapsed }, true)
      else (s, contextChange)
    | none => (s, contextChange)
  let (s, contextChange) :=
    if !(selNode == s.selectedNode) || !(bn.startNode == s.branchNodes.startNode) ||
        !(bn.endNode == s.branchNodes.endNode) then
      ({ s with branchNodes := bn, selectedNode := selNode }, true)
    else (s, contextChange)
  let selEvents :=
    if selectionChange then
      [SEvent.select s.selection] ++
        (if oldSelection.isNull then [SEvent.focus] else []) ++
        (if selection.isNull then [SEvent.blur] else [])
    else []
  let (s, ccEvents) := if contextChange then emitContextChange s else (s, [])
  (s, annEvents ++ selEvents ++ ccEvents)

/-- ve.dm.Surface.prototype.setSelection, translated from the source: gated
by enabled; always clears translatedSelection; while transacting only stores
the selection; otherwise stores a changed selection and runs the full
processing above. -/
def setSelection (env : SurfEnv Doc Tx) (s0 : Surf Doc Tx) (selection : Sel) :
    Surf Doc Tx × List SEvent :=
  if !s0.enabled then (s0, [])
  else
    let s := { s0 with translatedSelection := none }
    if s.transacting then ({ s with selection := selection }, [])
    else
      let oldSelection := s.selection
      let selectionChange := !(oldSelection == selection)
      let s := if selectionChange then { s with selection := selection } else s
      setSelectionProcess env s oldSelection selection selectionChange

/-- The observable effect on the Surface of ve.dm.Document.commit (modelled
from the spec, Document is not under src/): the precommit event snapshots the
selection into translatedSelection, the transaction is applied to the
document data, presynchronize translates translatedSelection, and transact
makes the Surface translate its selection (onDocumentTransact) and emit
documentUpdate. -/
def surfCommitTx (env : SurfEnv Doc Tx) (s : Surf Doc Tx) (tx : Tx) :
    Surf Doc Tx × List SEvent :=
  let s := { s with translatedSelection := some s.selection }
  let s := { s with doc := env.commit s.doc tx }
  let s := { s with
    translatedSelection := s.translatedSelection.map (fun t => env.translateByTransaction t tx) }
  let (s, evs) := setSelection env s (env.translateByTransaction s.selection tx)
  (s, evs ++ [SEvent.documentUpdate])

/-- One iteration of the transaction loop of changeInternal (lines 803 to
825 of the source): skip no-ops; otherwise record the transaction (into the
top staging frame while staging, else after truncating the redo history into
the pending buffer, snapshotting selectionBefore for the first recorded
transaction) unless skipUndoStack, commit it to the document, and mark a
context change when it has element-attribute operations. -/
def processOneTx (env : SurfEnv Doc Tx) (skipUndoStack : Bool) (selectionBefore : Sel)
    (acc : Surf Doc Tx × List SEvent × Bool) (tx : Tx) :
    Surf Doc Tx × List SEvent × Bool :=
  let (s, evs, contextChange) := acc
  if env.isNoOp tx then (s, evs, contextChange)
  else
    let s :=
      if !skipUndoStack then
        if isStaging s then
          let s :=
            if (getStaging s).map (fun f => f.transactions.isEmpty) == some true then
              { s with stagingStack :=
                updateLast s.stagingStack (fun f => { f with selectionBefore := selectionBefore }) }
            else s
          { s with stagingStack :=
            updateLast s.stagingStack (fun f => { f with transactions := f.transactions ++ [tx] }) }
        else
          let s := truncateUndoStack s
          let s :=
            if s.newTransactions.isEmpty then { s with selectionBefore := selectionBefore }
            else s
          { s with newTransactions := s.newTransactions ++ [tx] }
      else s
    let (s, evs2) := surfCommitTx env s tx
    let contextChange :=
      if env.hasElementAttributeOperations tx then true else contextChange
    (s, evs ++ evs2, contextChange)

/-- The transaction stage of changeInternal (lines 797 to 828 of the
source): inside the transacting flag, fold the transaction loop over the
given transactions and emit history. -/
def changeTxsStage (env : SurfEnv Doc Tx) (skipUndoStack : Bool) (selectionBefore : Sel)
    (s : Surf Doc Tx) (transactions : Option (List Tx)) :
    Surf Doc Tx × List SEvent × Bool :=
  match transactions with
  | none => (s, [], false)
  | some txs =>
    let s := { s with transacting := true }
    let (s, evs, cc) := txs.foldl (processOneTx env skipUndoStack selectionBefore) (s, [], false)
    ({ s with transacting := false }, evs ++ [SEvent.history], cc)

/-- The selection-application stage of changeInternal (lines 831 to 837 of
the source): apply the caller-supplied selection, or reprocess the current
one when transactions were given (to flush the processing bypassed inside
the loop). -/
def changeSelStage (env : SurfEnv Doc Tx) (s : Surf Doc Tx)
    (transactionsGiven : Bool) (selection : Option Sel) : Surf Doc Tx × List SEvent :=
  match selection with
  | some sel => setSelection env s sel
  | none => if transactionsGiven then setSelection env s s.selection else (s, [])

/-- ve.dm.Surface.prototype.changeInternal, translated from the source:
gated by enabled; snapshots selectionBefore; enters the context-change
queueing scope; runs the transaction stage and the selection stage; emits a
select event when the selection changed during the loop but not during
selection application; emits the queued contextChange (through the queue)
when a transaction had attribute operations; and leaves the queueing scope,
flushing at most one coalesced contextChange. -/
def changeInternal (env : SurfEnv Doc Tx) (s0 : Surf Doc Tx)
    (transactions : Option (List Tx)) (selection : Option Sel) (skipUndoStack : Bool) :
    Surf Doc Tx × List SEvent :=
  if !s0.enabled then (s0, [])
  else
    let selectionBefore := s0.selection
    let s := startQueueingContextChanges s0
    let (s, evs1, contextChange) :=
      changeTxsStage env skipUndoStack selectionBefore s transactions
    let selectionAfter := s.selection
    let (s, evs2) := changeSelStage env s transactions.isSome selection
    let evs3 :=
      if !(selectionBefore == selectionAfter) && selectionAfter == s.selection then
        [SEvent.select s.selection]
      else []
    let (s, evs4) := if contextChange then emitContextChange s else (s, [])
    let (s, evs5) := stopQueueingContextChanges s
    (s, evs1 ++ evs2 ++ evs3 ++ evs4 ++ evs5)

/-- ve.dm.Surface.prototype.change: the public mutation entry point,
delegating to changeInternal with skipUndoStack false. -/
def change (env : SurfEnv Doc Tx) (s : Surf Doc Tx)
    (transactions : Option (List Tx)) (selection : Option Sel) :
    Surf Doc Tx × List SEvent :=
  changeInternal env s transactions selection false

/-- ve.dm.Surface.prototype.breakpoint, translated from the source: gated by
enabled (returning false); pushes the pending transactions as a new
undo-stack checkpoint and clears them (returning true), else refreshes a
null selectionBefore from the current selection. The history-tracking timer
reset holds no modelled state. -/
def breakpoint (s : Surf Doc Tx) : Surf Doc Tx × Bool :=
  if !s.enabled then (s, false)
  else if !s.newTransactions.isEmpty then
    ({ s with
        undoStack := s.undoStack ++
          [{ transactions := s.newTransactions,
             selection := s.selection,
             selectionBefore := s.selectionBefore }],
        newTransactions := [] }, true)
  else if s.selectionBefore.isNull && !s.selection.isNull then
    ({ s with selectionBefore := s.selection }, false)
  else (s, false)

/-- ve.dm.Surface.prototype.pushStaging, translated from the source: when
entering staging, set a breakpoint (to clear the pending buffer), stop
history tracking and emit history; then push a fresh frame with no
transactions, a null selectionBefore and the given allowUndo flag. There is
no enabled gate. -/
def pushStaging (s : Surf Doc Tx) (allowUndo : Bool) : Surf Doc Tx × List SEvent :=
  let (s, evs) :=
    if !isStaging s then
      let (s, _) := breakpoint s
      (s, [SEvent.history])
    else (s, [])
  ({ s with stagingStack :=
      s.stagingStack ++
        [{ transactions := [], selectionBefore := Sel.nullSel, allowUndo := allowUndo }] },
    evs)

/-- ve.dm.Surface.prototype.popStaging, translated from the source: when
staging, pop the top frame, commit the reversed forms of its transactions in
reverse order through changeInternal with skipUndoStack, emit history when
the stack became empty, and return the popped transactions. -/
def popStaging (env : SurfEnv Doc Tx) (s : Surf Doc Tx) :
    Surf Doc Tx × Option (List Tx) × List SEvent :=
  if !isStaging s then (s, none, [])
  else
    let staging := (getStaging s).getD { transactions := [], selectionBefore := Sel.nullSel, allowUndo := false }
    let s := { s with stagingStack := s.stagingStack.dropLast }
    let reverseTransactions := staging.transactions.reverse.map env.reversed
    let (s, evsC) := changeInternal env s (some reverseTransactions) none true
    let (s, evsH) := if !isStaging s then (s, [SEvent.history]) else (s, [])
    (s, some staging.transactions, evsC ++ evsH)

/-- ve.dm.Surface.prototype.applyStaging, translated from the source: pop
the top frame; merge its transactions (and a null-replacing selectionBefore)
into the parent frame when one remains, else truncate the redo history, make
the frame transactions the pending buffer and breakpoint them; emit history
when the stack became empty. There is no enabled gate. -/
def applyStaging (s : Surf Doc Tx) : Surf Doc Tx × List SEvent :=
  if !isStaging s then (s, [])
  else
    let staging := (getStaging s).getD { transactions := [], selectionBefore := Sel.nullSel, allowUndo := false }
    let s := { s with stagingStack := s.stagingStack.dropLast }
    let s :=
      if isStaging s then
        let merged :=
          updateLast s.stagingStack
            (fun f => { f with transactions := f.transactions ++ staging.transactions })
        let s := { s with stagingStack := merged }
        if (getStaging s).map (fun f => f.selectionBefore.isNull) == some true then
          let replaced :=
            updateLast s.stagingStack
              (fun f => { f with selectionBefore := staging.selectionBefore })
          { s with stagingStack := replaced }
        else s
      else
        let s := truncateUndoStack s
        let s := { s with
          newTransactions := staging.transactions,
          selectionBefore := staging.selectionBefore }
        (breakpoint s).1
    if !isStaging s then (s, [SEvent.history]) else (s, [])

/-- ve.dm.Surface.prototype.popAllStaging: pop staging frames until the
stack is empty, prepending each popped frame's transactions. The fuel is the
staging-stack depth, which each popStaging decreases by one. -/
def popAllStagingGo (env : SurfEnv Doc Tx) :
    Nat → Surf Doc Tx → List Tx → List SEvent → Surf Doc Tx × List Tx × List SEvent
  | 0, s, txs, evs => (s, txs, evs)
  | fuel + 1, s, txs, evs =>
    if isStaging s then
      let (s, popped, evsP) := popStaging env s
      popAllStagingGo env fuel s (popped.getD [] ++ txs) (evs ++ evsP)
    else (s, txs, evs)

/-- ve.dm.Surface.prototype.popAllStaging (undefined result when not
staging, else the concatenation of all popped transactions). -/
def popAllStaging (env : SurfEnv Doc Tx) (s : Surf Doc Tx) :
    Surf Doc Tx × Option (List Tx) × List SEvent :=
  if !isStaging s then (s, none, [])
  else
    let (s, txs, evs) := popAllStagingGo env s.stagingStack.length s [] []
    (s, some txs, evs)

/-- ve.dm.Surface.prototype.undo, translated from the source: gated by
canUndo; pops all staging; breakpoints the pending buffer; advances the undo
index; and replays the checkpoint transactions, each reversed, in reverse
order, restoring selectionBefore, through changeInternal with
skipUndoStack. -/
def undo (env : SurfEnv Doc Tx) (s : Surf Doc Tx) : Surf Doc Tx × List SEvent :=
  if !canUndo s then (s, [])
  else
    let (s, evsP) :=
      if isStaging s then
        let (s, _, evs) := popAllStaging env s
        (s, evs)
      else (s, [])
    let (s, _) := breakpoint s
    let s := { s with undoIndex := s.undoIndex + 1 }
    match jsIndex s.undoStack ((s.undoStack.length : Int) - (s.undoIndex : Int)) with
    | some item =>
      let txs := item.transactions.reverse.map env.reversed
      let (s2, evs2) := changeInternal env s (some txs) (some item.selectionBefore) true
      (s2, evsP ++ evs2)
    | none => (s, evsP)

/-- ve.dm.Surface.prototype.redo, translated from the source: gated by
canRedo; breakpoints; reads the checkpoint above the undo index and, when it
exists, decrements the undo index and replays deep copies of its
transactions restoring its selection, through changeInternal with
skipUndoStack. -/
def redo (env : SurfEnv Doc Tx) (s : Surf Doc Tx) : Surf Doc Tx × List SEvent :=
  if !canRedo s then (s, [])
  else
    let (s, _) := breakpoint s
    match jsIndex s.undoStack ((s.undoStack.length : Int) - (s.undoIndex : Int)) with
    | some item =>
      let s := { s with undoIndex := s.undoIndex - 1 }
      changeInternal env s (some (item.transactions.map env.copyTx)) (some item.selection) true
    | none => (s, [])

/-- Concrete collaborator instantiation used by witnesses: a document is an
integer, a transaction adds its value to it, reversal negates and zero is
the no-op (reversal after application restores the document, as Transaction
guarantees). -/
def intEnv : SurfEnv Int Int where
  commit := fun d t => d + t
  reversed := fun t => -t
  isNoOp := fun t => t == 0
  hasElementAttributeOperations := fun _ => false
  translateByTransaction := fun sel _ => sel
  copyTx := id
  getBranchNodeFromOffset := fun _ _ => none
  getNodeFromOffset := fun _ _ => none
  getOuterRange := fun _ _ => { fromOff := 0, toOff := 0 }
  getInsertionAnnsFromRange := fun _ _ => []
  getAnnsFromOffset := fun _ _ => []
  getAnnsFromRangeAll := fun _ _ => []

/-- A fresh enabled surface over the integer document 10, used by
witnesses. -/
def surfTen : Surf Int Int := { doc := 10 }

/-- setInsertionAnnotations only touches the insertionAnns field (and emits):
document, history, staging, selection and the control flags are untouched. -/
theorem setInsertionAnns_frame (s : Surf Doc Tx) (anns : Option (List Nat)) :
    (setInsertionAnns s anns).1.doc = s.doc ∧
    (setInsertionAnns s anns).1.newTransactions = s.newTransactions ∧
    (setInsertionAnns s anns).1.stagingStack = s.stagingStack ∧
    (setInsertionAnns s anns).1.undoStack = s.undoStack ∧
    (setInsertionAnns s anns).1.undoIndex = s.undoIndex ∧
    (setInsertionAnns s anns).1.enabled = s.enabled ∧
    (setInsertionAnns s anns).1.transacting = s.transacting ∧
    (setInsertionAnns s anns).1.queueingContextChanges = s.queueingContextChanges ∧
    (setInsertionAnns s anns).1.selection = s.selection ∧
    (setInsertionAnns s anns).1.translatedSelection = s.translatedSelection ∧
    (setInsertionAnns s anns).1.contextChangeQueued = s.contextChangeQueued ∧
    (setInsertionAnns s anns).1.selectionBefore = s.selectionBefore ∧
    (setInsertionAnns s anns).1.branchNodes = s.branchNodes ∧
    (setInsertionAnns s anns).1.selectedNode = s.selectedNode ∧
    (setInsertionAnns s anns).1.isCollapsedF = s.isCollapsedF ∧
    (setInsertionAnns s anns).1.selectedAnns = s.selectedAnns := by
  unfold setInsertionAnns
  split <;> simp

/-- The selection-variant dispatch only touches the insertionAnns and
selectedAnns caches; everything else is untouched. -/
theorem selVariantUpdate_frame (env : SurfEnv Doc Tx) (s : Surf Doc Tx) (sel : Sel) :
    (selVariantUpdate env s sel).1.doc = s.doc ∧
    (selVariantUpdate env s sel).1.newTransactions = s.newTransactions ∧
    (selVariantUpdate env s sel).1.stagingStack = s.stagingStack ∧
    (selVariantUpdate env s sel).1.undoStack = s.undoStack ∧
    (selVariantUpdate env s sel).1.undoIndex = s.undoIndex ∧
    (selVariantUpdate env s sel).1.enabled = s.enabled ∧
    (selVariantUpdate env s sel).1.transacting = s.transacting ∧
    (selVariantUpdate env s sel).1.queueingContextChanges = s.queueingContextChanges ∧
    (selVariantUpdate env s sel).1.selection = s.selection ∧
    (selVariantUpdate env s sel).1.translatedSelection = s.translatedSelection ∧
    (selVariantUpdate env s sel).1.contextChangeQueued = s.contextChangeQueued ∧
    (selVariantUpdate env s sel).1.branchNodes = s.branchNodes ∧
    (selVariantUpdate env s sel).1.selectedNode = s.selectedNode ∧
    (selVariantUpdate env s sel).1.isCollapsedF = s.isCollapsedF ∧
    (selVariantUpdate env s sel).1.selectionBefore = s.selectionBefore := by
  cases sel with
  | linear range =>
    obtain ⟨f1, f2, f3, f4, f5, f6, f7, f8, f9, f10, f11, f12, f13, f14, f15, f16⟩ :=
      setInsertionAnns_frame s (some (env.getInsertionAnnsFromRange s.doc range))
    simp only [selVariantUpdate]
    repeat' split
    all_goals simp_all
  | table node => simp [selVariantUpdate]
  | nullSel => simp [selVariantUpdate]

/-- setSelection never touches the document, the pending and staging
buffers, the history or the control flags. -/
theorem setSelectionProcess_frame (env : SurfEnv Doc Tx) (s : Surf Doc Tx)
    (oldSel sel : Sel) (sc : Bool) :
    (setSelectionProcess env s oldSel sel sc).1.doc = s.doc ∧
    (setSelectionProcess env s oldSel sel sc).1.newTransactions = s.newTransactions ∧
    (setSelectionProcess env s oldSel sel sc).1.stagingStack = s.stagingStack ∧
    (setSelectionProcess env s oldSel sel sc).1.undoStack = s.undoStack ∧
    (setSelectionProcess env s oldSel sel sc).1.undoIndex = s.undoIndex ∧
    (setSelectionProcess env s oldSel sel sc).1.enabled = s.enabled ∧
    (setSelectionProcess env s oldSel sel sc).1.transacting = s.transacting ∧
    (setSelectionProcess env s oldSel sel sc).1.queueingContextChanges = s.queueingContextChanges ∧
    (setSelectionProcess env s oldSel sel sc).1.selectionBefore = s.selectionBefore ∧
    (setSelectionProcess env s oldSel sel sc).1.selection = s.selection := by
  unfold setSelectionProcess
  obtain ⟨g1, g2, g3, g4, g5, g6, g7, g8, g9, g10, g11, g12, g13, g14, g15⟩ :=
    selVariantUpdate_frame env s sel
  rcases hsv : selVariantUpdate env s sel with ⟨s3, ro, bn, sn, cc, ae⟩
  rw [hsv] at g1 g2 g3 g4 g5 g6 g7 g8 g9 g10 g11 g12 g13 g14 g15
  simp only [emitContextChange]
  repeat' split
  all_goals simp_all

/-- setSelection never touches the document, the pending and staging
buffers, the history or the control flags. -/
theorem setSelection_frame (env : SurfEnv Doc Tx) (s : Surf Doc Tx) (sel : Sel) :
    (setSelection env s sel).1.doc = s.doc ∧
    (setSelection env s sel).1.newTransactions = s.newTransactions ∧
    (setSelection env s sel).1.stagingStack = s.stagingStack ∧
    (setSelection env s sel).1.undoStack = s.undoStack ∧
    (setSelection env s sel).1.undoIndex = s.undoIndex ∧
    (setSelection env s sel).1.enabled = s.enabled ∧
    (setSelection env s sel).1.transacting = s.transacting ∧
    (setSelection env s sel).1.queueingContextChanges = s.queueingContextChanges ∧
    (setSelection env s sel).1.selectionBefore = s.selectionBefore := by
  unfold setSelection
  by_cases he : s.enabled = true
  case neg => simp_all
  simp only [he]
  by_cases ht : s.transacting = true
  case pos => simp_all
  simp only [Bool.not_eq_true] at ht
  simp only [ht]
  by_cases hc : (s.selection == sel) = true
  · have hp := setSelectionProcess_frame env
      ({ s with translatedSelection := none }) s.selection sel false
    simp only [hc] at *
    simp_all
  · have hp := setSelectionProcess_frame env
      ({ s with translatedSelection := none, selection := sel }) s.selection sel true
    simp only [Bool.not_eq_true] at hc
    simp only [hc] at *
    simp_all

/-- C9: whenever the transacting flag is true (as it is only during the
transaction-application loop of change, which requires an enabled surface),
setSelection stores the selection, clears translatedSelection, changes no
other field (branchNodes, selectedNode, insertionAnns, selectedAnns,
isCollapsed, document, history and staging state untouched) and emits no
select, focus, blur or contextChange event. -/
theorem C9_transacting_setSelection_is_shallow_store (env : SurfEnv Doc Tx)
    (s : Surf Doc Tx) (sel : Sel) (ht : s.transacting = true) (he : s.enabled = true) :
    setSelection env s sel = ({ s with translatedSelection := none, selection := sel }, []) := by
  unfold setSelection
  simp [he, ht]

/-- The transacting surface used by the C9 witness. -/
def surfTransacting : Surf Int Int := { surfTen with transacting := true }

/-- Witness for C9 at a concrete surface and selection. -/
theorem C9_witness :
    setSelection intEnv surfTransacting (Sel.linear { fromOff := 1, toOff := 2 }) =
      ({ surfTransacting with
          translatedSelection := none
          selection := Sel.linear { fromOff := 1, toOff := 2 } }, []) :=
  C9_transacting_setSelection_is_shallow_store intEnv
    surfTransacting (Sel.linear { fromOff := 1, toOff := 2 }) rfl rfl

/-- C7 amended: on a disabled surface every listed mutation method except
the staging ones is inert: change/changeInternal, setSelection,
setInsertionAnnotations, addInsertionAnnotations, removeInsertionAnnotations,
breakpoint, undo and redo change no state, emit no events and raise no
error. The staging methods pushStaging, popStaging and applyStaging are not
gated by the enabled flag (see the counterexample). -/
theorem C7_amended_disabled_nonstaging_mutators_inert (env : SurfEnv Doc Tx)
    (s : Surf Doc Tx) (he : s.enabled = false)
    (txs : Option (List Tx)) (sel : Option Sel) (skip : Bool)
    (sl : Sel) (anns : Option (List Nat)) (arg : AnnsArg) :
    changeInternal env s txs sel skip = (s, []) ∧
    change env s txs sel = (s, []) ∧
    setSelection env s sl = (s, []) ∧
    setInsertionAnns s anns = (s, []) ∧
    addInsertionAnns s arg = Except.ok (s, []) ∧
    removeInsertionAnns s arg = Except.ok (s, []) ∧
    breakpoint s = (s, false) ∧
    undo env s = (s, []) ∧
    redo env s = (s, []) := by
  refine ⟨?_, ?_, ?_, ?_, ?_, ?_, ?_, ?_, ?_⟩ <;>
    simp [changeInternal, change, setSelection, setInsertionAnns, addInsertionAnns,
      removeInsertionAnns, breakpoint, undo, redo, canUndo, canRedo, he]

/-- A disabled surface over the integer document 0. -/
def surfDisabled : Surf Int Int := { doc := 0, enabled := false }

/-- Witness for the amended C7 at a concrete disabled surface. -/
theorem C7_witness :
    changeInternal intEnv surfDisabled (some [1]) none false = (surfDisabled, []) ∧
    undo intEnv surfDisabled = (surfDisabled, []) :=
  ⟨(C7_amended_disabled_nonstaging_mutators_inert intEnv surfDisabled rfl (some [1]) none false
      Sel.nullSel none AnnsArg.invalid).1,
   (C7_amended_disabled_nonstaging_mutators_inert intEnv surfDisabled rfl (some [1]) none false
      Sel.nullSel none AnnsArg.invalid).2.2.2.2.2.2.2.1⟩

/-- C7 counterexample: pushStaging has no enabled gate, so calling it on a
disabled surface pushes a staging frame (changing surface state) and emits a
history event, contradicting the claim that every listed mutation method of
a disabled surface changes no state and emits no events. -/
theorem C7_counterexample :
    surfDisabled.enabled = false ∧
    (pushStaging surfDisabled false).1.stagingStack ≠ surfDisabled.stagingStack ∧
    (pushStaging surfDisabled false).2 = [SEvent.history] := by
  decide

/-- truncateUndoStack truncates the stack to the part below the undo index,
resets the index and touches nothing else. -/
theorem truncateUndoStack_effect (s : Surf Doc Tx) :
    (truncateUndoStack s).undoStack = s.undoStack.take (s.undoStack.length - s.undoIndex) ∧
    (truncateUndoStack s).undoIndex = 0 ∧
    (truncateUndoStack s).doc = s.doc ∧
    (truncateUndoStack s).newTransactions = s.newTransactions ∧
    (truncateUndoStack s).stagingStack = s.stagingStack ∧
    (truncateUndoStack s).enabled = s.enabled ∧
    (truncateUndoStack s).transacting = s.transacting ∧
    (truncateUndoStack s).queueingContextChanges = s.queueingContextChanges ∧
    (truncateUndoStack s).selectionBefore = s.selectionBefore ∧
    (truncateUndoStack s).selection = s.selection := by
  unfold truncateUndoStack
  split
  case isTrue h => simp
  case isFalse h =>
    simp only [Decidable.not_not] at h
    simp [h, List.take_length]

/-- startQueueingContextChanges only touches the two queueing flags. -/
theorem startQueueing_frame (s : Surf Doc Tx) :
    (startQueueingContextChanges s).doc = s.doc ∧
    (startQueueingContextChanges s).newTransactions = s.newTransactions ∧
    (startQueueingContextChanges s).stagingStack = s.stagingStack ∧
    (startQueueingContextChanges s).undoStack = s.undoStack ∧
    (startQueueingContextChanges s).undoIndex = s.undoIndex ∧
    (startQueueingContextChanges s).enabled = s.enabled ∧
    (startQueueingContextChanges s).transacting = s.transacting ∧
    (startQueueingContextChanges s).selection = s.selection ∧
    (startQueueingContextChanges s).selectionBefore = s.selectionBefore := by
  unfold startQueueingContextChanges
  split <;> simp

/-- After startQueueingContextChanges the queueing flag is always set. -/
theorem startQueueing_queueing (s : Surf Doc Tx) :
    (startQueueingContextChanges s).queueingContextChanges = true := by
  unfold startQueueingContextChanges
  split
  case isTrue h => simp
  case isFalse h => simpa using h

/-- emitContextChange only touches the contextChangeQueued flag. -/
theorem emitContextChange_frame (s : Surf Doc Tx) :
    (emitContextChange s).1.doc = s.doc ∧
    (emitContextChange s).1.newTransactions = s.newTransactions ∧
    (emitContextChange s).1.stagingStack = s.stagingStack ∧
    (emitContextChange s).1.undoStack = s.undoStack ∧
    (emitContextChange s).1.undoIndex = s.undoIndex ∧
    (emitContextChange s).1.enabled = s.enabled ∧
    (emitContextChange s).1.transacting = s.transacting ∧
    (emitContextChange s).1.queueingContextChanges = s.queueingContextChanges ∧
    (emitContextChange s).1.selection = s.selection ∧
    (emitContextChange s).1.selectionBefore = s.selectionBefore := by
  unfold emitContextChange
  split <;> simp

/-- stopQueueingContextChanges only touches the two queueing flags. -/
theorem stopQueueing_frame (s : Surf Doc Tx) :
    (stopQueueingContextChanges s).1.doc = s.doc ∧
    (stopQueueingContextChanges s).1.newTransactions = s.newTransactions ∧
    (stopQueueingContextChanges s).1.stagingStack = s.stagingStack ∧
    (stopQueueingContextChanges s).1.undoStack = s.undoStack ∧
    (stopQueueingContextChanges s).1.undoIndex = s.undoIndex ∧
    (stopQueueingContextChanges s).1.enabled = s.enabled ∧
    (stopQueueingContextChanges s).1.transacting = s.transacting ∧
    (stopQueueingContextChanges s).1.selection = s.selection ∧
    (stopQueueingContextChanges s).1.selectionBefore = s.selectionBefore := by
  unfold stopQueueingContextChanges
  split
  · split <;> simp
  · simp

/-- Committing one transaction through the document multiplies the commit
operation into the document field and touches none of the history, staging
or control fields. -/
theorem surfCommitTx_frame (env : SurfEnv Doc Tx) (s : Surf Doc Tx) (tx : Tx) :
    (surfCommitTx env s tx).1.newTransactions = s.newTransactions ∧
    (surfCommitTx env s tx).1.stagingStack = s.stagingStack ∧
    (surfCommitTx env s tx).1.undoStack = s.undoStack ∧
    (surfCommitTx env s tx).1.undoIndex = s.undoIndex ∧
    (surfCommitTx env s tx).1.enabled = s.enabled ∧
    (surfCommitTx env s tx).1.transacting = s.transacting ∧
    (surfCommitTx env s tx).1.queueingContextChanges = s.queueingContextChanges ∧
    (surfCommitTx env s tx).1.selectionBefore = s.selectionBefore ∧
    (surfCommitTx env s tx).1.doc = env.commit s.doc tx := by
  have h := setSelection_frame env
    { s with translatedSelection := some (env.translateByTransaction s.selection tx),
             doc := env.commit s.doc tx }
    (env.translateByTransaction s.selection tx)
  obtain ⟨h1, h2, h3, h4, h5, h6, h7, h8, h9⟩ := h
  unfold surfCommitTx
  exact ⟨h2, h3, h4, h5, h6, h7, h8, h9, h1⟩

/-- Committing through the document from a state whose redo history is
already truncated keeps it truncated. -/
theorem surfCommitTx_undo_fields (env : SurfEnv Doc Tx) (tx : Tx) (s3 base : Surf Doc Tx)
    (h1 : s3.stagingStack = []) (h2 : s3.undoIndex = 0)
    (h3 : s3.undoStack = base.undoStack.take (base.undoStack.length - base.undoIndex))
    (h4 : s3.enabled = base.enabled) (h5 : s3.transacting = base.transacting)
    (h6 : s3.queueingContextChanges = base.queueingContextChanges) :
    (surfCommitTx env s3 tx).1.stagingStack = [] ∧
    (surfCommitTx env s3 tx).1.enabled = base.enabled ∧
    (surfCommitTx env s3 tx).1.transacting = base.transacting ∧
    (surfCommitTx env s3 tx).1.queueingContextChanges = base.queueingContextChanges ∧
    (surfCommitTx env s3 tx).1.undoIndex = 0 ∧
    (surfCommitTx env s3 tx).1.undoStack =
      base.undoStack.take (base.undoStack.length - base.undoIndex) := by
  obtain ⟨k1, k2, k3, k4, k5, k6, k7, k8, k9⟩ := surfCommitTx_frame env s3 tx
  exact ⟨by rw [k2, h1], by rw [k5, h4], by rw [k6, h5], by rw [k7, h6],
    by rw [k4, h2], by rw [k3, h3]⟩

/-- One non-staging loop iteration: a no-op leaves the accumulator as is; a
genuine transaction truncates the redo history (resetting the undo index)
and keeps the staging stack empty; the control flags are preserved either
way. -/
theorem processOneTx_nonstaging (env : SurfEnv Doc Tx) (selB : Sel)
    (s : Surf Doc Tx) (evs : List SEvent) (cc : Bool) (tx : Tx)
    (hst : s.stagingStack = []) :
    (processOneTx env false selB (s, evs, cc) tx).1.stagingStack = [] ∧
    (processOneTx env false selB (s, evs, cc) tx).1.enabled = s.enabled ∧
    (processOneTx env false selB (s, evs, cc) tx).1.transacting = s.transacting ∧
    (processOneTx env false selB (s, evs, cc) tx).1.queueingContextChanges =
      s.queueingContextChanges ∧
    ((env.isNoOp tx = true ∧ processOneTx env false selB (s, evs, cc) tx = (s, evs, cc)) ∨
      (env.isNoOp tx = false ∧
        (processOneTx env false selB (s, evs, cc) tx).1.undoIndex = 0 ∧
        (processOneTx env false selB (s, evs, cc) tx).1.undoStack =
          s.undoStack.take (s.undoStack.length - s.undoIndex))) := by
  have hestage : isStaging s = false := by simp [isStaging, hst]
  obtain ⟨t1, t2, t3, t4, t5, t6, t7, t8, t9, t10⟩ := truncateUndoStack_effect s
  unfold processOneTx
  cases hnoop : env.isNoOp tx with
  | true => simp [hnoop, hst]
  | false =>
    simp only [hnoop, hestage, Bool.false_eq_true, if_false, Bool.not_false, if_true,
      Bool.not_eq_true]
    split
    case isTrue hempty =>
      have hk := surfCommitTx_undo_fields env tx
        { truncateUndoStack s with
            selectionBefore := selB
            newTransactions := (truncateUndoStack s).newTransactions ++ [tx] } s
        (by simp [t5, hst]) (by simp [t2]) (by simp [t1]) (by simp [t6]) (by simp [t7])
        (by simp [t8])
      obtain ⟨m1, m2, m3, m4, m5, m6⟩ := hk
      exact ⟨m1, m2, m3, m4, Or.inr ⟨trivial, m5, m6⟩⟩
    case isFalse hempty =>
      have hk := surfCommitTx_undo_fields env tx
        { truncateUndoStack s with
            newTransactions := (truncateUndoStack s).newTransactions ++ [tx] } s
        (by simp [t5, hst]) (by simp [t2]) (by simp [t1]) (by simp [t6]) (by simp [t7])
        (by simp [t8])
      obtain ⟨m1, m2, m3, m4, m5, m6⟩ := hk
      exact ⟨m1, m2, m3, m4, Or.inr ⟨trivial, m5, m6⟩⟩

/-- The non-staging transaction loop: the staging stack stays empty, the
control flags are preserved, and as soon as one transaction is not a no-op
the redo history is truncated and the undo index reset. -/
theorem changeLoop_nonstaging (env : SurfEnv Doc Tx) (selB : Sel) (txs : List Tx) :
    ∀ (s : Surf Doc Tx) (evs : List SEvent) (cc : Bool), s.stagingStack = [] →
    (txs.foldl (processOneTx env false selB) (s, evs, cc)).1.stagingStack = [] ∧
    (txs.foldl (processOneTx env false selB) (s, evs, cc)).1.enabled = s.enabled ∧
    (txs.foldl (processOneTx env false selB) (s, evs, cc)).1.transacting = s.transacting ∧
    (txs.foldl (processOneTx env false selB) (s, evs, cc)).1.queueingContextChanges =
      s.queueingContextChanges ∧
    ((txs.all env.isNoOp = true ∧
        (txs.foldl (processOneTx env false selB) (s, evs, cc)).1.undoIndex = s.undoIndex ∧
        (txs.foldl (processOneTx env false selB) (s, evs, cc)).1.undoStack = s.undoStack) ∨
      (txs.all env.isNoOp = false ∧
        (txs.foldl (processOneTx env false selB) (s, evs, cc)).1.undoIndex = 0 ∧
        (txs.foldl (processOneTx env false selB) (s, evs, cc)).1.undoStack =
          s.undoStack.take (s.undoStack.length - s.undoIndex))) := by
  induction txs with
  | nil =>
    intro s evs cc hst
    exact ⟨hst, rfl, rfl, rfl, Or.inl ⟨rfl, rfl, rfl⟩⟩
  | cons t rest ih =>
    intro s evs cc hst
    obtain ⟨p1, p2, p3, p4, p5⟩ := processOneTx_nonstaging env selB s evs cc t hst
    rcases p5 with ⟨hn, heq⟩ | ⟨hn, hidx, hstk⟩
    · rw [List.foldl_cons, heq]
      obtain ⟨q1, q2, q3, q4, q5⟩ := ih s evs cc hst
      refine ⟨q1, q2, q3, q4, ?_⟩
      rcases q5 with ⟨ha, hb, hcq⟩ | ⟨ha, hb, hcq⟩
      · exact Or.inl ⟨by simp [List.all_cons, hn, ha], hb, hcq⟩
      · exact Or.inr ⟨by simp [List.all_cons, hn, ha], hb, hcq⟩
    · rw [List.foldl_cons]
      rcases hacc : processOneTx env false selB (s, evs, cc) t with ⟨s1, evs1, cc1⟩
      rw [hacc] at p1 p2 p3 p4 hidx hstk
      simp only at p1 p2 p3 p4 hidx hstk
      obtain ⟨q1, q2, q3, q4, q5⟩ := ih s1 evs1 cc1 p1
      have hall : (t :: rest).all env.isNoOp = false := by simp [List.all_cons, hn]
      refine ⟨q1, by rw [q2, p2], by rw [q3, p3], by rw [q4, p4], Or.inr ⟨hall, ?_, ?_⟩⟩
      · rcases q5 with ⟨_, hb, _⟩ | ⟨_, hb, _⟩
        · rw [hb, hidx]
        · rw [hb]
      · rcases q5 with ⟨_, _, hcq⟩ | ⟨_, _, hcq⟩
        · rw [hcq, hstk]
        · rw [hcq, hidx, hstk]
          simp [List.take_length]

/-- The transaction stage outside staging with at least one genuine
transaction: the staging stack stays empty, enabled and the queueing flag
are preserved, and the redo history ends up truncated with the undo index
reset. -/
theorem changeTxsStage_nonstaging (env : SurfEnv Doc Tx) (selB : Sel) (sQ : Surf Doc Tx)
    (txs : List Tx) (hst : sQ.stagingStack = []) (hnn : txs.all env.isNoOp = false) :
    (changeTxsStage env false selB sQ (some txs)).1.stagingStack = [] ∧
    (changeTxsStage env false selB sQ (some txs)).1.enabled = sQ.enabled ∧
    (changeTxsStage env false selB sQ (some txs)).1.queueingContextChanges =
      sQ.queueingContextChanges ∧
    (changeTxsStage env false selB sQ (some txs)).1.undoIndex = 0 ∧
    (changeTxsStage env false selB sQ (some txs)).1.undoStack =
      sQ.undoStack.take (sQ.undoStack.length - sQ.undoIndex) := by
  unfold changeTxsStage
  dsimp only
  obtain ⟨q1, q2, q3, q4, q5⟩ := changeLoop_nonstaging env selB txs
    { sQ with transacting := true } [] false (by simpa using hst)
  rcases hf : txs.foldl (processOneTx env false selB)
      ({ sQ with transacting := true }, [], false) with ⟨f1, f2, f3⟩
  rw [hf] at q1 q2 q3 q4 q5
  simp only at q1 q2 q3 q4 q5
  rcases q5 with ⟨ha, _, _⟩ | ⟨_, hb, hcq⟩
  · rw [ha] at hnn
    exact absurd hnn (by simp)
  · exact ⟨by simp [q1], by simpa using q2, by simpa using q4,
      by simpa using hb, by simpa using hcq⟩

/-- The selection stage of changeInternal preserves the same fields as
setSelection. -/
theorem changeSelStage_frame (env : SurfEnv Doc Tx) (s : Surf Doc Tx)
    (tg : Bool) (sel : Option Sel) :
    (changeSelStage env s tg sel).1.doc = s.doc ∧
    (changeSelStage env s tg sel).1.newTransactions = s.newTransactions ∧
    (changeSelStage env s tg sel).1.stagingStack = s.stagingStack ∧
    (changeSelStage env s tg sel).1.undoStack = s.undoStack ∧
    (changeSelStage env s tg sel).1.undoIndex = s.undoIndex ∧
    (changeSelStage env s tg sel).1.enabled = s.enabled ∧
    (changeSelStage env s tg sel).1.transacting = s.transacting ∧
    (changeSelStage env s tg sel).1.queueingContextChanges = s.queueingContextChanges ∧
    (changeSelStage env s tg sel).1.selectionBefore = s.selectionBefore := by
  cases sel with
  | none =>
    unfold changeSelStage
    dsimp only
    split
    · exact setSelection_frame env s s.selection
    · simp
  | some sl => exact setSelection_frame env s sl

/-- The two closing stages of changeInternal (coalesced contextChange and
leaving the queueing scope) preserve document, history and staging state. -/
theorem tailStages_fields (s : Surf Doc Tx) (cond : Bool) :
    (stopQueueingContextChanges (if cond then emitContextChange s else (s, [])).1).1.doc = s.doc ∧
    (stopQueueingContextChanges (if cond then emitContextChange s else (s, [])).1).1.newTransactions = s.newTransactions ∧
    (stopQueueingContextChanges (if cond then emitContextChange s else (s, [])).1).1.stagingStack = s.stagingStack ∧
    (stopQueueingContextChanges (if cond then emitContextChange s else (s, [])).1).1.undoStack = s.undoStack ∧
    (stopQueueingContextChanges (if cond then emitContextChange s else (s, [])).1).1.undoIndex = s.undoIndex ∧
    (stopQueueingContextChanges (if cond then emitContextChange s else (s, [])).1).1.enabled = s.enabled := by
  cases cond with
  | false =>
    obtain ⟨t1, t2, t3, t4, t5, t6, t7, t8, t9⟩ := stopQueueing_frame s
    simp only [Bool.false_eq_true, if_false]
    exact ⟨t1, t2, t3, t4, t5, t6⟩
  | true =>
    obtain ⟨e1, e2, e3, e4, e5, e6, e7, e8, e9, e10⟩ := emitContextChange_frame s
    obtain ⟨t1, t2, t3, t4, t5, t6, t7, t8, t9⟩ := stopQueueing_frame (emitContextChange s).1
    simp only [if_true]
    exact ⟨by rw [t1, e1], by rw [t2, e2], by rw [t3, e3], by rw [t4, e4],
      by rw [t5, e5], by rw [t6, e6]⟩

/-- C4: committing a list of transactions containing at least one genuine
(non-no-op) transaction through change on an enabled, non-staging surface
with undoIndex positive removes the top undoIndex checkpoints from the undo
stack, resets undoIndex to zero, and makes canRedo false, discarding every
state previously reachable by redo. -/
theorem C4_fresh_edit_truncates_redo_history (env : SurfEnv Doc Tx) (s : Surf Doc Tx)
    (txs : List Tx) (sel : Option Sel)
    (he : s.enabled = true) (hst : s.stagingStack = [])
    (hui : 0 < s.undoIndex) (hnn : txs.all env.isNoOp = false) :
    (change env s (some txs) sel).1.undoIndex = 0 ∧
    (change env s (some txs) sel).1.undoStack =
      s.undoStack.take (s.undoStack.length - s.undoIndex) ∧
    canRedo (change env s (some txs) sel).1 = false := by
  obtain ⟨sq1, sq2, sq3, sq4, sq5, sq6, sq7, sq8, sq9⟩ := startQueueing_frame s
  obtain ⟨m1, m2, m3, m4, m5⟩ := changeTxsStage_nonstaging env s.selection
    (startQueueingContextChanges s) txs (by rw [sq3, hst]) hnn
  rw [sq4, sq5] at m5
  unfold change changeInternal
  rw [if_neg (by simp [he])]
  rcases hm : changeTxsStage env false s.selection (startQueueingContextChanges s)
      (some txs) with ⟨mm1, mevs, mcc⟩
  rw [hm] at m1 m2 m3 m4 m5
  simp only at m1 m2 m3 m4 m5
  simp only [hm]
  obtain ⟨c1, c2, c3, c4, c5, c6, c7, c8, c9⟩ :=
    changeSelStage_frame env mm1 (some txs).isSome sel
  rcases hp : changeSelStage env mm1 (some txs).isSome sel with ⟨pp1, pevs⟩
  rw [hp] at c1 c2 c3 c4 c5 c6 c7 c8 c9
  simp only at c1 c2 c3 c4 c5 c6 c7 c8 c9
  simp only [hp]
  obtain ⟨w1, w2, w3, w4, w5, w6⟩ := tailStages_fields pp1 mcc
  have hidx : (stopQueueingContextChanges
      (if mcc then emitContextChange pp1 else (pp1, [])).1).1.undoIndex = 0 := by
    rw [w5, c5, m4]
  have hstk : (stopQueueingContextChanges
      (if mcc then emitContextChange pp1 else (pp1, [])).1).1.undoStack =
      s.undoStack.take (s.undoStack.length - s.undoIndex) := by
    rw [w4, c4, m5]
  refine ⟨hidx, hstk, ?_⟩
  simp [canRedo, hidx]

/-- The last element of a list with one element appended. -/
theorem getLast?_append_one {α : Type} (l : List α) (a : α) :
    (l ++ [a]).getLast? = some a := by
  induction l with
  | nil => rfl
  | cons x xs ih => simpa [List.getLast?_cons] using ih

/-- dropLast of a list with one element appended. -/
theorem dropLast_append_one {α : Type} (l : List α) (a : α) :
    (l ++ [a]).dropLast = l := by
  simpa using List.dropLast_concat l a

/-- updateLast on a list with one element appended rewrites that element. -/
theorem updateLast_append_one {α : Type} (l : List α) (a : α) (f : α → α) :
    updateLast (l ++ [a]) f = l ++ [f a] := by
  unfold updateLast
  rw [getLast?_append_one, dropLast_append_one]

/-- breakpoint never touches the document, the staging stack, the undo
index or the flags. -/
theorem breakpoint_frame (s : Surf Doc Tx) :
    (breakpoint s).1.doc = s.doc ∧
    (breakpoint s).1.stagingStack = s.stagingStack ∧
    (breakpoint s).1.undoIndex = s.undoIndex ∧
    (breakpoint s).1.enabled = s.enabled ∧
    (breakpoint s).1.transacting = s.transacting ∧
    (breakpoint s).1.queueingContextChanges = s.queueingContextChanges ∧
    (breakpoint s).1.selection = s.selection := by
  unfold breakpoint
  repeat' split
  all_goals simp

/-- One staging loop iteration with a genuine transaction: the transaction
is recorded into the top staging frame (snapshotting selectionBefore when
the frame was empty) and committed to the document; everything below the
top frame and all history fields stay put. -/
theorem processOneTx_staging (env : SurfEnv Doc Tx) (selB : Sel)
    (s : Surf Doc Tx) (evs : List SEvent) (cc : Bool) (tx : Tx)
    (base : List (StagingFrame Tx)) (frame : StagingFrame Tx)
    (hstack : s.stagingStack = base ++ [frame]) (hnoop : env.isNoOp tx = false) :
    ∃ sb2 : Sel,
      (processOneTx env false selB (s, evs, cc) tx).1.stagingStack =
        base ++ [{ frame with transactions := frame.transactions ++ [tx], selectionBefore := sb2 }] ∧
      (processOneTx env false selB (s, evs, cc) tx).1.doc = env.commit s.doc tx ∧
      (processOneTx env false selB (s, evs, cc) tx).1.enabled = s.enabled ∧
      (processOneTx env false selB (s, evs, cc) tx).1.transacting = s.transacting ∧
      (processOneTx env false selB (s, evs, cc) tx).1.queueingContextChanges =
        s.queueingContextChanges ∧
      (processOneTx env false selB (s, evs, cc) tx).1.undoStack = s.undoStack ∧
      (processOneTx env false selB (s, evs, cc) tx).1.undoIndex = s.undoIndex ∧
      (processOneTx env false selB (s, evs, cc) tx).1.newTransactions = s.newTransactions := by
  have hestage : isStaging s = true := by simp [isStaging, hstack]
  have hget : getStaging s = some frame := by
    simp [getStaging, hstack, getLast?_append_one]
  unfold processOneTx
  simp only [hnoop, hestage, Bool.false_eq_true, if_false, Bool.not_false, if_true,
    hget, Option.map_some]
  split
  case isTrue hempty =>
    refine ⟨selB, ?_⟩
    rw [hstack, updateLast_append_one, updateLast_append_one]
    obtain ⟨k1, k2, k3, k4, k5, k6, k7, k8, k9⟩ := surfCommitTx_frame env
      { s with stagingStack :=
          base ++ [{ { frame with selectionBefore := selB } with
            transactions := { frame with selectionBefore := selB }.transactions ++ [tx] }] } tx
    exact ⟨by rw [k2], by rw [k9], by rw [k5], by rw [k6], by rw [k7], by rw [k3], by rw [k4],
      by rw [k1]⟩
  case isFalse hempty =>
    refine ⟨frame.selectionBefore, ?_⟩
    rw [hstack, updateLast_append_one]
    obtain ⟨k1, k2, k3, k4, k5, k6, k7, k8, k9⟩ := surfCommitTx_frame env
      { s with stagingStack :=
          base ++ [{ frame with transactions := frame.transactions ++ [tx] }] } tx
    exact ⟨by rw [k2], by rw [k9], by rw [k5], by rw [k6], by rw [k7], by rw [k3], by rw [k4],
      by rw [k1]⟩

/-- The staging transaction loop: every genuine transaction is appended to
the top frame and committed in order; the base of the staging stack, the
history fields and the flags are preserved. -/
theorem changeLoop_staging (env : SurfEnv Doc Tx) (selB : Sel) (txs : List Tx) :
    ∀ (s : Surf Doc Tx) (evs : List SEvent) (cc : Bool)
      (base : List (StagingFrame Tx)) (frame : StagingFrame Tx),
      s.stagingStack = base ++ [frame] →
    ∃ sb2 : Sel,
      (txs.foldl (processOneTx env false selB) (s, evs, cc)).1.stagingStack =
        base ++ [{ frame with
          transactions := frame.transactions ++ txs.filter (fun t => !env.isNoOp t),
          selectionBefore := sb2 }] ∧
      (txs.foldl (processOneTx env false selB) (s, evs, cc)).1.doc =
        (txs.filter (fun t => !env.isNoOp t)).foldl env.commit s.doc ∧
      (txs.foldl (processOneTx env false selB) (s, evs, cc)).1.enabled = s.enabled ∧
      (txs.foldl (processOneTx env false selB) (s, evs, cc)).1.undoStack = s.undoStack ∧
      (txs.foldl (processOneTx env false selB) (s, evs, cc)).1.undoIndex = s.undoIndex ∧
      (txs.foldl (processOneTx env false selB) (s, evs, cc)).1.newTransactions =
        s.newTransactions := by
  induction txs with
  | nil =>
    intro s evs cc base frame hstack
    exact ⟨frame.selectionBefore, by simpa using hstack, rfl, rfl, rfl, rfl, rfl⟩
  | cons t rest ih =>
    intro s evs cc base frame hstack
    cases hnoop : env.isNoOp t with
    | true =>
      have heq : processOneTx env false selB (s, evs, cc) t = (s, evs, cc) := by
        unfold processOneTx
        simp [hnoop]
      rw [List.foldl_cons, heq]
      obtain ⟨sb2, h1, h2, h3, h4, h5, h6⟩ := ih s evs cc base frame hstack
      exact ⟨sb2, by simpa [List.filter_cons, hnoop] using h1,
        by simpa [List.filter_cons, hnoop] using h2, h3, h4, h5, h6⟩
    | false =>
      obtain ⟨sb1, p1, p2, p3, p4, p5, p6, p7, p8⟩ :=
        processOneTx_staging env selB s evs cc t base frame hstack hnoop
      rw [List.foldl_cons]
      rcases hacc : processOneTx env false selB (s, evs, cc) t with ⟨s1, evs1, cc1⟩
      rw [hacc] at p1 p2 p3 p4 p5 p6 p7 p8
      simp only at p1 p2 p3 p4 p5 p6 p7 p8
      obtain ⟨sb2, h1, h2, h3, h4, h5, h6⟩ := ih s1 evs1 cc1 base
        { frame with transactions := frame.transactions ++ [t], selectionBefore := sb1 } p1
      refine ⟨sb2, ?_, ?_, by rw [h3, p3], by rw [h4, p6], by rw [h5, p7], by rw [h6, p8]⟩
      · rw [h1]
        simp [List.filter_cons, hnoop, List.append_assoc]
      · rw [h2, p2]
        simp [List.filter_cons, hnoop]

/-- One skip-undo-stack loop iteration: the transaction is committed but
recorded nowhere. -/
theorem processOneTx_skip (env : SurfEnv Doc Tx) (selB : Sel)
    (s : Surf Doc Tx) (evs : List SEvent) (cc : Bool) (tx : Tx) :
    (processOneTx env true selB (s, evs, cc) tx).1.doc =
      (if env.isNoOp tx then s.doc else env.commit s.doc tx) ∧
    (processOneTx env true selB (s, evs, cc) tx).1.stagingStack = s.stagingStack ∧
    (processOneTx env true selB (s, evs, cc) tx).1.enabled = s.enabled ∧
    (processOneTx env true selB (s, evs, cc) tx).1.transacting = s.transacting ∧
    (processOneTx env true selB (s, evs, cc) tx).1.undoStack = s.undoStack ∧
    (processOneTx env true selB (s, evs, cc) tx).1.undoIndex = s.undoIndex ∧
    (processOneTx env true selB (s, evs, cc) tx).1.newTransactions = s.newTransactions := by
  obtain ⟨k1, k2, k3, k4, k5, k6, k7, k8, k9⟩ := surfCommitTx_frame env s tx
  unfold processOneTx
  cases hnoop : env.isNoOp tx with
  | true => simp [hnoop]
  | false =>
    simp only [hnoop, Bool.false_eq_true, if_false, Bool.not_true, Bool.not_false]
    exact ⟨k9, k2, k5, k6, k3, k4, k1⟩

/-- The skip-undo-stack transaction loop: the genuine transactions are
committed in order and nothing is recorded anywhere. -/
theorem changeLoop_skip (env : SurfEnv Doc Tx) (selB : Sel) (txs : List Tx) :
    ∀ (s : Surf Doc Tx) (evs : List SEvent) (cc : Bool),
    (txs.foldl (processOneTx env true selB) (s, evs, cc)).1.doc =
      (txs.filter (fun t => !env.isNoOp t)).foldl env.commit s.doc ∧
    (txs.foldl (processOneTx env true selB) (s, evs, cc)).1.stagingStack = s.stagingStack ∧
    (txs.foldl (processOneTx env true selB) (s, evs, cc)).1.enabled = s.enabled ∧
    (txs.foldl (processOneTx env true selB) (s, evs, cc)).1.undoStack = s.undoStack ∧
    (txs.foldl (processOneTx env true selB) (s, evs, cc)).1.undoIndex = s.undoIndex ∧
    (txs.foldl (processOneTx env true selB) (s, evs, cc)).1.newTransactions =
      s.newTransactions := by
  induction txs with
  | nil => intro s evs cc; exact ⟨rfl, rfl, rfl, rfl, rfl, rfl⟩
  | cons t rest ih =>
    intro s evs cc
    obtain ⟨p1, p2, p3, p4, p5, p6, p7⟩ := processOneTx_skip env selB s evs cc t
    rw [List.foldl_cons]
    rcases hacc : processOneTx env true selB (s, evs, cc) t with ⟨s1, evs1, cc1⟩
    rw [hacc] at p1 p2 p3 p4 p5 p6 p7
    simp only at p1 p2 p3 p4 p5 p6 p7
    obtain ⟨h1, h2, h3, h4, h5, h6⟩ := ih s1 evs1 cc1
    cases hnoop : env.isNoOp t with
    | true =>
      rw [hnoop] at p1
      simp only [if_true] at p1
      exact ⟨by rw [h1, p1]; simp [List.filter_cons, hnoop], by rw [h2, p2],
        by rw [h3, p3], by rw [h4, p5], by rw [h5, p6], by rw [h6, p7]⟩
    | false =>
      rw [hnoop] at p1
      simp only [Bool.false_eq_true, if_false] at p1
      exact ⟨by rw [h1, p1]; simp [List.filter_cons, hnoop], by rw [h2, p2],
        by rw [h3, p3], by rw [h4, p5], by rw [h5, p6], by rw [h6, p7]⟩

/-- On an enabled surface, changeInternal leaves the document, the pending
buffer, the staging stack and the history exactly as the transaction stage
leaves them: the selection stage and the closing stages preserve them. -/
theorem changeInternal_stage_fields (env : SurfEnv Doc Tx) (s : Surf Doc Tx)
    (txs : Option (List Tx)) (sel : Option Sel) (skip : Bool) (he : s.enabled = true) :
    (changeInternal env s txs sel skip).1.doc =
      (changeTxsStage env skip s.selection (startQueueingContextChanges s) txs).1.doc ∧
    (changeInternal env s txs sel skip).1.newTransactions =
      (changeTxsStage env skip s.selection (startQueueingContextChanges s) txs).1.newTransactions ∧
    (changeInternal env s txs sel skip).1.stagingStack =
      (changeTxsStage env skip s.selection (startQueueingContextChanges s) txs).1.stagingStack ∧
    (changeInternal env s txs sel skip).1.undoStack =
      (changeTxsStage env skip s.selection (startQueueingContextChanges s) txs).1.undoStack ∧
    (changeInternal env s txs sel skip).1.undoIndex =
      (changeTxsStage env skip s.selection (startQueueingContextChanges s) txs).1.undoIndex ∧
    (changeInternal env s txs sel skip).1.enabled =
      (changeTxsStage env skip s.selection (startQueueingContextChanges s) txs).1.enabled := by
  unfold changeInternal
  rw [if_neg (by simp [he])]
  dsimp only
  rcases hm : changeTxsStage env skip s.selection (startQueueingContextChanges s) txs
    with ⟨mm1, mevs, mcc⟩
  obtain ⟨c1, c2, c3, c4, c5, c6, c7, c8, c9⟩ := changeSelStage_frame env mm1 txs.isSome sel
  rcases hp : changeSelStage env mm1 txs.isSome sel with ⟨pp1, pevs⟩
  rw [hp] at c1 c2 c3 c4 c5 c6 c7 c8 c9
  simp only at c1 c2 c3 c4 c5 c6 c7 c8 c9
  try dsimp only
  cases mcc with
  | false =>
    try dsimp only [Bool.false_eq_true, if_false]
    try simp only [Bool.false_eq_true, if_false]
    obtain ⟨t1, t2, t3, t4, t5, t6, t7, t8, t9⟩ := stopQueueing_frame pp1
    rcases hq : stopQueueingContextChanges pp1 with ⟨qq1, qevs⟩
    rw [hq] at t1 t2 t3 t4 t5 t6 t7 t8 t9
    simp only at t1 t2 t3 t4 t5 t6 t7 t8 t9
    exact ⟨by rw [t1, c1], by rw [t2, c2], by rw [t3, c3], by rw [t4, c4],
      by rw [t5, c5], by rw [t6, c6]⟩
  | true =>
    try dsimp only [if_true]
    try simp only [if_true]
    obtain ⟨e1, e2, e3, e4, e5, e6, e7, e8, e9, e10⟩ := emitContextChange_frame pp1
    rcases hec : emitContextChange pp1 with ⟨ee1, eevs⟩
    rw [hec] at e1 e2 e3 e4 e5 e6 e7 e8 e9 e10
    simp only at e1 e2 e3 e4 e5 e6 e7 e8 e9 e10
    obtain ⟨t1, t2, t3, t4, t5, t6, t7, t8, t9⟩ := stopQueueing_frame ee1
    rcases hq : stopQueueingContextChanges ee1 with ⟨qq1, qevs⟩
    rw [hq] at t1 t2 t3 t4 t5 t6 t7 t8 t9
    simp only at t1 t2 t3 t4 t5 t6 t7 t8 t9
    exact ⟨by rw [t1, e1, c1], by rw [t2, e2, c2], by rw [t3, e3, c3], by rw [t4, e4, c4],
      by rw [t5, e5, c5], by rw [t6, e6, c6]⟩

/-- One change call while staging: the genuine transactions are appended to
the top staging frame and committed in order; the base of the staging stack
and the enabled flag are preserved. -/
theorem change_staging_effect (env : SurfEnv Doc Tx) (s : Surf Doc Tx)
    (txs : List Tx) (sel : Option Sel)
    (base : List (StagingFrame Tx)) (frame : StagingFrame Tx)
    (he : s.enabled = true) (hstack : s.stagingStack = base ++ [frame]) :
    ∃ sb2 : Sel,
      (change env s (some txs) sel).1.stagingStack =
        base ++ [{ frame with
          transactions := frame.transactions ++ txs.filter (fun t => !env.isNoOp t),
          selectionBefore := sb2 }] ∧
      (change env s (some txs) sel).1.doc =
        (txs.filter (fun t => !env.isNoOp t)).foldl env.commit s.doc ∧
      (change env s (some txs) sel).1.enabled = true := by
  obtain ⟨q1, q2, q3, q4, q5, q6, q7, q8, q9⟩ := startQueueing_frame s
  obtain ⟨sb2, h1, h2, h3, h4, h5, h6⟩ := changeLoop_staging env s.selection txs
    { startQueueingContextChanges s with transacting := true } [] false base frame
    (by simpa [q3] using hstack)
  obtain ⟨g1, g2, g3, g4, g5, g6⟩ :=
    changeInternal_stage_fields env s (some txs) sel false he
  unfold change
  refine ⟨sb2, ?_, ?_, ?_⟩
  · rw [g3]
    unfold changeTxsStage
    dsimp only
    rcases hf : txs.foldl (processOneTx env false s.selection)
        ({ startQueueingContextChanges s with transacting := true }, [], false)
      with ⟨f1, f2, f3⟩
    rw [hf] at h1
    simpa using h1
  · rw [g1]
    unfold changeTxsStage
    dsimp only
    rcases hf : txs.foldl (processOneTx env false s.selection)
        ({ startQueueingContextChanges s with transacting := true }, [], false)
      with ⟨f1, f2, f3⟩
    rw [hf] at h2
    simp only at h2
    rw [h2]
    simp [q1]
  · rw [g6]
    unfold changeTxsStage
    dsimp only
    rcases hf : txs.foldl (processOneTx env false s.selection)
        ({ startQueueingContextChanges s with transacting := true }, [], false)
      with ⟨f1, f2, f3⟩
    rw [hf] at h3
    simp only at h3
    rw [h3]
    simpa [q6] using he

/-- The C1 scenario driver: a sequence of public change calls, each with a
transaction list and an optional selection. -/
def applyChangeCalls (env : SurfEnv Doc Tx) (s : Surf Doc Tx)
    (calls : List (List Tx × Option Sel)) : Surf Doc Tx :=
  calls.foldl (fun s c => (change env s (some c.1) c.2).1) s

/-- The genuine transactions of a sequence of change calls, in commit
order. -/
def flatGenuine (env : SurfEnv Doc Tx) (calls : List (List Tx × Option Sel)) : List Tx :=
  (calls.map (fun c => c.1.filter (fun t => !env.isNoOp t))).flatten

/-- Running a sequence of change calls while staging accumulates exactly
the genuine transactions into the top staging frame and commits them in
order, preserving the base of the staging stack and the enabled flag. -/
theorem applyChangeCalls_staging (env : SurfEnv Doc Tx)
    (calls : List (List Tx × Option Sel)) :
    ∀ (s : Surf Doc Tx) (base : List (StagingFrame Tx)) (frame : StagingFrame Tx),
      s.enabled = true → s.stagingStack = base ++ [frame] →
    ∃ sb2 : Sel,
      (applyChangeCalls env s calls).stagingStack =
        base ++ [{ frame with
          transactions := frame.transactions ++ flatGenuine env calls,
          selectionBefore := sb2 }] ∧
      (applyChangeCalls env s calls).doc =
        (flatGenuine env calls).foldl env.commit s.doc ∧
      (applyChangeCalls env s calls).enabled = true := by
  induction calls with
  | nil =>
    intro s base frame he hstack
    refine ⟨frame.selectionBefore, ?_, ?_, he⟩
    · simpa [applyChangeCalls, flatGenuine] using hstack
    · simp [applyChangeCalls, flatGenuine]
  | cons c rest ih =>
    intro s base frame he hstack
    obtain ⟨sb1, h1, h2, h3⟩ := change_staging_effect env s c.1 c.2 base frame he hstack
    obtain ⟨sb2, g1, g2, g3⟩ := ih (change env s (some c.1) c.2).1 base
      { frame with
        transactions := frame.transactions ++ c.1.filter (fun t => !env.isNoOp t),
        selectionBefore := sb1 } h3 h1
    refine ⟨sb2, ?_, ?_, g3⟩
    · rw [show applyChangeCalls env s (c :: rest) =
          applyChangeCalls env (change env s (some c.1) c.2).1 rest from rfl]
      rw [g1]
      simp [flatGenuine, List.append_assoc]
    · rw [show applyChangeCalls env s (c :: rest) =
          applyChangeCalls env (change env s (some c.1) c.2).1 rest from rfl]
      rw [g2, h2]
      simp [flatGenuine, List.foldl_append]

/-- Reverting a committed transaction list by committing the reversed
transactions in reverse order restores the original document, given that
reversal undoes a single commit. -/
theorem foldl_commit_reversed_cancel (env : SurfEnv Doc Tx)
    (hrev : ∀ (d : Doc) (t : Tx), env.commit (env.commit d t) (env.reversed t) = d) :
    ∀ (ts : List Tx) (d : Doc),
      (ts.reverse.map env.reversed).foldl env.commit (ts.foldl env.commit d) = d := by
  intro ts
  induction ts with
  | nil => intro d; rfl
  | cons t rest ih =>
    intro d
    simp only [List.foldl_cons, List.reverse_cons, List.map_append, List.map_cons,
      List.map_nil, List.foldl_append, List.foldl_nil]
    rw [ih (env.commit d t), hrev]

/-- pushStaging appends one fresh frame and leaves the document and the
enabled flag alone. -/
theorem pushStaging_effect (s : Surf Doc Tx) (allowUndo : Bool) :
    (pushStaging s allowUndo).1.stagingStack =
      s.stagingStack ++
        [{ transactions := [], selectionBefore := Sel.nullSel, allowUndo := allowUndo }] ∧
    (pushStaging s allowUndo).1.doc = s.doc ∧
    (pushStaging s allowUndo).1.enabled = s.enabled := by
  obtain ⟨b1, b2, b3, b4, b5, b6, b7⟩ := breakpoint_frame s
  rcases hb : breakpoint s with ⟨bs, bB⟩
  rw [hb] at b1 b2 b3 b4 b5 b6 b7
  simp only at b1 b2 b3 b4 b5 b6 b7
  unfold pushStaging
  rw [hb]
  by_cases h : isStaging s = true
  · simp [h]
  · simp only [Bool.not_eq_true] at h
    simp [h, b1, b2, b4]

/-- The transaction stage with skipUndoStack: the genuine transactions are
committed and the staging stack and enabled flag are untouched. -/
theorem changeTxsStage_skip (env : SurfEnv Doc Tx) (selB : Sel) (sQ : Surf Doc Tx)
    (txs : List Tx) :
    (changeTxsStage env true selB sQ (some txs)).1.doc =
      (txs.filter (fun t => !env.isNoOp t)).foldl env.commit sQ.doc ∧
    (changeTxsStage env true selB sQ (some txs)).1.stagingStack = sQ.stagingStack ∧
    (changeTxsStage env true selB sQ (some txs)).1.enabled = sQ.enabled := by
  unfold changeTxsStage
  dsimp only
  obtain ⟨h1, h2, h3, h4, h5, h6⟩ := changeLoop_skip env selB txs
    { sQ with transacting := true } [] false
  rcases hf : txs.foldl (processOneTx env true selB)
      ({ sQ with transacting := true }, [], false) with ⟨f1, f2, f3⟩
  rw [hf] at h1 h2 h3 h4 h5 h6
  simp only at h1 h2 h3 h4 h5 h6
  exact ⟨by simpa using h1, by simpa using h2, by simpa using h3⟩

/-- changeInternal called with skipUndoStack on an enabled surface commits
the genuine transactions to the document and preserves the staging stack. -/
theorem changeInternal_skip_effect (env : SurfEnv Doc Tx) (s : Surf Doc Tx)
    (txs : List Tx) (sel : Option Sel) (he : s.enabled = true) :
    (changeInternal env s (some txs) sel true).1.doc =
      (txs.filter (fun t => !env.isNoOp t)).foldl env.commit s.doc ∧
    (changeInternal env s (some txs) sel true).1.stagingStack = s.stagingStack := by
  obtain ⟨g1, g2, g3, g4, g5, g6⟩ := changeInternal_stage_fields env s (some txs) sel true he
  obtain ⟨k1, k2, k3⟩ := changeTxsStage_skip env s.selection (startQueueingContextChanges s) txs
  obtain ⟨q1, q2, q3, q4, q5, q6, q7, q8, q9⟩ := startQueueing_frame s
  exact ⟨by rw [g1, k1, q1], by rw [g3, k2, q3]⟩

/-- C1: on an enabled surface, pushing a staging frame, committing any
sequence of transactions through change, then popping the frame removes the
frame (the staging stack returns to its pre-push value), returns exactly the
recorded genuine transactions in commit order, and (commits their reversed
forms in reverse order so that) the document equals its content from just
before pushStaging, under the Transaction guarantees that committing
reversed t after t restores the document and that reversal preserves
non-no-op-ness. -/
theorem C1_staging_round_trip (env : SurfEnv Doc Tx) (s : Surf Doc Tx)
    (calls : List (List Tx × Option Sel))
    (he : s.enabled = true)
    (hrev : ∀ (d : Doc) (t : Tx), env.commit (env.commit d t) (env.reversed t) = d)
    (hrevNoOp : ∀ t : Tx, env.isNoOp t = false → env.isNoOp (env.reversed t) = false) :
    (popStaging env (applyChangeCalls env (pushStaging s false).1 calls)).1.stagingStack =
      s.stagingStack ∧
    (popStaging env (applyChangeCalls env (pushStaging s false).1 calls)).2.1 =
      some (flatGenuine env calls) ∧
    (popStaging env (applyChangeCalls env (pushStaging s false).1 calls)).1.doc = s.doc := by
  obtain ⟨ps1, ps2, ps3⟩ := pushStaging_effect s false
  obtain ⟨sb2, a1, a2, a3⟩ := applyChangeCalls_staging env calls (pushStaging s false).1
    s.stagingStack { transactions := [], selectionBefore := Sel.nullSel, allowUndo := false }
    (by rw [ps3, he]) ps1
  simp only [List.nil_append] at a1
  rw [ps2] at a2
  have hflatnn : ∀ t ∈ flatGenuine env calls, env.isNoOp t = false := by
    intro t ht
    simp only [flatGenuine, List.mem_flatten, List.mem_map] at ht
    obtain ⟨l, ⟨c, _, hcl⟩, htl⟩ := ht
    rw [← hcl] at htl
    have := List.of_mem_filter htl
    simpa using this
  have hstg : isStaging (applyChangeCalls env (pushStaging s false).1 calls) = true := by
    simp [isStaging, a1]
  have hget : getStaging (applyChangeCalls env (pushStaging s false).1 calls) =
      some { transactions := flatGenuine env calls, selectionBefore := sb2,
             allowUndo := false } := by
    simp [getStaging, a1, getLast?_append_one]
  unfold popStaging
  rw [if_neg (by simp [hstg])]
  dsimp only
  rw [hget]
  dsimp only [Option.getD_some]
  rw [a1, dropLast_append_one]
  set revTxs := ((flatGenuine env calls).reverse.map env.reversed) with hrt
  have hrevall : revTxs.filter (fun t => !env.isNoOp t) = revTxs := by
    apply List.filter_eq_self.mpr
    intro t ht
    rw [hrt] at ht
    simp only [List.mem_map, List.mem_reverse] at ht
    obtain ⟨u, hu, hut⟩ := ht
    rw [← hut]
    simp [hrevNoOp u (hflatnn u hu)]
  have hen2 : ({ applyChangeCalls env (pushStaging s false).1 calls with
      stagingStack := s.stagingStack } : Surf Doc Tx).enabled = true := by
    simpa using a3
  obtain ⟨ci1, ci2⟩ := changeInternal_skip_effect env
    { applyChangeCalls env (pushStaging s false).1 calls with stagingStack := s.stagingStack }
    revTxs none hen2
  rcases hci : changeInternal env
      { applyChangeCalls env (pushStaging s false).1 calls with stagingStack := s.stagingStack }
      (some revTxs) none true with ⟨cis, cievs⟩
  rw [hci] at ci1 ci2
  simp only at ci1 ci2
  rw [hrevall] at ci1
  have hdoc : cis.doc = s.doc := by
    rw [ci1]
    simp only [a2]
    exact foldl_commit_reversed_cancel env hrev (flatGenuine env calls) s.doc
  have hstk : cis.stagingStack = s.stagingStack := by
    rw [ci2]
  refine ⟨?_, ?_, ?_⟩
  · first
    | (split <;> simpa using hstk)
    | simpa using hstk
  · first
    | (split <;> rfl)
    | rfl
  · first
    | (split <;> simpa using hdoc)
    | simpa using hdoc

/-- Witness for C1: pushing staging, committing transactions 2, 0 and 3
(0 is the no-op) and popping returns transactions 2 and 3 and restores the
document 10. -/
theorem C1_witness :
    (popStaging intEnv (applyChangeCalls intEnv (pushStaging surfTen false).1
        [([2, 0, 3], none)])).1.stagingStack = surfTen.stagingStack ∧
    (popStaging intEnv (applyChangeCalls intEnv (pushStaging surfTen false).1
        [([2, 0, 3], none)])).2.1 = some (flatGenuine intEnv [([2, 0, 3], none)]) ∧
    (popStaging intEnv (applyChangeCalls intEnv (pushStaging surfTen false).1
        [([2, 0, 3], none)])).1.doc = surfTen.doc :=
  C1_staging_round_trip intEnv surfTen [([2, 0, 3], none)] rfl
    (fun d t => by simp [intEnv])
    (fun t h => by
      simp only [intEnv] at h ⊢
      simpa [neg_eq_zero] using h)

/-- A surface with two breakpointed edits of which one has been undone, so
that undoIndex is 1 and redo is possible. -/
def surfWithRedo : Surf Int Int :=
  { doc := 10,
    undoStack :=
      [{ transactions := [5], selection := Sel.nullSel, selectionBefore := Sel.nullSel },
       { transactions := [7], selection := Sel.nullSel, selectionBefore := Sel.nullSel }],
    undoIndex := 1 }

/-- Witness for C4: a fresh edit on surfWithRedo drops the one checkpoint
reachable by redo and disables redo. -/
theorem C4_witness :
    (change intEnv surfWithRedo (some [3]) none).1.undoIndex = 0 ∧
    (change intEnv surfWithRedo (some [3]) none).1.undoStack =
      surfWithRedo.undoStack.take (surfWithRedo.undoStack.length - surfWithRedo.undoIndex) ∧
    canRedo (change intEnv surfWithRedo (some [3]) none).1 = false :=
  C4_fresh_edit_truncates_redo_history intEnv surfWithRedo [3] none rfl rfl
    (by decide) (by decide)

/-- Number of contextChange events in an event list. -/
def countCC (evs : List SEvent) : Nat :=
  evs.countP (fun e => match e with
    | SEvent.contextChange => true
    | _ => false)

/-- Number of insertionAnnotationsChange events in an event list. -/
def countIAC (evs : List SEvent) : Nat :=
  evs.countP (fun e => match e with
    | SEvent.insertionAnnsChange _ => true
    | _ => false)

/-- countCC distributes over append. -/
theorem countCC_append (a b : List SEvent) : countCC (a ++ b) = countCC a + countCC b :=
  List.countP_append _ _ _

/-- countIAC distributes over append. -/
theorem countIAC_append (a b : List SEvent) : countIAC (a ++ b) = countIAC a + countIAC b :=
  List.countP_append _ _ _

/-- The events of the selection-variant dispatch are either empty or one
insertionAnnotationsChange followed by one directly emitted contextChange,
so its contextChange emissions are bounded by its
insertionAnnotationsChange emissions. -/
theorem selVariantUpdate_events_bound (env : SurfEnv Doc Tx) (s : Surf Doc Tx) (sel : Sel) :
    countCC (selVariantUpdate env s sel).2.2.2.2.2 ≤
      countIAC (selVariantUpdate env s sel).2.2.2.2.2 := by
  cases sel with
  | linear range =>
    simp only [selVariantUpdate]
    repeat' split
    all_goals simp [setInsertionAnns, countCC, countIAC]
    all_goals split
    all_goals simp
  | table node => simp [selVariantUpdate, countCC, countIAC]
  | nullSel => simp [selVariantUpdate, countCC, countIAC]

set_option maxHeartbeats 2000000 in
/-- While the queueing flag is set, setSelection emits at most as many
contextChange events as insertionAnnotationsChange events (every
contextChange it emits comes from the direct emission inside
setInsertionAnnotations). -/
theorem setSelectionProcess_events_queueing (env : SurfEnv Doc Tx) (s : Surf Doc Tx)
    (oldSel sel : Sel) (sc : Bool) (hq : s.queueingContextChanges = true) :
    countCC (setSelectionProcess env s oldSel sel sc).2 ≤
      countIAC (setSelectionProcess env s oldSel sel sc).2 := by
  unfold setSelectionProcess
  obtain ⟨g1, g2, g3, g4, g5, g6, g7, g8, g9, g10, g11, g12, g13, g14, g15⟩ :=
    selVariantUpdate_frame env s sel
  have hann := selVariantUpdate_events_bound env s sel
  rcases hsv : selVariantUpdate env s sel with ⟨s3, ro, bn, sn, cc, ae⟩
  rw [hsv] at g8 hann
  simp only at g8 hann
  simp only [emitContextChange]
  repeat' split
  all_goals try simp_all [countCC_append, countIAC_append, countCC, countIAC]
  all_goals try omega

/-- While the queueing flag is set, the contextChange emissions of
setSelection are bounded by its insertionAnnotationsChange emissions. -/
theorem setSelection_events_queueing (env : SurfEnv Doc Tx) (s : Surf Doc Tx) (sel : Sel)
    (hq : s.queueingContextChanges = true) :
    countCC (setSelection env s sel).2 ≤ countIAC (setSelection env s sel).2 := by
  unfold setSelection
  by_cases he : s.enabled = true
  case neg => simp_all [countCC, countIAC]
  simp only [he]
  by_cases ht : s.transacting = true
  case pos => simp_all [countCC, countIAC]
  simp only [Bool.not_eq_true] at ht
  simp only [ht]
  by_cases hc : (s.selection == sel) = true
  · have hp := setSelectionProcess_events_queueing env
      ({ s with translatedSelection := none }) s.selection sel false (by simpa using hq)
    simp only [he, ht] at hp
    simp only [hc] at *
    simpa using hp
  · have hp := setSelectionProcess_events_queueing env
      ({ s with translatedSelection := none, selection := sel }) s.selection sel true
      (by simpa using hq)
    simp only [he, ht] at hp
    simp only [Bool.not_eq_true] at hc
    simp only [hc] at *
    simpa using hp

/-- While transacting, setSelection emits nothing at all. -/
theorem setSelection_events_transacting (env : SurfEnv Doc Tx) (s : Surf Doc Tx) (sel : Sel)
    (ht : s.transacting = true) :
    (setSelection env s sel).2 = [] := by
  unfold setSelection
  by_cases he : s.enabled = true <;> simp [he, ht]

/-- Inside the transaction loop a document commit emits exactly one
documentUpdate: the selection translation is stored shallowly with no
events. -/
theorem surfCommitTx_events_transacting (env : SurfEnv Doc Tx) (s : Surf Doc Tx) (tx : Tx)
    (ht : s.transacting = true) :
    (surfCommitTx env s tx).2 = [SEvent.documentUpdate] ∧
    (surfCommitTx env s tx).1.transacting = true ∧
    (surfCommitTx env s tx).1.queueingContextChanges = s.queueingContextChanges := by
  have h := setSelection_events_transacting env
    { s with translatedSelection := some (env.translateByTransaction s.selection tx),
             doc := env.commit s.doc tx }
    (env.translateByTransaction s.selection tx) (by simpa using ht)
  obtain ⟨f1, f2, f3, f4, f5, f6, f7, f8, f9⟩ := setSelection_frame env
    { s with translatedSelection := some (env.translateByTransaction s.selection tx),
             doc := env.commit s.doc tx }
    (env.translateByTransaction s.selection tx)
  refine ⟨?_, ?_, ?_⟩
  · have heq : (surfCommitTx env s tx).2 =
        (setSelection env
          { s with translatedSelection := some (env.translateByTransaction s.selection tx),
                   doc := env.commit s.doc tx }
          (env.translateByTransaction s.selection tx)).2 ++ [SEvent.documentUpdate] := rfl
    rw [heq, h]
    rfl
  · have heq : (surfCommitTx env s tx).1 =
        (setSelection env
          { s with translatedSelection := some (env.translateByTransaction s.selection tx),
                   doc := env.commit s.doc tx }
          (env.translateByTransaction s.selection tx)).1 := rfl
    rw [heq, f7]
    exact ht
  · have heq : (surfCommitTx env s tx).1 =
        (setSelection env
          { s with translatedSelection := some (env.translateByTransaction s.selection tx),
                   doc := env.commit s.doc tx }
          (env.translateByTransaction s.selection tx)).1 := rfl
    rw [heq, f8]

/-- One loop iteration emits no contextChange and no
insertionAnnotationsChange, and preserves the transacting and queueing
flags. -/
theorem processOneTx_events (env : SurfEnv Doc Tx) (skip : Bool) (selB : Sel)
    (s : Surf Doc Tx) (evs : List SEvent) (cc : Bool) (tx : Tx)
    (ht : s.transacting = true) :
    countCC (processOneTx env skip selB (s, evs, cc) tx).2.1 = countCC evs ∧
    countIAC (processOneTx env skip selB (s, evs, cc) tx).2.1 = countIAC evs ∧
    (processOneTx env skip selB (s, evs, cc) tx).1.transacting = true ∧
    (processOneTx env skip selB (s, evs, cc) tx).1.queueingContextChanges =
      s.queueingContextChanges := by
  obtain ⟨t1, t2, t3, t4, t5, t6, t7, t8, t9, t10⟩ := truncateUndoStack_effect s
  have key : ∀ (s2 : Surf Doc Tx), s2.transacting = true →
      s2.queueingContextChanges = s.queueingContextChanges →
      countCC (evs ++ (surfCommitTx env s2 tx).2) = countCC evs ∧
      countIAC (evs ++ (surfCommitTx env s2 tx).2) = countIAC evs ∧
      (surfCommitTx env s2 tx).1.transacting = true ∧
      (surfCommitTx env s2 tx).1.queueingContextChanges = s.queueingContextChanges := by
    intro s2 h2 hq2
    obtain ⟨e1, e2, e3⟩ := surfCommitTx_events_transacting env s2 tx h2
    refine ⟨?_, ?_, e2, by rw [e3, hq2]⟩
    · rw [e1, countCC_append]
      simp [countCC]
    · rw [e1, countIAC_append]
      simp [countIAC]
  unfold processOneTx
  cases hnoop : env.isNoOp tx with
  | true => simp [hnoop, ht]
  | false =>
    simp only [hnoop, Bool.false_eq_true, if_false]
    repeat' split
    all_goals
      refine ⟨(key _ (by simp [t7, ht]) (by simp [t8])).1,
        (key _ (by simp [t7, ht]) (by simp [t8])).2.1,
        (key _ (by simp [t7, ht]) (by simp [t8])).2.2.1,
        (key _ (by simp [t7, ht]) (by simp [t8])).2.2.2⟩

/-- The transaction loop emits no contextChange and no
insertionAnnotationsChange events. -/
theorem changeLoop_events (env : SurfEnv Doc Tx) (skip : Bool) (selB : Sel) (txs : List Tx) :
    ∀ (s : Surf Doc Tx) (evs : List SEvent) (cc : Bool), s.transacting = true →
    countCC (txs.foldl (processOneTx env skip selB) (s, evs, cc)).2.1 = countCC evs ∧
    countIAC (txs.foldl (processOneTx env skip selB) (s, evs, cc)).2.1 = countIAC evs ∧
    (txs.foldl (processOneTx env skip selB) (s, evs, cc)).1.queueingContextChanges =
      s.queueingContextChanges := by
  induction txs with
  | nil => intro s evs cc ht; exact ⟨rfl, rfl, rfl⟩
  | cons t rest ih =>
    intro s evs cc ht
    obtain ⟨p1, p2, p3, p4⟩ := processOneTx_events env skip selB s evs cc t ht
    rw [List.foldl_cons]
    rcases hacc : processOneTx env skip selB (s, evs, cc) t with ⟨s1, evs1, cc1⟩
    rw [hacc] at p1 p2 p3 p4
    simp only at p1 p2 p3 p4
    obtain ⟨h1, h2, h3⟩ := ih s1 evs1 cc1 p3
    exact ⟨by rw [h1, p1], by rw [h2, p2], by rw [h3, p4]⟩

/-- The whole transaction stage emits no contextChange and no
insertionAnnotationsChange events and preserves the queueing flag. -/
theorem changeTxsStage_events (env : SurfEnv Doc Tx) (skip : Bool) (selB : Sel)
    (sQ : Surf Doc Tx) (txs : Option (List Tx)) :
    countCC (changeTxsStage env skip selB sQ txs).2.1 = 0 ∧
    countIAC (changeTxsStage env skip selB sQ txs).2.1 = 0 ∧
    (changeTxsStage env skip selB sQ txs).1.queueingContextChanges =
      sQ.queueingContextChanges := by
  cases txs with
  | none => exact ⟨rfl, rfl, rfl⟩
  | some list =>
    unfold changeTxsStage
    dsimp only
    obtain ⟨l1, l2, l3⟩ := changeLoop_events env skip selB list
      { sQ with transacting := true } [] false (by simp)
    rcases hf : list.foldl (processOneTx env skip selB)
        ({ sQ with transacting := true }, [], false) with ⟨f1, f2, f3⟩
    rw [hf] at l1 l2 l3
    simp only at l1 l2 l3
    refine ⟨?_, ?_, by simpa using l3⟩
    · rw [countCC_append, l1]
      simp [countCC]
    · rw [countIAC_append, l2]
      simp [countIAC]

/-- While the queueing flag is set, the selection stage of changeInternal
emits at most as many contextChange as insertionAnnotationsChange events. -/
theorem changeSelStage_events_queueing (env : SurfEnv Doc Tx) (s : Surf Doc Tx)
    (tg : Bool) (sel : Option Sel) (hq : s.queueingContextChanges = true) :
    countCC (changeSelStage env s tg sel).2 ≤ countIAC (changeSelStage env s tg sel).2 := by
  cases sel with
  | some sl => exact setSelection_events_queueing env s sl hq
  | none =>
    unfold changeSelStage
    dsimp only
    split
    · exact setSelection_events_queueing env s s.selection hq
    · simp [countCC, countIAC]

/-- Leaving the queueing scope emits at most one contextChange and no
insertionAnnotationsChange. -/
theorem stopQueueing_events_bound (s : Surf Doc Tx) :
    countCC (stopQueueingContextChanges s).2 ≤ 1 ∧
    countIAC (stopQueueingContextChanges s).2 = 0 := by
  unfold stopQueueingContextChanges
  repeat' split
  all_goals simp [countCC, countIAC]

/-- While the queueing flag is set, emitContextChange emits nothing. -/
theorem emit_events_queueing (s : Surf Doc Tx) (hq : s.queueingContextChanges = true) :
    (emitContextChange s).2 = [] ∧
    (emitContextChange s).1.queueingContextChanges = true := by
  simp [emitContextChange, hq]

/-- C3 amended: during one changeInternal (and hence change) call, every
contextChange requested through the emitContextChange queue (attribute
transactions, selection reprocessing, selected-annotation and cache updates)
is coalesced into at most one contextChange event, flushed when the queueing
scope closes; however setInsertionAnnotations emits contextChange directly,
bypassing the queue, so the call emits at most one contextChange event more
than its number of insertionAnnotationsChange events. -/
theorem C3_amended_contextChange_coalescing_bound (env : SurfEnv Doc Tx) (s : Surf Doc Tx)
    (txs : Option (List Tx)) (sel : Option Sel) (skip : Bool) :
    countCC (changeInternal env s txs sel skip).2 ≤
      countIAC (changeInternal env s txs sel skip).2 + 1 := by
  unfold changeInternal
  by_cases he : s.enabled = true
  case neg =>
    simp only [Bool.not_eq_true] at he
    simp [he, countCC, countIAC]
  rw [if_neg (by simp [he])]
  dsimp only
  obtain ⟨me1, me2, me3⟩ := changeTxsStage_events env skip s.selection
    (startQueueingContextChanges s) txs
  rcases hm : changeTxsStage env skip s.selection (startQueueingContextChanges s) txs
    with ⟨mm1, mevs, mcc⟩
  rw [hm] at me1 me2 me3
  simp only at me1 me2 me3
  have hqmm : mm1.queueingContextChanges = true := by
    rw [me3, startQueueing_queueing]
  obtain ⟨c1, c2, c3, c4, c5, c6, c7, c8, c9⟩ := changeSelStage_frame env mm1 txs.isSome sel
  have hsel := changeSelStage_events_queueing env mm1 txs.isSome sel hqmm
  rcases hp : changeSelStage env mm1 txs.isSome sel with ⟨pp1, pevs⟩
  rw [hp] at hsel c8
  simp only at hsel c8
  have hqpp : pp1.queueingContextChanges = true := by rw [c8, hqmm]
  dsimp only
  have hsel0cc : countCC (if (!(s.selection == mm1.selection) &&
      mm1.selection == pp1.selection) = true then [SEvent.select pp1.selection] else []) = 0 := by
    split <;> simp [countCC]
  have hsel0iac : countIAC (if (!(s.selection == mm1.selection) &&
      mm1.selection == pp1.selection) = true then [SEvent.select pp1.selection] else []) = 0 := by
    split <;> simp [countIAC]
  cases hmcc : mcc with
  | true =>
    obtain ⟨ee1, ee2⟩ := emit_events_queueing pp1 hqpp
    rcases hec : emitContextChange pp1 with ⟨ec1, ecevs⟩
    rw [hec] at ee1 ee2
    simp only at ee1 ee2
    obtain ⟨sb1, sb2⟩ := stopQueueing_events_bound ec1
    simp only [if_true]
    simp only [countCC_append, countIAC_append, me1, me2, hsel0cc, hsel0iac, ee1]
    have hcce : countCC ([] : List SEvent) = 0 := rfl
    have hiace : countIAC ([] : List SEvent) = 0 := rfl
    rw [hcce, hiace]
    omega
  | false =>
    obtain ⟨sb1, sb2⟩ := stopQueueing_events_bound pp1
    simp only [Bool.false_eq_true, if_false]
    simp only [countCC_append, countIAC_append, me1, me2, hsel0cc, hsel0iac]
    have hcce : countCC ([] : List SEvent) = 0 := rfl
    have hiace : countIAC ([] : List SEvent) = 0 := rfl
    rw [hcce, hiace]
    omega

/-- Collaborator instantiation for the C3 counterexample: the document is
trivial, transaction 1 is genuine, and reprocessing the selection finds
insertion annotations differing from the stored empty set as well as new
selected annotations. -/
def envC3 : SurfEnv Unit Int where
  commit := fun _ _ => ()
  reversed := fun t => -t
  isNoOp := fun t => t == 0
  hasElementAttributeOperations := fun _ => false
  translateByTransaction := fun sel _ => sel
  copyTx := id
  getBranchNodeFromOffset := fun _ _ => none
  getNodeFromOffset := fun _ _ => none
  getOuterRange := fun _ _ => { fromOff := 0, toOff := 0 }
  getInsertionAnnsFromRange := fun _ _ => [7]
  getAnnsFromOffset := fun _ _ => [3]
  getAnnsFromRangeAll := fun _ _ => []

/-- Enabled surface with a collapsed linear selection for the C3
counterexample. -/
def surfC3 : Surf Unit Int :=
  { doc := (), selection := Sel.linear { fromOff := 1, toOff := 1 } }

/-- C3 counterexample: one change call committing one genuine transaction
emits two contextChange events, because the insertion-annotation update
inside selection reprocessing emits contextChange directly through
setInsertionAnnotations (bypassing the queue) and the queued context change
from the selected-annotation update is flushed when the queueing scope
closes. This contradicts the claim that at most one contextChange event is
emitted per change call. -/
theorem C3_counterexample :
    countCC (change envC3 surfC3 (some [1]) none).2 = 2 ∧
      ¬ countCC (change envC3 surfC3 (some [1]) none).2 ≤ 1 := by
  decide

/-- getD of an appended list below the prefix length. -/
theorem getD_append_lt {α : Type} (l m : List α) (j : Nat) (d : α) (h : j < l.length) :
    (l ++ m).getD j d = l.getD j d := by
  induction l generalizing j with
  | nil => simp at h
  | cons x xs ih =>
    cases j with
    | zero => rfl
    | succ n => simpa using ih n (by simpa using h)

/-- getD of a one-element extension at the old length. -/
theorem getD_append_self {α : Type} (l : List α) (a d : α) :
    (l ++ [a]).getD l.length d = a := by
  induction l with
  | nil => rfl
  | cons x xs ih => simpa using ih

/-- getD is unchanged by setting a different index. -/
theorem getD_set_ne {α : Type} (l : List α) (i j : Nat) (v d : α) (hij : i ≠ j) :
    (l.set i v).getD j d = l.getD j d := by
  induction l generalizing i j with
  | nil => rfl
  | cons x xs ih =>
    cases i with
    | zero =>
      cases j with
      | zero => exact absurd rfl hij
      | succ n => rfl
    | succ m =>
      cases j with
      | zero => rfl
      | succ n => simpa using ih m n (by omega)

/-- Reference-semantics model for insertion-annotation isolation:
AnnotationSet objects live on a heap; an object reference is its index in
the heap. -/
structure AnnHeap where
  sets : List (List Nat)
deriving DecidableEq, Repr

/-- Contents of the AnnotationSet object at a reference. -/
def AnnHeap.get (h : AnnHeap) (r : Nat) : List Nat := h.sets.getD r []

/-- Allocate a fresh AnnotationSet object holding the given contents. -/
def AnnHeap.alloc (h : AnnHeap) (v : List Nat) : AnnHeap × Nat :=
  ({ sets := h.sets ++ [v] }, h.sets.length)

/-- Mutate the AnnotationSet object at a reference in place. -/
def AnnHeap.setAt (h : AnnHeap) (r : Nat) (v : List Nat) : AnnHeap :=
  { sets := h.sets.set r v }

/-- Modelled from the spec: AnnotationSet.clone produces an independent
copy, i.e. a freshly allocated object with equal contents. -/
def AnnHeap.clone (h : AnnHeap) (r : Nat) : AnnHeap × Nat := h.alloc (h.get r)

/-- The slice of Surface state involved in insertion-annotation isolation
under reference semantics: the enabled flag and the reference held in
this.insertionAnnotations. -/
structure SurfIA where
  enabled : Bool
  insertionAnns : Nat
deriving DecidableEq, Repr

/-- ve.dm.Surface.prototype.getInsertionAnnotations under reference
semantics: return this.insertionAnnotations.clone(). -/
def getInsertionAnnsRef (s : SurfIA) (h : AnnHeap) : AnnHeap × Nat :=
  h.clone s.insertionAnns

/-- ve.dm.Surface.prototype.setInsertionAnnotations under reference
semantics: gated by enabled; store annotations.clone() (or a fresh empty
set for null) and emit insertionAnnotationsChange and contextChange. -/
def setInsertionAnnsRef (s : SurfIA) (h : AnnHeap) (anns : Option Nat) :
    SurfIA × AnnHeap × List SEvent :=
  if !s.enabled then (s, h, [])
  else
    match anns with
    | some a =>
      let (h2, r) := h.clone a
      ({ s with insertionAnns := r }, h2,
        [SEvent.insertionAnnsChange (h2.get r), SEvent.contextChange])
    | none =>
      let (h2, r) := h.alloc []
      ({ s with insertionAnns := r }, h2,
        [SEvent.insertionAnnsChange (h2.get r), SEvent.contextChange])

/-- C10: getInsertionAnnotations returns a clone independent of surface
state: the returned reference is fresh, mutating it leaves the stored set
unchanged, and a second getInsertionAnnotations still reads the original
contents; symmetrically, setInsertionAnnotations stores a clone, so
mutating the argument afterwards does not change the stored insertion
annotations. -/
theorem C10_insertion_anns_isolation (s : SurfIA) (h : AnnHeap) (a : Nat)
    (hv : s.insertionAnns < h.sets.length) (he : s.enabled = true)
    (ha : a < h.sets.length) (v : List Nat) :
    (getInsertionAnnsRef s h).2 ≠ s.insertionAnns ∧
    ((getInsertionAnnsRef s h).1.setAt (getInsertionAnnsRef s h).2 v).get s.insertionAnns =
      h.get s.insertionAnns ∧
    ((getInsertionAnnsRef s
        ((getInsertionAnnsRef s h).1.setAt (getInsertionAnnsRef s h).2 v)).1).get
      (getInsertionAnnsRef s
        ((getInsertionAnnsRef s h).1.setAt (getInsertionAnnsRef s h).2 v)).2 =
      h.get s.insertionAnns ∧
    (((setInsertionAnnsRef s h (some a)).2.1).setAt a v).get
      (setInsertionAnnsRef s h (some a)).1.insertionAnns = h.get a := by
  refine ⟨by simp [getInsertionAnnsRef, AnnHeap.clone, AnnHeap.alloc]; omega, ?_, ?_, ?_⟩
  · simp only [getInsertionAnnsRef, AnnHeap.clone, AnnHeap.alloc, AnnHeap.setAt, AnnHeap.get]
    rw [getD_set_ne _ _ _ _ _ (by omega), getD_append_lt _ _ _ _ hv]
  · simp only [getInsertionAnnsRef, AnnHeap.clone, AnnHeap.alloc, AnnHeap.setAt, AnnHeap.get]
    rw [getD_append_self]
    rw [getD_set_ne _ _ _ _ _ (by omega), getD_append_lt _ _ _ _ hv]
  · simp only [setInsertionAnnsRef, he, Bool.not_true, Bool.false_eq_true, if_false,
      AnnHeap.clone, AnnHeap.alloc, AnnHeap.setAt, AnnHeap.get]
    rw [getD_set_ne _ _ _ _ _ (by omega), getD_append_self]

/-- Witness for C10 at a one-object heap whose stored set is 1, 2 and a
mutation writing 9. -/
theorem C10_witness :
    (getInsertionAnnsRef { enabled := true, insertionAnns := 0 }
      { sets := [[1, 2]] }).2 ≠ 0 ∧
    ((getInsertionAnnsRef { enabled := true, insertionAnns := 0 } { sets := [[1, 2]] }).1.setAt
        (getInsertionAnnsRef { enabled := true, insertionAnns := 0 }
          { sets := [[1, 2]] }).2 [9]).get 0 = [1, 2] := by
  have hc := C10_insertion_anns_isolation { enabled := true, insertionAnns := 0 }
    { sets := [[1, 2]] } 0 (by decide) rfl (by decide) [9]
  exact ⟨hc.1, by simpa using hc.2.1⟩

/-! Converter: DOM to linear data
(ve.dm.Converter.prototype.getDataFromDomSubtree and its helpers,
translated from the source). The model registry, node factory and
annotation factory are external collaborators (spec section 6), modelled as
a ConvEnv record; DOM nodes are a small tree type. JavaScript object
mutation of data elements already placed in the output array is modelled by
tracking their indices (wrapperIdx, wrappingPara, prevElm) and updating the
array in place; splices adjust those indices exactly as object identity
survives a JavaScript splice. Operations that would raise a TypeError in
JavaScript (property access on undefined) return an error. -/

/-- A DOM node: element (tag, attributes, children), text or comment. -/
inductive DomNode where
  | el (tag : String) (attrs : List (String × String)) (children : List DomNode)
  | txt (chars : List Char)
  | comment (chars : List Char)

/-- getAttribute: None models a missing attribute (null). -/
def DomNode.getAttr : DomNode → String → Option String
  | DomNode.el _ attrs _, name => (attrs.find? (fun p => p.1 == name)).map (fun p => p.2)
  | _, _ => none

/-- The childNodes of a DOM node. -/
def DomNode.childNodes : DomNode → List DomNode
  | DomNode.el _ _ cs => cs
  | _ => []

/-- The whitespace record internal.whitespace: a sparse four-slot array
outerPre, innerPre, innerPost, outerPost. -/
structure Ws4 where
  w0 : Option (List Char) := none
  w1 : Option (List Char) := none
  w2 : Option (List Char) := none
  w3 : Option (List Char) := none
deriving DecidableEq, Repr

/-- The internal bookkeeping object of a data element. -/
structure InternalRec where
  generated : Option String := none
  whitespaceRec : Option Ws4 := none
deriving DecidableEq, Repr

/-- A linear-data element object: type tag, internal bookkeeping, applied
annotation store indices, and the original DOM elements kept for
round-tripping. -/
structure DataElm where
  type : String
  internalRec : Option InternalRec := none
  anns : List Nat := []
  originalDomElements : List DomNode := []

/-- One slot of linear data: a bare character, an annotated character, or
an element open or close object. -/
inductive LinItem where
  | ch (c : Char)
  | annCh (c : Char) (anns : List Nat)
  | elm (e : DataElm)

/-- The JavaScript whitespace class of a character (the characters matched
by a backslash-s regular expression that occur in this model). -/
def isJsSpace (c : Char) : Bool :=
  c == ' ' || c == '\t' || c == '\n' || c == '\r' ||
    c == Char.ofNat 11 || c == Char.ofNat 12

/-- ve.dm.Converter.static.getDataContentFromText, translated from the
source: one slot per character, annotated with the given store indices when
the set is nonempty. -/
def getDataContentFromText (text : List Char) (anns : List Nat) : List LinItem :=
  if anns.isEmpty then text.map LinItem.ch
  else text.map (fun c => LinItem.annCh c anns)

/-- Write one slot of a whitespace record. -/
def setWsAt (w : Ws4) (idx : Nat) (v : List Char) : Ws4 :=
  match idx with
  | 0 => { w with w0 := some v }
  | 1 => { w with w1 := some v }
  | 2 => { w with w2 := some v }
  | _ => { w with w3 := some v }

/-- The addWhitespace helper of getDataFromDomSubtree: no-op for empty
whitespace, otherwise create the internal object and whitespace record as
needed and set the slot. -/
def addWhitespace (e : DataElm) (idx : Nat) (v : List Char) : DataElm :=
  if v.isEmpty then e
  else
    let ir := e.internalRec.getD {}
    let w := ir.whitespaceRec.getD {}
    { e with internalRec := some { ir with whitespaceRec := some (setWsAt w idx v) } }

/-- Mutate the element object stored at an index of an item list (mutating
a non-element slot is a silent no-op, as JavaScript property assignment on
a primitive is). -/
def updateElmAt (items : List LinItem) (i : Nat) (f : DataElm → DataElm) : List LinItem :=
  match items.get? i with
  | some (LinItem.elm e) => items.set i (LinItem.elm (f e))
  | _ => items

/-- Model-class capabilities resolved through the registry and factories
(spec section 6): the kind (node, meta item or annotation class) and the
node-factory flags getDataFromDomSubtree consults. -/
inductive MKind where
  | node
  | metaItem
  | annKind
deriving DecidableEq, Repr

/-- The capability record of one registered model type. -/
structure ModelInfo where
  kind : MKind
  isContent : Bool := false
  canContainContent : Bool := false
  canHaveChildren : Bool := false
  handlesOwnChildren : Bool := false
  enableAboutGrouping : Bool := false
  significantWhitespace : Bool := false
  childNodeTypes : Option (List String) := none
  isAlienMeta : Bool := false
deriving DecidableEq, Repr

/-- Modelled from the spec: the external collaborators of the converter:
the model registry (matchElement, lookup), the per-class toDataElement
conversions and the annotation factory combined with the index-value store
(annIdx yields the store index of the annotation built from a data
element). -/
structure ConvEnv where
  matchElement : DomNode → Bool → Option String
  lookup : String → Option ModelInfo
  toDataElement : String → List DomNode → Option (List DataElm)
  annIdx : DataElm → Nat

/-- ve.dm.Converter.prototype.createDataElements, translated from the
source: run toDataElement and set originalDomElements on the first returned
element. -/
def createDataElements (env : ConvEnv) (modelName : String) (domElements : List DomNode) :
    Option (List DataElm) :=
  match env.toDataElement modelName domElements with
  | none => none
  | some [] => some []
  | some (e :: rest) => some ({ e with originalDomElements := domElements } :: rest)

/-- Whether a type string is a close marker: its first character is a
slash (the charAt(0) check of the source). -/
def headIsSlash (t : String) : Bool :=
  match t.data with
  | [] => false
  | c :: _ => c == '/'

/-- ve.dm.LinearData.static.getType: the type of an element item with the
closing slash removed. -/
def stripSlash (t : String) : String := if headIsSlash t then t.drop 1 else t

/-- The isAllInstanceOf helper of getDataFromDomSubtree: every item is an
element whose resolved class (unregistered types fall back to AlienNode) is
an instance of the target class: AlienMetaItem when alienOnly, MetaItem
otherwise. -/
def isAllInstanceOfMeta (env : ConvEnv) (alienOnly : Bool) (items : List LinItem) : Bool :=
  items.all (fun it =>
    match it with
    | LinItem.elm e =>
      match env.lookup (stripSlash e.type) with
      | some info => if alienOnly then info.isAlienMeta else info.kind == MKind.metaItem
      | none => false
    | _ => false)

/-- The getAboutGroup helper, translated from the source: an element with
an about attribute groups with the maximal run of immediately following
siblings carrying the same about attribute. -/
def getAboutGroup (node : DomNode) (rest : List DomNode) : List DomNode :=
  match node.getAttr "about" with
  | none => [node]
  | some about => node :: rest.takeWhile (fun n => n.getAttr "about" == some about)

/-- The per-recursion-level context record of getDataFromDomSubtree. -/
structure ConvCtx where
  anns : List Nat
  branchType : String
  branchHasContent : Bool
  originallyExpectingContent : Bool
  expectingContent : Bool
  inWrapper : Bool
  canCloseWrapper : Bool
deriving DecidableEq, Repr

/-- A tracked reference to a data element object: undefined, a detached
object (spliced out of the data array, mutations no longer reach it), or
the object at a data index. -/
inductive ObjRef where
  | noRef
  | detached
  | idx (i : Nat)
deriving DecidableEq, Repr

/-- Adjust an object reference across a splice removal of k items at p. -/
def ObjRef.afterRemove (p k : Nat) : ObjRef → ObjRef
  | ObjRef.noRef => ObjRef.noRef
  | ObjRef.detached => ObjRef.detached
  | ObjRef.idx i =>
    if i < p then ObjRef.idx i
    else if i < p + k then ObjRef.detached
    else ObjRef.idx (i - k)

/-- Adjust an object reference across a splice insertion of k items at p. -/
def ObjRef.afterInsert (p k : Nat) : ObjRef → ObjRef
  | ObjRef.idx i => ObjRef.idx (if i < p then i else i + k)
  | r => r

/-- The mutable local state of one getDataFromDomSubtree invocation: the
output array, the whitespace buffers, the queued wrapped meta items, the
indices in data of the generated wrapper paragraph, the previous element
and the wrapper element (object references, tracked as indices), and the
context record. -/
structure LoopSt where
  data : List LinItem
  nextWs : List Char
  wrappedWs : List Char
  wrappedWsIndex : Nat
  wrappedMeta : List LinItem
  wrappingPara : ObjRef
  prevElm : ObjRef
  wrapperIdx : ObjRef
  ctx : ConvCtx

/-- Splice removal of k items at p, adjusting the tracked references. -/
def stRemoveAt (st : LoopSt) (p k : Nat) : LoopSt :=
  { st with
      data := st.data.take p ++ st.data.drop (p + k)
      wrappingPara := st.wrappingPara.afterRemove p k
      prevElm := st.prevElm.afterRemove p k
      wrapperIdx := st.wrapperIdx.afterRemove p k }

/-- Splice insertion of items at p, adjusting the tracked references. -/
def stInsertAt (st : LoopSt) (p : Nat) (items : List LinItem) : LoopSt :=
  { st with
      data := st.data.take p ++ items ++ st.data.drop p
      wrappingPara := st.wrappingPara.afterInsert p items.length
      prevElm := st.prevElm.afterInsert p items.length
      wrapperIdx := st.wrapperIdx.afterInsert p items.length }

/-- Mutate the data element behind an object reference: a no-op for an
undefined reference or a detached object. -/
def updateRef (items : List LinItem) (r : ObjRef) (f : DataElm → DataElm) : List LinItem :=
  match r with
  | ObjRef.idx i => updateElmAt items i f
  | _ => items

/-- The processNextWhitespace helper applied to the element object at a
data index. -/
def procNextWsAt (st : LoopSt) (i : Nat) : LoopSt :=
  if st.nextWs.isEmpty then st
  else
    { st with
      data := updateElmAt st.data i (fun e => addWhitespace e 0 st.nextWs)
      nextWs := [] }

/-- The processNextWhitespace helper applied to an element value not yet in
the data array. -/
def procNextWsVal (st : LoopSt) (e : DataElm) : LoopSt × DataElm :=
  if st.nextWs.isEmpty then (st, e)
  else ({ st with nextWs := [] }, addWhitespace e 0 st.nextWs)

/-- The target of the prev reference inside outputWrappedMetaItems: an
element object in the data array, one in the toInsert accumulator, or
undefined. -/
inductive PrevTgt where
  | inData (i : Nat)
  | inAcc (i : Nat)
  | gone
  | noTgt
deriving DecidableEq, Repr

/-- The loop of outputWrappedMetaItems, translated from the source: walk
the queued items building the toInsert array; for open elements carrying a
whitespace record, in restore mode emit the stored whitespace as character
data before the item and delete its internal object, in fixup mode move the
stored whitespace onto the previous sibling (the wrapping paragraph for the
first); reading a missing whitespace slot zero in restore mode, or fixing
up onto an undefined previous sibling, is a JavaScript TypeError. Returns
the finished toInsert array and the data array (fixup can mutate the
wrapping paragraph inside it). -/
def owmGo (restore : Bool) (ctxAnns : List Nat) :
    List LinItem → List LinItem → PrevTgt → List LinItem →
    Except String (List LinItem × List LinItem)
  | [], acc, _, data => Except.ok (acc, data)
  | item :: rest, acc, prev, data =>
    match item with
    | LinItem.elm e =>
      if !headIsSlash e.type then
        match e.internalRec.bind (fun ir => ir.whitespaceRec) with
        | some w =>
          if restore then
            match w.w0 with
            | some ws0 =>
              let acc2 := acc ++ getDataContentFromText ws0 ctxAnns
              owmGo restore ctxAnns rest
                (acc2 ++ [LinItem.elm { e with internalRec := none }])
                (PrevTgt.inAcc acc2.length) data
            | none => Except.error "split of undefined"
          else
            match w.w0 with
            | some ws0 =>
              if ws0.isEmpty then
                owmGo restore ctxAnns rest (acc ++ [item]) (PrevTgt.inAcc acc.length) data
              else
                match prev with
                | PrevTgt.inData i =>
                  owmGo restore ctxAnns rest (acc ++ [item]) (PrevTgt.inAcc acc.length)
                    (updateElmAt data i (fun pe => addWhitespace pe 3 ws0))
                | PrevTgt.inAcc i =>
                  owmGo restore ctxAnns rest
                    (updateElmAt acc i (fun pe => addWhitespace pe 3 ws0) ++ [item])
                    (PrevTgt.inAcc acc.length) data
                | PrevTgt.gone =>
                  owmGo restore ctxAnns rest (acc ++ [item]) (PrevTgt.inAcc acc.length) data
                | PrevTgt.noTgt => Except.error "internal of undefined"
            | none =>
              owmGo restore ctxAnns rest (acc ++ [item]) (PrevTgt.inAcc acc.length) data
        | none => owmGo restore ctxAnns rest (acc ++ [item]) (PrevTgt.inAcc acc.length) data
      else owmGo restore ctxAnns rest (acc ++ [item]) prev data
    | _ => owmGo restore ctxAnns rest (acc ++ [item]) prev data

/-- The outputWrappedMetaItems helper, translated from the source: flush
the queued items through owmGo, then splice toInsert back at the wrapped
whitespace position in restore mode when wrapped whitespace is pending,
otherwise append it; the queue is emptied. -/
def outputWrappedMetaItems (restore : Bool) (st : LoopSt) : Except String LoopSt :=
  let prev0 := match st.wrappingPara with
    | ObjRef.idx i => PrevTgt.inData i
    | ObjRef.detached => PrevTgt.gone
    | ObjRef.noRef => PrevTgt.noTgt
  match owmGo restore st.ctx.anns st.wrappedMeta [] prev0 st.data with
  | Except.error msg => Except.error msg
  | Except.ok (toInsert, data2) =>
    let st2 := { st with data := data2, wrappedMeta := [] }
    if !st2.wrappedWs.isEmpty && restore then
      Except.ok (stInsertAt st2 st2.wrappedWsIndex toInsert)
    else Except.ok { st2 with data := st2.data ++ toInsert }

/-- The startWrapping helper, translated from the source: push a generated
wrapper paragraph, remember it (as an index), process pending next
whitespace onto it, and flip the context into wrapping mode. -/
def startWrapping (st : LoopSt) : LoopSt :=
  let para : DataElm := { type := "paragraph", internalRec := some { generated := some "wrapper" } }
  let idx := st.data.length
  let st2 := { st with
      data := st.data ++ [LinItem.elm para]
      wrappingPara := ObjRef.idx idx
      ctx := { st.ctx with inWrapper := true, canCloseWrapper := true, expectingContent := true } }
  procNextWsAt st2 idx

/-- The stopWrapping helper, translated from the source: when wrapped
whitespace is pending, splice it back out of the data array, move it onto
the outer-post slot of the last wrapped meta item open (index length minus
two of the queue; undefined when the queue has a single item) or of the
wrapping paragraph, and stash it as next whitespace; then close the
wrapping paragraph, flush the queued meta items in fixup mode, and reset
the wrapping context. -/
def stopWrapping (st : LoopSt) : Except String LoopSt :=
  let step1 : Except String LoopSt :=
    if st.wrappedWs.isEmpty then Except.ok st
    else
      let st2 := stRemoveAt st st.wrappedWsIndex st.wrappedWs.length
      let step2 : Except String LoopSt :=
        if st2.wrappedMeta.length > 0 then
          if st2.wrappedMeta.length ≥ 2 then
            let wm2 := updateElmAt st2.wrappedMeta (st2.wrappedMeta.length - 2) (fun e => addWhitespace e 3 st.wrappedWs)
            Except.ok { st2 with wrappedMeta := wm2 }
          else Except.error "internal of undefined"
        else
          match st2.wrappingPara with
          | ObjRef.noRef => Except.error "internal of undefined"
          | r =>
            let d2 := updateRef st2.data r (fun e => addWhitespace e 3 st.wrappedWs)
            Except.ok { st2 with data := d2 }
      match step2 with
      | Except.error msg => Except.error msg
      | Except.ok st3 => Except.ok { st3 with nextWs := st.wrappedWs }
  match step1 with
  | Except.error msg => Except.error msg
  | Except.ok stA =>
    let stB := { stA with data := stA.data ++ [LinItem.elm { type := "/paragraph" }] }
    match outputWrappedMetaItems false stB with
    | Except.error msg => Except.error msg
    | Except.ok stC =>
      Except.ok { stC with
        wrappingPara := ObjRef.noRef
        ctx := { stC.ctx with
          inWrapper := false
          canCloseWrapper := false
          expectingContent := stC.ctx.originallyExpectingContent } }

/-- Modelled from the spec: the AlienNode class converts whole about
groups. -/
def alienAboutGroup : Bool := true

/-- Modelled from the spec: AlienNode.static.toDataElement wraps the
foreign content as a single opaque alien element (createDataElements then
attaches the original DOM elements for verbatim round-tripping). -/
def alienToData (doms : List DomNode) : List DataElm :=
  let _ := doms
  [{ type := "alien" }]

/-- Modelled from the spec: AlienMetaItem.static.toDataElement wraps
foreign metadata as a single opaque alienMeta element. -/
def alienMetaToData (doms : List DomNode) : List DataElm :=
  let _ := doms
  [{ type := "alienMeta" }]

/-- createDataElements applied to the AlienNode class. -/
def createAlienElements (doms : List DomNode) : List DataElm :=
  match alienToData doms with
  | [] => []
  | e :: rest => { e with originalDomElements := doms } :: rest

/-- createDataElements applied to the AlienMetaItem class. -/
def createAlienMetaElements (doms : List DomNode) : List DataElm :=
  match alienMetaToData doms with
  | [] => []
  | e :: rest => { e with originalDomElements := doms } :: rest

/-- A resolved model class: a registered class (with its registry name and
capability record) or the AlienNode fallback class, which exists whether or
not the registry knows it. -/
inductive MClass where
  | reg (name : String) (info : ModelInfo)
  | alienClass

/-- modelClass.prototype instanceof ve.dm.Annotation. -/
def MClass.isAnn : MClass → Bool
  | MClass.reg _ info => info.kind == MKind.annKind
  | MClass.alienClass => false

/-- modelClass.prototype instanceof ve.dm.MetaItem. -/
def MClass.isMeta : MClass → Bool
  | MClass.reg _ info => info.kind == MKind.metaItem
  | MClass.alienClass => false

/-- modelClass.static.enableAboutGrouping. -/
def MClass.enableAbout : MClass → Bool
  | MClass.reg _ info => info.enableAboutGrouping
  | MClass.alienClass => alienAboutGroup

/-- createDataElements dispatched on the resolved class. -/
def createDataElementsMC (env : ConvEnv) (mc : MClass) (doms : List DomNode) :
    Option (List DataElm) :=
  match mc with
  | MClass.reg n _ => createDataElements env n doms
  | MClass.alienClass => some (createAlienElements doms)

/-- A node-factory query on a type name: the factories throw a TypeError
when the type is not registered. -/
def lookupE (env : ConvEnv) (t : String) : Except String ModelInfo :=
  match env.lookup t with
  | some info => Except.ok info
  | none => Except.error "factory lookup of unregistered type"

/-- The close element paired with an open element. -/
def closeOf (e : DataElm) : DataElm := { type := "/" ++ e.type }

/-- Overwrite the annotations of the first element of a childDataElements
array. -/
def setAnnsHead (cde : List DataElm) (a : List Nat) : List DataElm :=
  match cde with
  | [] => []
  | e :: rest => { e with anns := a } :: rest

/-- The leading JavaScript-whitespace run of a text. -/
def leadWs (t : List Char) : List Char := t.takeWhile isJsSpace

/-- The trailing JavaScript-whitespace run of a text. -/
def trailWs (t : List Char) : List Char := (t.reverse.takeWhile isJsSpace).reverse

/-- A text without its trailing whitespace run. -/
def dropTrailWs (t : List Char) : List Char := (t.reverse.dropWhile isJsSpace).reverse

/-- The character data of a text node, none for elements and comments. -/
def textOf : DomNode → Option (List Char)
  | DomNode.txt t => some t
  | _ => none

/-- The outcome of processing one element or comment child of the loop of
getDataFromDomSubtree, short of the recursive getDataFromDomSubtree calls:
skip the child, fully processed (with the number of consumed DOM
children), recurse as an annotation (with the extended annotation set and
the childNodes kept for the empty-annotation fallback), recurse as a node
(with the wrapper element, the output position and the consumed count), or
a JavaScript TypeError. -/
inductive ElemPlan where
  | planSkip
  | planDone (st1 : LoopSt) (consumed : Nat)
  | planAnnRec (st1 : LoopSt) (childAnns : List Nat) (childNodes : List DomNode)
  | planNodeRec (st1 : LoopSt) (wrapElm : DataElm) (pos : Nat) (consumed : Nat)
  | planFail (msg : String)

/-- The node-or-meta-item part of the element branch (source lines
1742-1836), after the model class, childNodes and childDataElements have
been resolved. -/
def elemMain (env : ConvEnv) (childNode : DomNode) (aboutGroup : List DomNode)
    (mc : MClass) (childNodes : List DomNode) (cde : List DataElm) (st : LoopSt) : ElemPlan :=
  if mc.isAnn then
    match cde with
    | [] => ElemPlan.planFail "createFromElement of undefined"
    | c0 :: _ =>
      let a := env.annIdx c0
      let st1 :=
        if !st.ctx.inWrapper && !st.ctx.expectingContent then
          let stW := startWrapping st
          { stW with prevElm := stW.wrappingPara }
        else st
      ElemPlan.planAnnRec st1 (annSeqPush st1.ctx.anns a) childNodes
  else if mc.isMeta then
    match cde with
    | [] => ElemPlan.planFail "element 0 of undefined"
    | c0 :: cs =>
      let cde1 := if cs.isEmpty then [c0, closeOf c0] else c0 :: cs
      let cde2 := if !st.ctx.anns.isEmpty then setAnnsHead cde1 st.ctx.anns else cde1
      if st.ctx.inWrapper && st.ctx.canCloseWrapper then
        let qpos := st.wrappedMeta.length
        let st1 := { st with wrappedMeta := st.wrappedMeta ++ cde2.map LinItem.elm }
        let st2 :=
          if !st1.wrappedWs.isEmpty then
            let st1r := stRemoveAt st1 st1.wrappedWsIndex st1.wrappedWs.length
            { st1r with
              wrappedMeta := updateElmAt st1r.wrappedMeta qpos (fun e => addWhitespace e 0 st1.wrappedWs)
              nextWs := st1.wrappedWs
              wrappedWs := [] }
          else st1
        ElemPlan.planDone st2 childNodes.length
      else
        match outputWrappedMetaItems true st with
        | Except.error m => ElemPlan.planFail m
        | Except.ok st1 =>
          let pos := st1.data.length
          let st2 := { st1 with data := st1.data ++ cde2.map LinItem.elm }
          let st3 := procNextWsAt st2 pos
          ElemPlan.planDone { st3 with prevElm := ObjRef.idx pos } childNodes.length
  else
    match cde with
    | [] => ElemPlan.planFail "element 0 of undefined"
    | c0 :: cs =>
      match env.lookup c0.type with
      | none => ElemPlan.planFail "isNodeContent of unregistered type"
      | some info0 =>
        let adjust : Except String (LoopSt × List DomNode × List DataElm × ModelInfo × Bool) :=
          if !st.ctx.expectingContent && info0.isContent then
            let stW := startWrapping st
            Except.ok ({ stW with prevElm := stW.wrappingPara }, childNodes, c0 :: cs, info0, info0.isContent)
          else if st.ctx.expectingContent && !info0.isContent then
            if st.ctx.inWrapper && st.ctx.canCloseWrapper then
              match stopWrapping st with
              | Except.error m => Except.error m
              | Except.ok s2 => Except.ok (s2, childNodes, c0 :: cs, info0, info0.isContent)
            else
              let childNodesB := if alienAboutGroup then aboutGroup else [childNode]
              match createAlienElements childNodesB with
              | [] => Except.error "element 0 of undefined"
              | b0 :: bs =>
                match env.lookup b0.type with
                | none => Except.error "isNodeContent of unregistered type"
                | some ai => Except.ok (st, childNodesB, b0 :: bs, ai, ai.isContent)
          else Except.ok (st, childNodes, c0 :: cs, info0, info0.isContent)
        match adjust with
        | Except.error m => ElemPlan.planFail m
        | Except.ok (stA, childNodesF, cdeF, infoF, childIsContent) =>
          let wmStep : Except String LoopSt :=
            if stA.ctx.inWrapper && childIsContent then
              match outputWrappedMetaItems true stA with
              | Except.error m => Except.error m
              | Except.ok s2 => Except.ok { s2 with wrappedWs := [], nextWs := [] }
            else Except.ok stA
          match wmStep with
          | Except.error m => ElemPlan.planFail m
          | Except.ok stB =>
            let cdeG := if childIsContent && !stB.ctx.anns.isEmpty then setAnnsHead cdeF stB.ctx.anns else cdeF
            match cdeG with
            | [] => ElemPlan.planFail "element 0 of undefined"
            | g0 :: gs =>
              if gs.isEmpty && childNodesF.length == 1 && infoF.canHaveChildren &&
                  !infoF.handlesOwnChildren then
                match outputWrappedMetaItems true stB with
                | Except.error m => ElemPlan.planFail m
                | Except.ok stC =>
                  ElemPlan.planNodeRec stC g0 stC.data.length childNodesF.length
              else
                let cdeH := if gs.isEmpty then [g0, closeOf g0] else g0 :: gs
                match outputWrappedMetaItems true stB with
                | Except.error m => ElemPlan.planFail m
                | Except.ok stC =>
                  let pos := stC.data.length
                  let stD := { stC with data := stC.data ++ cdeH.map LinItem.elm }
                  let stE := procNextWsAt stD pos
                  ElemPlan.planDone { stE with prevElm := ObjRef.idx pos } childNodesF.length

/-- The element-or-comment branch of the loop of getDataFromDomSubtree
(source lines 1682-1713): the data-ve-ignore skip, about-group collection,
model matching, childDataElements creation with alienation fallback, and
the model-class update from the returned type. -/
def elemStep (env : ConvEnv) (childNode : DomNode) (rest : List DomNode) (st : LoopSt) :
    ElemPlan :=
  let ignore := match childNode.getAttr "data-ve-ignore" with
    | some v => !v.isEmpty
    | none => false
  if ignore then ElemPlan.planSkip
  else
    let aboutGroup := getAboutGroup childNode rest
    let modelName := env.matchElement childNode (aboutGroup.length > 1)
    let mcA : MClass := match modelName with
      | some n =>
        match env.lookup n with
        | some info => MClass.reg n info
        | none => MClass.alienClass
      | none => MClass.alienClass
    let childNodesA := if mcA.isAnn then [childNode]
      else if mcA.enableAbout then aboutGroup else [childNode]
    match createDataElementsMC env mcA childNodesA with
    | none =>
      let childNodesB := if alienAboutGroup then aboutGroup else [childNode]
      elemMain env childNode aboutGroup MClass.alienClass childNodesB
        (createAlienElements childNodesB) st
    | some [] => ElemPlan.planSkip
    | some (c :: cs) =>
      match env.lookup c.type with
      | none => ElemPlan.planFail "prototype of undefined"
      | some info => elemMain env childNode aboutGroup (MClass.reg c.type info) childNodesA (c :: cs) st

/-- The steps after the annotation recursion (source lines 1728-1741): the
empty-or-all-alien-meta fallback to an annotated alienMeta pair, flushing
queued meta items, appending the child data and clearing wrapped
whitespace. -/
def annPost (env : ConvEnv) (childNodes : List DomNode) (sub : List LinItem) (st : LoopSt) :
    Except String LoopSt :=
  let cde2 : Except String (List LinItem) :=
    if sub.isEmpty || isAllInstanceOfMeta env true sub then
      match createAlienMetaElements childNodes with
      | [] => Except.error "element 0 of undefined"
      | m0 :: ms =>
        let pair := (m0 :: ms) ++ [closeOf m0]
        let pair2 := if !st.ctx.anns.isEmpty then setAnnsHead pair st.ctx.anns else pair
        Except.ok (pair2.map LinItem.elm)
    else Except.ok sub
  match cde2 with
  | Except.error m => Except.error m
  | Except.ok items =>
    match outputWrappedMetaItems true st with
    | Except.error m => Except.error m
    | Except.ok st1 => Except.ok { st1 with data := st1.data ++ items, wrappedWs := [] }

/-- The steps after the node recursion (source lines 1817-1831): append the
recursion output, process pending next whitespace onto the child element
(sitting at the recorded position) and remember it as the previous
element. -/
def nodePost (st : LoopSt) (pos : Nat) (sub : List LinItem) : LoopSt :=
  let st2 := { st with data := st.data ++ sub }
  let st3 := procNextWsAt st2 pos
  { st3 with prevElm := ObjRef.idx pos }

/-- The text-node branch of the loop of getDataFromDomSubtree (source
lines 1837-1964), translated from the source. -/
def textStep (sigWs hasWrapper first isLast : Bool) (textData : List Char) (st : LoopSt) :
    Except String LoopSt :=
  if textData.isEmpty then Except.ok st
  else if !st.ctx.originallyExpectingContent then
    if textData.all isJsSpace then
      if st.ctx.inWrapper then
        let st2 := { st with wrappedWs := textData, wrappedWsIndex := st.data.length }
        Except.ok { st2 with data := st2.data ++ getDataContentFromText textData st2.ctx.anns }
      else
        let d1 :=
          match st.prevElm with
          | ObjRef.noRef =>
            if hasWrapper then updateRef st.data st.wrapperIdx (fun e => addWhitespace e 1 textData)
            else st.data
          | r => updateRef st.data r (fun e => addWhitespace e 3 textData)
        outputWrappedMetaItems true { st with data := d1, nextWs := textData, wrappedWs := [] }
    else
      let lead := leadWs textData
      let afterLead := textData.drop lead.length
      let core := dropTrailWs afterLead
      let trail := trailWs afterLead
      let step1 : Except String LoopSt :=
        if !st.ctx.inWrapper then
          let stW := startWrapping st
          if lead.isEmpty then Except.ok stW
          else
            let dP :=
              match stW.prevElm with
              | ObjRef.noRef =>
                if hasWrapper then updateRef stW.data stW.wrapperIdx (fun e => addWhitespace e 1 lead)
                else stW.data
              | r => updateRef stW.data r (fun e => addWhitespace e 3 lead)
            Except.ok { stW with data := updateRef dP stW.wrappingPara (fun e => addWhitespace e 0 lead) }
        else
          match outputWrappedMetaItems true st with
          | Except.error m => Except.error m
          | Except.ok s2 => Except.ok { s2 with data := s2.data ++ getDataContentFromText lead s2.ctx.anns }
      match step1 with
      | Except.error m => Except.error m
      | Except.ok stA =>
        let stB := { stA with data := stA.data ++ getDataContentFromText core stA.ctx.anns }
        let stC := { stB with wrappedWs := trail, wrappedWsIndex := stB.data.length }
        let stD := { stC with data := stC.data ++ getDataContentFromText trail stC.ctx.anns }
        Except.ok { stD with prevElm := stD.wrappingPara }
  else
    let lead := if st.ctx.anns.isEmpty && first && hasWrapper && !sigWs then leadWs textData else []
    let d1 :=
      if lead.isEmpty then st.data
      else updateRef st.data st.wrapperIdx (fun e => addWhitespace e 1 lead)
    let t1 := textData.drop lead.length
    let trail := if st.ctx.anns.isEmpty && isLast && hasWrapper && !sigWs then trailWs t1 else []
    let d2 :=
      if trail.isEmpty then d1
      else updateRef d1 st.wrapperIdx (fun e => addWhitespace e 2 trail)
    let t2 := t1.take (t1.length - trail.length)
    Except.ok { st with data := d2 ++ getDataContentFromText t2 st.ctx.anns }

/-- The branch type of a getDataFromDomSubtree invocation: the wrapper
element type, else the inherited branch type, else document. -/
def initBranchType (prevCtx : Option ConvCtx) (wrapperElement : Option DataElm) : String :=
  match wrapperElement with
  | some w => w.type
  | none =>
    match prevCtx with
    | some p => p.branchType
    | none => "document"

/-- The entry steps of getDataFromDomSubtree (source lines 1663-1681): the
context record is built from the arguments and the context stack, and the
open wrapper element is pushed; looking up the capabilities of an
unregistered branch type is a JavaScript TypeError. -/
def subtreeInit (env : ConvEnv) (prevCtx : Option ConvCtx) (wrapperElement : Option DataElm)
    (annSetArg : Option (List Nat)) : Except String (ModelInfo × LoopSt) :=
  let ctxAnns := match annSetArg with
    | some a => a
    | none =>
      match prevCtx with
      | some p => p.anns
      | none => []
  let branchType := match wrapperElement with
    | some w => w.type
    | none =>
      match prevCtx with
      | some p => p.branchType
      | none => "document"
  match env.lookup branchType with
  | none => Except.error "canNodeContainContent of unregistered type"
  | some binfo =>
    let origExpect := binfo.canContainContent || !ctxAnns.isEmpty
    let inh := match prevCtx with
      | some p => p.inWrapper
      | none => false
    let ctx : ConvCtx := {
      anns := ctxAnns
      branchType := branchType
      branchHasContent := binfo.canContainContent
      originallyExpectingContent := origExpect
      expectingContent := origExpect
      inWrapper := inh
      canCloseWrapper := false }
    let d0 := match wrapperElement with
      | some w => [LinItem.elm w]
      | none => []
    let wr := match wrapperElement with
      | some _ => ObjRef.idx 0
      | none => ObjRef.noRef
    Except.ok (binfo, {
      data := d0
      nextWs := []
      wrappedWs := []
      wrappedWsIndex := 0
      wrappedMeta := []
      wrappingPara := ObjRef.noRef
      prevElm := ObjRef.noRef
      wrapperIdx := wr
      ctx := ctx })

/-- The exit steps of getDataFromDomSubtree (source lines 1966-2008): end
auto-wrapping, add an empty paragraph to a childless node that accepts
one, add trailing inner whitespace and the close element, and avoid
returning an empty document. -/
def finishWrapDone (st : LoopSt) : Except String LoopSt :=
  if st.ctx.inWrapper && st.ctx.canCloseWrapper then
    match stopWrapping st with
    | Except.error m => Except.error m
    | Except.ok s2 => Except.ok { s2 with ctx := { s2.ctx with inWrapper := true } }
  else Except.ok st

/-- Append a generated empty paragraph (with pending next whitespace
processed onto it) to the output. -/
def emptyParaAt (st : LoopSt) : LoopSt :=
  let ep : DataElm := { type := "paragraph", internalRec := some { generated := some "empty" } }
  let pr := procNextWsVal st ep
  { pr.1 with data := pr.1.data ++ [LinItem.elm pr.2, LinItem.elm { type := "/paragraph" }] }

/-- The empty-paragraph step for a childless node that accepts paragraph
children (source lines 1970-1984). -/
def finishEmptyPara (binfo : ModelInfo) (branchType : String) (hasWrapper : Bool)
    (st : LoopSt) : LoopSt :=
  let wrapperIsLast := match st.wrapperIdx with
    | ObjRef.idx i => st.data.length == i + 1
    | _ => false
  let validChildPara := match binfo.childNodeTypes with
    | none => true
    | some ts => ts.contains "paragraph"
  if branchType != "paragraph" && hasWrapper && wrapperIsLast && !st.ctx.inWrapper &&
      !binfo.canContainContent && !binfo.isContent && validChildPara then
    emptyParaAt st
  else st

/-- The trailing-inner-whitespace and close-element step (source lines
1986-1997). -/
def finishClose (branchType : String) (hasWrapper : Bool) (st : LoopSt) : LoopSt :=
  if hasWrapper then
    let isLastB := match st.wrapperIdx with
      | ObjRef.idx i => st.data.length == i + 1
      | _ => false
    let stB2 :=
      if !st.nextWs.isEmpty && !isLastB then
        { st with
          data := updateRef st.data st.wrapperIdx (fun e => addWhitespace e 2 st.nextWs)
          nextWs := [] }
      else st
    { stB2 with data := stB2.data ++ [LinItem.elm { type := "/" ++ branchType }] }
  else st

/-- The empty-document step: a document whose data is all meta gets a
generated empty paragraph (source lines 1999-2006). -/
def finishDocPara (env : ConvEnv) (branchType : String) (annWasNone : Bool)
    (st : LoopSt) : LoopSt :=
  if branchType == "document" && isAllInstanceOfMeta env false st.data && annWasNone then
    emptyParaAt st
  else st

def subtreeFinish (env : ConvEnv) (binfo : ModelInfo) (branchType : String)
    (hasWrapper annWasNone : Bool) (st : LoopSt) : Except String (List LinItem) :=
  match finishWrapDone st with
  | Except.error m => Except.error m
  | Except.ok stA =>
    Except.ok (finishDocPara env branchType annWasNone
      (finishClose branchType hasWrapper
        (finishEmptyPara binfo branchType hasWrapper stA))).data

/-- A character list has positive size. -/
theorem charList_sizeOf_pos (l : List Char) : 0 < sizeOf l := by
  cases l <;> simp

/-- Dropping children never increases list size. -/
theorem domList_sizeOf_drop_le (k : Nat) (l : List DomNode) : sizeOf (l.drop k) ≤ sizeOf l := by
  induction l generalizing k with
  | nil => cases k <;> simp
  | cons c cs ih =>
    cases k with
    | zero => simp
    | succ k2 =>
      have h1 : sizeOf ((c :: cs).drop (k2 + 1)) = sizeOf (cs.drop k2) := rfl
      have h2 := ih k2
      have h3 : sizeOf cs ≤ sizeOf (c :: cs) := by simp only [List.cons.sizeOf_spec]; omega
      omega

/-- The children of a DOM node are smaller than the node. -/
theorem childNodes_sizeOf_lt (d : DomNode) : sizeOf d.childNodes < sizeOf d := by
  cases d with
  | el t a c => simp [DomNode.childNodes]; try omega
  | txt cs => have := charList_sizeOf_pos cs; simp [DomNode.childNodes]; try omega
  | comment cs => have := charList_sizeOf_pos cs; simp [DomNode.childNodes]; try omega

mutual
/-- ve.dm.Converter.prototype.getDataFromDomSubtree, translated from the
source: initialize the context and open element, run the child loop, and
finish with wrapper closing, empty-paragraph insertion and the close
element. -/
def convSubtree (env : ConvEnv) (prevCtx : Option ConvCtx) (wrapperElement : Option DataElm)
    (annSetArg : Option (List Nat)) (domElement : DomNode) : Except String (List LinItem) :=
  match subtreeInit env prevCtx wrapperElement annSetArg with
  | Except.error m => Except.error m
  | Except.ok (binfo, st0) =>
    match convChildren env binfo.significantWhitespace wrapperElement.isSome
        domElement.childNodes true st0 with
    | Except.error m => Except.error m
    | Except.ok st1 =>
      subtreeFinish env binfo st0.ctx.branchType wrapperElement.isSome annSetArg.isNone st1
termination_by sizeOf domElement
decreasing_by
  all_goals simp_wf
  all_goals exact childNodes_sizeOf_lt domElement

/-- The child loop of getDataFromDomSubtree: one step per DOM child (about
groups consume several), recursing into annotation children and into
childless content-capable node children. -/
def convChildren (env : ConvEnv) (sigWs hasWrapper : Bool) (children : List DomNode)
    (first : Bool) (st : LoopSt) : Except String LoopSt :=
  match children with
  | [] => Except.ok st
  | childNode :: rest =>
    match textOf childNode with
    | some t =>
      match textStep sigWs hasWrapper first rest.isEmpty t st with
      | Except.error m => Except.error m
      | Except.ok st1 => convChildren env sigWs hasWrapper rest false st1
    | none =>
      match elemStep env childNode rest st with
      | ElemPlan.planFail m => Except.error m
      | ElemPlan.planSkip => convChildren env sigWs hasWrapper rest false st
      | ElemPlan.planDone st1 consumed =>
        convChildren env sigWs hasWrapper (rest.drop (consumed - 1)) false st1
      | ElemPlan.planAnnRec st1 childAnns childNodes =>
        match convSubtree env (some st1.ctx) none (some childAnns) childNode with
        | Except.error m => Except.error m
        | Except.ok sub =>
          match annPost env childNodes sub st1 with
          | Except.error m => Except.error m
          | Except.ok st2 => convChildren env sigWs hasWrapper rest false st2
      | ElemPlan.planNodeRec st1 wrapElm pos consumed =>
        match convSubtree env (some st1.ctx) (some wrapElm) (some []) childNode with
        | Except.error m => Except.error m
        | Except.ok sub =>
          convChildren env sigWs hasWrapper (rest.drop (consumed - 1)) false (nodePost st1 pos sub)
termination_by sizeOf children
decreasing_by
  all_goals simp_wf
  all_goals first
    | omega
    | (have h := domList_sizeOf_drop_le (consumed - 1) rest; omega)
end

/-- The public DOM-to-data conversion of a document body:
getDataFromDomSubtree with no wrapper element and no annotation set. -/
def getDataFromDom (env : ConvEnv) (body : DomNode) : Except String (List LinItem) :=
  convSubtree env none none none body

/-! Balance of linear data: a stack checker for open/close element
markers, and the projections under which the converter state is tracked
through mutation and splicing. -/

/-- Run the open/close marker stack over a run of linear data: characters
are ignored, an open element pushes its type, a close element must match
the top of the stack. -/
def nestCheck (stack : List String) : List LinItem → Option (List String)
  | [] => some stack
  | LinItem.ch _ :: rest => nestCheck stack rest
  | LinItem.annCh _ _ :: rest => nestCheck stack rest
  | LinItem.elm e :: rest =>
    if headIsSlash e.type then
      match stack with
      | [] => none
      | t :: ts => if t == e.type.drop 1 then nestCheck ts rest else none
    else nestCheck (e.type :: stack) rest

/-- Whether an item is a (bare or annotated) character. -/
def isCharItem : LinItem → Bool
  | LinItem.ch _ => true
  | LinItem.annCh _ _ => true
  | LinItem.elm _ => false

/-- The shape of an item as seen by the stack checker: its element type,
or none for a character. -/
def itemTypeOpt : LinItem → Option String
  | LinItem.elm e => some e.type
  | _ => none

/-- The mutation-invariant core of a data element: whitespace fix-ups and
annotation stamping never change the type or the preserved original DOM. -/
def elmCore (e : DataElm) : String × List DomNode := (e.type, e.originalDomElements)

/-- Every data element of the first list survives into the second with its
type and original DOM intact. -/
def elmsPreserved (a b : List LinItem) : Prop :=
  ∀ e, LinItem.elm e ∈ a → ∃ e2, LinItem.elm e2 ∈ b ∧ elmCore e2 = elmCore e

theorem elmsPreserved_refl (a : List LinItem) : elmsPreserved a a :=
  fun e he => ⟨e, he, rfl⟩

theorem elmsPreserved_trans {a b c : List LinItem} (h1 : elmsPreserved a b)
    (h2 : elmsPreserved b c) : elmsPreserved a c := by
  intro e he
  obtain ⟨e2, he2, hc2⟩ := h1 e he
  obtain ⟨e3, he3, hc3⟩ := h2 e2 he2
  exact ⟨e3, he3, hc3.trans hc2⟩

theorem elmsPreserved_append_right {a b : List LinItem} (c : List LinItem)
    (h : elmsPreserved a b) : elmsPreserved a (b ++ c) := by
  intro e he
  obtain ⟨e2, he2, hc⟩ := h e he
  exact ⟨e2, List.mem_append_left c he2, hc⟩

theorem elmsPreserved_append {a b a2 b2 : List LinItem} (h1 : elmsPreserved a a2)
    (h2 : elmsPreserved b b2) : elmsPreserved (a ++ b) (a2 ++ b2) := by
  intro e he
  rcases List.mem_append.mp he with h | h
  · obtain ⟨e2, he2, hc⟩ := h1 e h
    exact ⟨e2, List.mem_append_left b2 he2, hc⟩
  · obtain ⟨e2, he2, hc⟩ := h2 e h
    exact ⟨e2, List.mem_append_right a2 he2, hc⟩

/-- nestCheck over a concatenation runs the two halves in sequence. -/
theorem nestCheck_append (a b : List LinItem) (S : List String) :
    nestCheck S (a ++ b) =
      match nestCheck S a with
      | some S2 => nestCheck S2 b
      | none => none := by
  induction a generalizing S with
  | nil => simp [nestCheck]
  | cons it rest ih =>
    cases it with
    | ch c => simpa [nestCheck] using ih S
    | annCh c an => simpa [nestCheck] using ih S
    | elm e =>
      simp only [List.cons_append, nestCheck]
      split
      · cases S with
        | nil => rfl
        | cons t ts =>
          by_cases ht : t == String.drop e.type 1
          · simpa [ht] using ih ts
          · simp [ht]
      · exact ih _

/-- A successful nestCheck is preserved by widening the stack below. -/
theorem nestCheck_frame (c : List LinItem) (S S2 T : List String)
    (h : nestCheck S c = some S2) : nestCheck (S ++ T) c = some (S2 ++ T) := by
  induction c generalizing S with
  | nil => simp [nestCheck] at h ⊢; exact h
  | cons it rest ih =>
    cases it with
    | ch ch2 => exact ih S (by simpa [nestCheck] using h)
    | annCh ch2 an => exact ih S (by simpa [nestCheck] using h)
    | elm e =>
      simp only [nestCheck] at h ⊢
      split at h
      · cases S with
        | nil => exact absurd h (by simp)
        | cons t ts =>
          simp only [List.cons_append]
          split
          · by_cases ht : t == String.drop e.type 1
            · simp only [ht, if_true] at h
              simpa [ht] using ih ts h
            · simp [ht] at h
          · simp_all
      · split
        · simp_all
        · simpa using ih (e.type :: S) h

/-- Characters do not move the stack. -/
theorem nestCheck_chars (l : List LinItem) (S : List String)
    (h : l.all isCharItem = true) : nestCheck S l = some S := by
  induction l with
  | nil => rfl
  | cons it rest ih =>
    simp only [List.all_cons, Bool.and_eq_true] at h
    cases it with
    | ch c => exact ih h.2
    | annCh c a => exact ih h.2
    | elm e => simp [isCharItem] at h

/-- nestCheck only looks at the shapes of the items. -/
theorem nestCheck_congr (l l2 : List LinItem) (S : List String)
    (h : l.map itemTypeOpt = l2.map itemTypeOpt) : nestCheck S l = nestCheck S l2 := by
  induction l generalizing l2 S with
  | nil =>
    cases l2 with
    | nil => rfl
    | cons it2 r2 => simp at h
  | cons it rest ih =>
    cases l2 with
    | nil => simp at h
    | cons it2 r2 =>
      simp only [List.map_cons, List.cons.injEq] at h
      obtain ⟨h1, h2⟩ := h
      cases it with
      | ch c =>
        cases it2 with
        | ch c2 => simpa [nestCheck] using ih r2 S h2
        | annCh c2 a2 => simpa [nestCheck] using ih r2 S h2
        | elm e2 => simp [itemTypeOpt] at h1
      | annCh c a =>
        cases it2 with
        | ch c2 => simpa [nestCheck] using ih r2 S h2
        | annCh c2 a2 => simpa [nestCheck] using ih r2 S h2
        | elm e2 => simp [itemTypeOpt] at h1
      | elm e =>
        cases it2 with
        | ch c2 => simp [itemTypeOpt] at h1
        | annCh c2 a2 => simp [itemTypeOpt] at h1
        | elm e2 =>
          simp only [itemTypeOpt, Option.some.injEq] at h1
          simp only [nestCheck, h1]
          split
          · cases S with
            | nil => rfl
            | cons t ts =>
              by_cases ht : t == String.drop e2.type 1
              · simpa [ht] using ih r2 ts h2
              · simp [ht]
          · exact ih r2 _ h2

/-- addWhitespace never changes the element type. -/
theorem addWhitespace_type (e : DataElm) (i : Nat) (v : List Char) :
    (addWhitespace e i v).type = e.type := by
  unfold addWhitespace; split <;> rfl

/-- addWhitespace never changes the element core. -/
theorem addWhitespace_core (e : DataElm) (i : Nat) (v : List Char) :
    elmCore (addWhitespace e i v) = elmCore e := by
  unfold addWhitespace elmCore; split <;> rfl

/-- Setting a position to the value it already holds is the identity. -/
theorem set_get_same {α : Type} : ∀ (l : List α) (i : Nat) (x : α),
    l.get? i = some x → l.set i x = l
  | [], i, x, h => by simp at h
  | a :: r, 0, x, h => by simp at h; simp [h]
  | a :: r, i + 1, x, h => by
    simp only [List.get?_cons_succ] at h
    simp [set_get_same r i x h]

/-- updateElmAt either leaves the list alone or replaces the element at
the index. -/
theorem updateElmAt_eq (l : List LinItem) (i : Nat) (f : DataElm → DataElm) :
    updateElmAt l i f = l ∨
      ∃ e, l.get? i = some (LinItem.elm e) ∧ updateElmAt l i f = l.set i (LinItem.elm (f e)) := by
  unfold updateElmAt
  match h : l.get? i with
  | none => exact Or.inl rfl
  | some (LinItem.ch c) => exact Or.inl rfl
  | some (LinItem.annCh c a) => exact Or.inl rfl
  | some (LinItem.elm e) => exact Or.inr ⟨e, rfl, rfl⟩

/-- A type-preserving element mutation preserves the shapes. -/
theorem updateElmAt_shape (l : List LinItem) (i : Nat) (f : DataElm → DataElm)
    (hf : ∀ e, (f e).type = e.type) :
    (updateElmAt l i f).map itemTypeOpt = l.map itemTypeOpt := by
  rcases updateElmAt_eq l i f with h | ⟨e, hg, h⟩
  · rw [h]
  · rw [h, List.map_set]
    apply set_get_same
    rw [List.get?_map, hg]
    simp [itemTypeOpt, hf]

/-- A core-preserving replacement at one index preserves all element
cores. -/
theorem elmsPreserved_set (l : List LinItem) (i : Nat) (e y : DataElm)
    (hg : l.get? i = some (LinItem.elm e)) (hc : elmCore y = elmCore e) :
    elmsPreserved l (l.set i (LinItem.elm y)) := by
  induction l generalizing i with
  | nil => intro e3 h3; simp at h3
  | cons a r ih =>
    cases i with
    | zero =>
      simp only [List.get?_cons_zero, Option.some.injEq] at hg
      intro e3 h3
      rcases List.mem_cons.mp h3 with h | h
      · refine ⟨y, List.mem_cons_self _ _, ?_⟩
        rw [hg] at h
        have he : e3 = e := by injection h
        rw [he]; exact hc
      · exact ⟨e3, List.mem_cons_of_mem _ h, rfl⟩
    | succ i2 =>
      simp only [List.get?_cons_succ] at hg
      intro e3 h3
      rcases List.mem_cons.mp h3 with h | h
      · exact ⟨e3, h ▸ List.mem_cons_self _ _, rfl⟩
      · obtain ⟨e2, h2, hc2⟩ := ih i2 hg e3 h
        exact ⟨e2, List.mem_cons_of_mem _ h2, hc2⟩

/-- updateElmAt with a core-preserving mutation preserves all element
cores. -/
theorem elmsPreserved_updateElmAt (l : List LinItem) (i : Nat) (f : DataElm → DataElm)
    (hf : ∀ e, elmCore (f e) = elmCore e) : elmsPreserved l (updateElmAt l i f) := by
  rcases updateElmAt_eq l i f with h | ⟨e, hg, h⟩
  · rw [h]; exact elmsPreserved_refl l
  · rw [h]; exact elmsPreserved_set l i e (f e) hg (hf e)

/-- updateElmAt preserves the length. -/
theorem updateElmAt_length (l : List LinItem) (i : Nat) (f : DataElm → DataElm) :
    (updateElmAt l i f).length = l.length := by
  rcases updateElmAt_eq l i f with h | ⟨e, hg, h⟩
  · rw [h]
  · rw [h, List.length_set]

/-- updateRef with a type-preserving mutation preserves the shapes. -/
theorem updateRef_shape (l : List LinItem) (r : ObjRef) (f : DataElm → DataElm)
    (hf : ∀ e, (f e).type = e.type) :
    (updateRef l r f).map itemTypeOpt = l.map itemTypeOpt := by
  cases r with
  | noRef => rfl
  | detached => rfl
  | idx i => exact updateElmAt_shape l i f hf

/-- updateRef with a core-preserving mutation preserves all element
cores. -/
theorem elmsPreserved_updateRef (l : List LinItem) (r : ObjRef) (f : DataElm → DataElm)
    (hf : ∀ e, elmCore (f e) = elmCore e) : elmsPreserved l (updateRef l r f) := by
  cases r with
  | noRef => exact elmsPreserved_refl l
  | detached => exact elmsPreserved_refl l
  | idx i => exact elmsPreserved_updateElmAt l i f hf

/-- updateRef preserves the length. -/
theorem updateRef_length (l : List LinItem) (r : ObjRef) (f : DataElm → DataElm) :
    (updateRef l r f).length = l.length := by
  cases r with
  | noRef => rfl
  | detached => rfl
  | idx i => exact updateElmAt_length l i f

/-- Text conversion yields characters only. -/
theorem gdcft_chars (t : List Char) (a : List Nat) :
    (getDataContentFromText t a).all isCharItem = true := by
  unfold getDataContentFromText
  split <;> simp [List.all_eq_true, isCharItem]

/-- All-character runs keep the shapes trivial: nestCheck passes through
them. -/
theorem nestCheck_gdcft (t : List Char) (a : List Nat) (S : List String) :
    nestCheck S (getDataContentFromText t a) = some S :=
  nestCheck_chars _ S (gdcft_chars t a)

/-- Appending characters preserves the outcome of nestCheck from the
left part. -/
theorem nestCheck_append_chars (d c : List LinItem) (S : List String)
    (hc : c.all isCharItem = true) : nestCheck S (d ++ c) = nestCheck S d := by
  rw [nestCheck_append]
  match h : nestCheck S d with
  | none => rfl
  | some S2 => exact nestCheck_chars c S2 hc

/-- Characters contribute no elements. -/
theorem elmsPreserved_into_append_chars (d c : List LinItem)
    (hc : c.all isCharItem = true) : elmsPreserved (d ++ c) d := by
  intro e he
  rcases List.mem_append.mp he with h | h
  · exact ⟨e, h, rfl⟩
  · have := List.all_eq_true.mp hc _ h
    simp [isCharItem] at this

/-- A balanced run is self-contained: it returns any stack unchanged. -/
theorem nestCheck_balanced_self (ti : List LinItem) (h : nestCheck [] ti = some [])
    (T : List String) : nestCheck T ti = some T := by
  have := nestCheck_frame ti [] [] T h
  simpa using this

/-- A successful concatenation splits into a successful prefix and
suffix. -/
theorem nestCheck_prefix_ok (a b : List LinItem) (S X : List String)
    (h : nestCheck S (a ++ b) = some X) :
    ∃ Y, nestCheck S a = some Y ∧ nestCheck Y b = some X := by
  rw [nestCheck_append] at h
  match ha : nestCheck S a with
  | none => rw [ha] at h; exact absurd h (by simp)
  | some Y => rw [ha] at h; exact ⟨Y, rfl, h⟩

/-- Splicing a self-contained run into a balanced-checked list anywhere
preserves the outcome. -/
theorem nestCheck_insert (d ti : List LinItem) (p : Nat) (S X : List String)
    (hd : nestCheck S d = some X) (hti : ∀ T, nestCheck T ti = some T) :
    nestCheck S (d.take p ++ ti ++ d.drop p) = some X := by
  have hsplit : d.take p ++ d.drop p = d := List.take_append_drop p d
  rw [← hsplit] at hd
  obtain ⟨Y, h1, h2⟩ := nestCheck_prefix_ok _ _ _ _ hd
  rw [List.append_assoc, nestCheck_append, h1]
  show nestCheck Y (ti ++ List.drop p d) = some X
  rw [nestCheck_append, hti Y]
  exact h2

/-- Inserting anywhere preserves all elements. -/
theorem elmsPreserved_insert (d ti : List LinItem) (p : Nat) :
    elmsPreserved d (d.take p ++ ti ++ d.drop p) := by
  intro e he
  refine ⟨e, ?_, rfl⟩
  rcases List.mem_append.mp ((List.take_append_drop p d) ▸ he) with h | h
  · exact List.mem_append_left _ (List.mem_append_left _ h)
  · exact List.mem_append_right _ h

/-- The stack expected of the output array during the child loop: an open
generated wrapper paragraph while the wrapper can be closed, on top of the
open wrapper element when the invocation has one. -/
def stackShape (hasWrapper : Bool) (branchType : String) (st : LoopSt) : List String :=
  (if st.ctx.canCloseWrapper then ["paragraph"] else []) ++
    (if hasWrapper then [branchType] else [])

/-- A queued wrapped meta item never carries a whitespace record without
its slot zero: the only whitespace written onto a queued open item is
wrapped whitespace at slot zero. -/
def metaWsOk : LinItem → Prop
  | LinItem.elm e =>
    headIsSlash e.type = false →
    ∀ w, e.internalRec.bind (fun ir => ir.whitespaceRec) = some w → w.w0.isSome = true
  | _ => True

/-- The loop invariant of getDataFromDomSubtree, parametrized by the
per-invocation constants (wrapper presence and branch type): the output
is balance-checked to the expected stack; the wrapping paragraph
reference exists while the wrapper is closable, which also implies the
wrapping flags; pending wrapped whitespace sits as a character run at the
recorded tail of the output while the wrapper is closable; and the queued
wrapped meta items are balanced, never a single item, and carry sound
whitespace records. -/
structure LoopInv (hasWrapper : Bool) (branchType : String) (st : LoopSt) : Prop where
  balance : nestCheck [] st.data = some (stackShape hasWrapper branchType st)
  paraRef : st.ctx.canCloseWrapper = true → st.wrappingPara ≠ ObjRef.noRef
  ccInW : st.ctx.canCloseWrapper = true → st.ctx.inWrapper = true
  ccExp : st.ctx.canCloseWrapper = true → st.ctx.expectingContent = true
  wsGood : st.wrappedWs ≠ [] → st.ctx.canCloseWrapper = true →
    st.data.length = st.wrappedWsIndex + st.wrappedWs.length ∧
      (st.data.drop st.wrappedWsIndex).all isCharItem = true
  wsOrig : st.ctx.originallyExpectingContent = true → st.wrappedWs = []
  wmBal : nestCheck [] st.wrappedMeta = some []
  wmLen : st.wrappedMeta.length ≠ 1
  wmWs : ∀ it ∈ st.wrappedMeta, metaWsOk it

/-- The context fields that stay constant through the child loop. -/
def ctxConst (a b : ConvCtx) : Prop :=
  a.anns = b.anns ∧ a.branchType = b.branchType ∧ a.branchHasContent = b.branchHasContent ∧
    a.originallyExpectingContent = b.originallyExpectingContent

theorem ctxConst_refl (a : ConvCtx) : ctxConst a a := ⟨rfl, rfl, rfl, rfl⟩

theorem ctxConst_trans {a b c : ConvCtx} (h1 : ctxConst a b) (h2 : ctxConst b c) :
    ctxConst a c :=
  ⟨h1.1.trans h2.1, h1.2.1.trans h2.2.1, h1.2.2.1.trans h2.2.2.1, h1.2.2.2.trans h2.2.2.2⟩

/-- A character run on the left passes nestCheck through. -/
theorem nestCheck_chars_append (c z : List LinItem) (S : List String)
    (hc : c.all isCharItem = true) : nestCheck S (c ++ z) = nestCheck S z := by
  rw [nestCheck_append, nestCheck_chars c S hc]

/-- The restore loop of outputWrappedMetaItems succeeds on a queue of
sound whitespace records, leaves the data array alone, and produces a
toInsert array that checks like the accumulator followed by the queue. -/
theorem owmGo_restore (anns : List Nat) :
    ∀ (items acc : List LinItem) (prev : PrevTgt) (data : List LinItem),
    (∀ it ∈ items, metaWsOk it) →
    ∃ ti, owmGo true anns items acc prev data = Except.ok (ti, data) ∧
      ∀ S, nestCheck S ti = nestCheck S (acc ++ items) := by
  intro items
  induction items with
  | nil =>
    intro acc prev data hmw
    exact ⟨acc, rfl, fun S => by simp⟩
  | cons item rest ih =>
    intro acc prev data hmw
    have hmrest : ∀ it ∈ rest, metaWsOk it := fun it h => hmw it (List.mem_cons_of_mem _ h)
    cases item with
    | ch c =>
      obtain ⟨ti, hrun, hck⟩ := ih (acc ++ [LinItem.ch c]) prev data hmrest
      exact ⟨ti, hrun, fun S => by rw [hck S]; simp⟩
    | annCh c a =>
      obtain ⟨ti, hrun, hck⟩ := ih (acc ++ [LinItem.annCh c a]) prev data hmrest
      exact ⟨ti, hrun, fun S => by rw [hck S]; simp⟩
    | elm e =>
      by_cases hsl : headIsSlash e.type
      · obtain ⟨ti, hrun, hck⟩ := ih (acc ++ [LinItem.elm e]) prev data hmrest
        refine ⟨ti, ?_, fun S => by rw [hck S]; simp⟩
        simpa [owmGo, hsl] using hrun
      · match hw : e.internalRec.bind (fun ir => ir.whitespaceRec) with
        | some w =>
          have hmw0 : w.w0.isSome = true := by
            have := hmw (LinItem.elm e) (List.mem_cons_self _ _)
            exact this (by simpa using hsl) w hw
          match hw0 : w.w0 with
          | none => rw [hw0] at hmw0; simp at hmw0
          | some ws0 =>
            obtain ⟨ti, hrun, hck⟩ := ih
              ((acc ++ getDataContentFromText ws0 anns) ++ [LinItem.elm { e with internalRec := none }])
              (PrevTgt.inAcc (acc ++ getDataContentFromText ws0 anns).length) data hmrest
            refine ⟨ti, ?_, ?_⟩
            · simpa [owmGo, hsl, hw, hw0] using hrun
            · intro S
              have tail : ∀ Y, nestCheck Y (getDataContentFromText ws0 anns ++
                  ([LinItem.elm { e with internalRec := none }] ++ rest)) =
                  nestCheck Y (LinItem.elm e :: rest) := by
                intro Y
                rw [nestCheck_chars_append _ _ _ (gdcft_chars ws0 anns)]
                exact nestCheck_congr _ _ _ (by simp [itemTypeOpt])
              rw [hck S, List.append_assoc, List.append_assoc, nestCheck_append, nestCheck_append]
              cases hacc : nestCheck S acc with
              | none => rfl
              | some Y => exact tail Y
        | none =>
          obtain ⟨ti, hrun, hck⟩ := ih (acc ++ [LinItem.elm e]) (PrevTgt.inAcc acc.length) data hmrest
          refine ⟨ti, ?_, fun S => by rw [hck S]; simp⟩
          simpa [owmGo, hsl, hw] using hrun

/-- The fixup loop of outputWrappedMetaItems succeeds whenever the prev
reference is defined, only rewrites whitespace records in the data array,
and produces a toInsert array that checks like the accumulator followed by
the queue. -/
theorem owmGo_fixup (anns : List Nat) :
    ∀ (items acc : List LinItem) (prev : PrevTgt) (data : List LinItem),
    prev ≠ PrevTgt.noTgt →
    ∃ ti data2, owmGo false anns items acc prev data = Except.ok (ti, data2) ∧
      (∀ S, nestCheck S ti = nestCheck S (acc ++ items)) ∧
      data2.map itemTypeOpt = data.map itemTypeOpt ∧
      elmsPreserved data data2 ∧ data2.length = data.length := by
  intro items
  induction items with
  | nil =>
    intro acc prev data hprev
    exact ⟨acc, data, rfl, fun S => by simp, rfl, elmsPreserved_refl data, rfl⟩
  | cons item rest ih =>
    intro acc prev data hprev
    cases item with
    | ch c =>
      obtain ⟨ti, d2, hrun, hck, hsh, hpr, hlen⟩ := ih (acc ++ [LinItem.ch c]) prev data hprev
      exact ⟨ti, d2, hrun, fun S => by rw [hck S]; simp, hsh, hpr, hlen⟩
    | annCh c a =>
      obtain ⟨ti, d2, hrun, hck, hsh, hpr, hlen⟩ := ih (acc ++ [LinItem.annCh c a]) prev data hprev
      exact ⟨ti, d2, hrun, fun S => by rw [hck S]; simp, hsh, hpr, hlen⟩
    | elm e =>
      by_cases hsl : headIsSlash e.type
      · obtain ⟨ti, d2, hrun, hck, hsh, hpr, hlen⟩ := ih (acc ++ [LinItem.elm e]) prev data hprev
        refine ⟨ti, d2, ?_, fun S => by rw [hck S]; simp, hsh, hpr, hlen⟩
        simpa [owmGo, hsl] using hrun
      · match hw : e.internalRec.bind (fun ir => ir.whitespaceRec) with
        | some w =>
          match hw0 : w.w0 with
          | some ws0 =>
            by_cases hempty : ws0.isEmpty
            · obtain ⟨ti, d2, hrun, hck, hsh, hpr, hlen⟩ :=
                ih (acc ++ [LinItem.elm e]) (PrevTgt.inAcc acc.length) data (by simp)
              refine ⟨ti, d2, ?_, fun S => by rw [hck S]; simp, hsh, hpr, hlen⟩
              simpa [owmGo, hsl, hw, hw0, hempty] using hrun
            · match prev with
              | PrevTgt.noTgt => exact absurd rfl hprev
              | PrevTgt.gone =>
                obtain ⟨ti, d2, hrun, hck, hsh, hpr, hlen⟩ :=
                  ih (acc ++ [LinItem.elm e]) (PrevTgt.inAcc acc.length) data (by simp)
                refine ⟨ti, d2, ?_, fun S => by rw [hck S]; simp, hsh, hpr, hlen⟩
                simpa [owmGo, hsl, hw, hw0, hempty] using hrun
              | PrevTgt.inData i =>
                obtain ⟨ti, d2, hrun, hck, hsh, hpr, hlen⟩ :=
                  ih (acc ++ [LinItem.elm e]) (PrevTgt.inAcc acc.length)
                    (updateElmAt data i (fun pe => addWhitespace pe 3 ws0)) (by simp)
                refine ⟨ti, d2, ?_, fun S => by rw [hck S]; simp, ?_, ?_, ?_⟩
                · simpa [owmGo, hsl, hw, hw0, hempty] using hrun
                · exact hsh.trans (updateElmAt_shape data i _ (fun pe => addWhitespace_type pe 3 ws0))
                · exact elmsPreserved_trans
                    (elmsPreserved_updateElmAt data i _ (fun pe => addWhitespace_core pe 3 ws0)) hpr
                · exact hlen.trans (updateElmAt_length data i _)
              | PrevTgt.inAcc i =>
                obtain ⟨ti, d2, hrun, hck, hsh, hpr, hlen⟩ :=
                  ih (updateElmAt acc i (fun pe => addWhitespace pe 3 ws0) ++ [LinItem.elm e])
                    (PrevTgt.inAcc acc.length) data (by simp)
                have hshape : (updateElmAt acc i (fun pe => addWhitespace pe 3 ws0)).map itemTypeOpt =
                    acc.map itemTypeOpt :=
                  updateElmAt_shape acc i _ (fun pe => addWhitespace_type pe 3 ws0)
                refine ⟨ti, d2, ?_, ?_, hsh, hpr, hlen⟩
                · simpa [owmGo, hsl, hw, hw0, hempty] using hrun
                · intro S
                  rw [hck S]
                  apply nestCheck_congr
                  simp [hshape]
          | none =>
            obtain ⟨ti, d2, hrun, hck, hsh, hpr, hlen⟩ :=
              ih (acc ++ [LinItem.elm e]) (PrevTgt.inAcc acc.length) data (by simp)
            refine ⟨ti, d2, ?_, fun S => by rw [hck S]; simp, hsh, hpr, hlen⟩
            simpa [owmGo, hsl, hw, hw0] using hrun
        | none =>
          obtain ⟨ti, d2, hrun, hck, hsh, hpr, hlen⟩ :=
            ih (acc ++ [LinItem.elm e]) (PrevTgt.inAcc acc.length) data (by simp)
          refine ⟨ti, d2, ?_, fun S => by rw [hck S]; simp, hsh, hpr, hlen⟩
          simpa [owmGo, hsl, hw] using hrun

/-- Insertion adjustment keeps a defined reference defined. -/
theorem ObjRef.afterInsert_ne (r : ObjRef) (p k : Nat) (h : r ≠ ObjRef.noRef) :
    r.afterInsert p k ≠ ObjRef.noRef := by
  cases r with
  | noRef => exact absurd rfl h
  | detached => simp [ObjRef.afterInsert]
  | idx i => simp [ObjRef.afterInsert]

/-- Removal adjustment keeps a defined reference defined. -/
theorem ObjRef.afterRemove_ne (r : ObjRef) (p k : Nat) (h : r ≠ ObjRef.noRef) :
    r.afterRemove p k ≠ ObjRef.noRef := by
  cases r with
  | noRef => exact absurd rfl h
  | detached => simp [ObjRef.afterRemove]
  | idx i =>
    simp only [ObjRef.afterRemove]
    split
    · simp
    · split <;> simp

/-- Flushing the queued meta items in restore mode succeeds when the
queue is balanced with sound whitespace records; the context, whitespace
buffers and next whitespace survive, the queue empties, the balance
outcome is unchanged and all data elements survive. -/
theorem owm_restore_spec (hasWrapper : Bool) (branchType : String) (st : LoopSt)
    (hbal : nestCheck [] st.data = some (stackShape hasWrapper branchType st))
    (hwmb : nestCheck [] st.wrappedMeta = some [])
    (hmw : ∀ it ∈ st.wrappedMeta, metaWsOk it) :
    ∃ st2, outputWrappedMetaItems true st = Except.ok st2 ∧
      st2.ctx = st.ctx ∧ st2.wrappedMeta = [] ∧ st2.nextWs = st.nextWs ∧
      st2.wrappedWs = st.wrappedWs ∧ st2.wrappedWsIndex = st.wrappedWsIndex ∧
      (st.wrappingPara ≠ ObjRef.noRef → st2.wrappingPara ≠ ObjRef.noRef) ∧
      nestCheck [] st2.data = some (stackShape hasWrapper branchType st) ∧
      elmsPreserved st.data st2.data := by
  obtain ⟨ti, hrun, hck⟩ := owmGo_restore st.ctx.anns st.wrappedMeta []
    (match st.wrappingPara with
     | ObjRef.idx i => PrevTgt.inData i
     | ObjRef.detached => PrevTgt.gone
     | ObjRef.noRef => PrevTgt.noTgt) st.data hmw
  have hti : ∀ T, nestCheck T ti = some T := by
    intro T
    rw [hck T, List.nil_append]
    exact nestCheck_balanced_self _ hwmb T
  unfold outputWrappedMetaItems
  dsimp only
  rw [hrun]
  dsimp only
  by_cases hwsr : st.wrappedWs.isEmpty
  · rw [if_neg (by simp [hwsr])]
    refine ⟨_, rfl, rfl, rfl, rfl, rfl, rfl, fun h => h, ?_, ?_⟩
    · rw [nestCheck_append, hbal]
      exact hti _
    · exact elmsPreserved_append_right ti (elmsPreserved_refl st.data)
  · rw [if_pos (by simp [hwsr])]
    unfold stInsertAt
    refine ⟨_, rfl, rfl, rfl, rfl, rfl, rfl, ?_, ?_, ?_⟩
    · intro h
      exact ObjRef.afterInsert_ne _ _ _ h
    · exact nestCheck_insert st.data ti st.wrappedWsIndex [] _ hbal hti
    · exact elmsPreserved_insert st.data ti st.wrappedWsIndex

/-- startWrapping: the context flips into closable wrapping mode, the
wrapping paragraph reference is defined, the whitespace buffers and queue
survive, a generated open paragraph tops the balance stack, and all data
elements survive. -/
theorem startWrapping_spec (hasWrapper : Bool) (branchType : String) (st : LoopSt)
    (hbal : nestCheck [] st.data = some (stackShape hasWrapper branchType st)) :
    (startWrapping st).ctx =
        { st.ctx with inWrapper := true, canCloseWrapper := true, expectingContent := true } ∧
      (startWrapping st).wrappingPara ≠ ObjRef.noRef ∧
      (startWrapping st).wrappedWs = st.wrappedWs ∧
      (startWrapping st).wrappedWsIndex = st.wrappedWsIndex ∧
      (startWrapping st).wrappedMeta = st.wrappedMeta ∧
      nestCheck [] (startWrapping st).data =
        some ("paragraph" :: stackShape hasWrapper branchType st) ∧
      elmsPreserved st.data (startWrapping st).data := by
  unfold startWrapping procNextWsAt
  have hsw : headIsSlash "paragraph" = false := by decide
  have hpush : nestCheck []
      (st.data ++ [LinItem.elm { type := "paragraph", internalRec := some { generated := some "wrapper" } }]) =
      some ("paragraph" :: stackShape hasWrapper branchType st) := by
    rw [nestCheck_append, hbal]
    simp [nestCheck, hsw]
  by_cases hnw : st.nextWs.isEmpty
  · refine ⟨?_, ?_, ?_, ?_, ?_, ?_, ?_⟩ <;> rw [if_pos hnw]
    all_goals first
      | rfl
      | exact hpush
      | exact elmsPreserved_append_right _ (elmsPreserved_refl st.data)
      | simp
  · refine ⟨?_, ?_, ?_, ?_, ?_, ?_, ?_⟩ <;> rw [if_neg hnw]
    all_goals first
      | rfl
      | exact (nestCheck_congr _ _ []
          (updateElmAt_shape _ _ _ (fun e => addWhitespace_type e 0 st.nextWs))).trans hpush
      | exact elmsPreserved_trans
          (elmsPreserved_append_right _ (elmsPreserved_refl st.data))
          (elmsPreserved_updateElmAt _ _ _ (fun e => addWhitespace_core e 0 st.nextWs))
      | simp

/-- Close-marker facts for the wrapping paragraph. -/
theorem headIsSlash_close_para : headIsSlash "/paragraph" = true := by decide

/-- Flushing the queue in fixup mode after the close paragraph: packaged
form of owmGo_fixup at the outputWrappedMetaItems level. The queue must be
balanced and the wrapping paragraph reference defined. -/
theorem owm_fixup_spec (st : LoopSt) (X : List String)
    (hbal : nestCheck [] st.data = some X)
    (hwmb : nestCheck [] st.wrappedMeta = some [])
    (hpr : st.wrappingPara ≠ ObjRef.noRef) :
    ∃ st2, outputWrappedMetaItems false st = Except.ok st2 ∧
      st2.ctx = st.ctx ∧ st2.wrappedMeta = [] ∧ st2.nextWs = st.nextWs ∧
      st2.wrappedWs = st.wrappedWs ∧
      st2.wrappingPara ≠ ObjRef.noRef ∧
      nestCheck [] st2.data = some X ∧
      elmsPreserved st.data st2.data := by
  obtain ⟨ti, data2, hrun, hck, hsh, hprv, hlen⟩ := owmGo_fixup st.ctx.anns st.wrappedMeta []
    (match st.wrappingPara with
     | ObjRef.idx i => PrevTgt.inData i
     | ObjRef.detached => PrevTgt.gone
     | ObjRef.noRef => PrevTgt.noTgt) st.data
    (by
      cases hp : st.wrappingPara with
      | noRef => exact absurd hp hpr
      | detached => simp
      | idx i => simp)
  have hti : ∀ T, nestCheck T ti = some T := by
    intro T
    rw [hck T, List.nil_append]
    exact nestCheck_balanced_self _ hwmb T
  unfold outputWrappedMetaItems
  dsimp only
  rw [hrun]
  dsimp only
  rw [if_neg (by simp)]
  refine ⟨_, rfl, rfl, rfl, rfl, rfl, hpr, ?_, ?_⟩
  · rw [nestCheck_append]
    rw [nestCheck_congr data2 st.data [] hsh, hbal]
    exact hti X
  · exact elmsPreserved_trans hprv (elmsPreserved_append_right ti (elmsPreserved_refl data2))

/-- stopWrapping under the loop invariant with a closable wrapper: it
succeeds, pops the generated paragraph off the balance stack, resets the
wrapping context and empties the queue; the wrapped whitespace buffer is
left as-is and all data elements survive. -/
theorem stopWrapping_spec (hasWrapper : Bool) (branchType : String) (st : LoopSt)
    (hinv : LoopInv hasWrapper branchType st)
    (hcc : st.ctx.canCloseWrapper = true) :
    ∃ st2, stopWrapping st = Except.ok st2 ∧
      st2.ctx = { st.ctx with inWrapper := false, canCloseWrapper := false, expectingContent := st.ctx.originallyExpectingContent } ∧
      st2.wrappedMeta = [] ∧ st2.wrappingPara = ObjRef.noRef ∧
      st2.wrappedWs = st.wrappedWs ∧
      nestCheck [] st2.data = some (if hasWrapper then [branchType] else []) ∧
      elmsPreserved st.data st2.data := by
  have hshape : stackShape hasWrapper branchType st =
      "paragraph" :: (if hasWrapper then [branchType] else []) := by
    unfold stackShape
    rw [hcc]
    rfl
  have hstepA : ∃ stA,
      (if st.wrappedWs.isEmpty then Except.ok st
       else
        let st2 := stRemoveAt st st.wrappedWsIndex st.wrappedWs.length
        let step2 : Except String LoopSt :=
          if st2.wrappedMeta.length > 0 then
            if st2.wrappedMeta.length ≥ 2 then
              let wm2 := updateElmAt st2.wrappedMeta (st2.wrappedMeta.length - 2) (fun e => addWhitespace e 3 st.wrappedWs)
              Except.ok { st2 with wrappedMeta := wm2 }
            else Except.error "internal of undefined"
          else
            match st2.wrappingPara with
            | ObjRef.noRef => Except.error "internal of undefined"
            | r =>
              let d2 := updateRef st2.data r (fun e => addWhitespace e 3 st.wrappedWs)
              Except.ok { st2 with data := d2 }
        match step2 with
        | Except.error msg => Except.error msg
        | Except.ok st3 => Except.ok { st3 with nextWs := st.wrappedWs }) = Except.ok stA ∧
      stA.ctx = st.ctx ∧
      nestCheck [] stA.data = some (stackShape hasWrapper branchType st) ∧
      nestCheck [] stA.wrappedMeta = some [] ∧
      stA.wrappingPara ≠ ObjRef.noRef ∧
      stA.wrappedWs = st.wrappedWs ∧
      elmsPreserved st.data stA.data := by
    by_cases hws : st.wrappedWs.isEmpty
    · rw [if_pos hws]
      exact ⟨st, rfl, rfl, hinv.balance, hinv.wmBal, hinv.paraRef hcc, rfl,
        elmsPreserved_refl st.data⟩
    · rw [if_neg hws]
      have hwsne : st.wrappedWs ≠ [] := by
        intro h
        rw [h] at hws
        exact hws rfl
      obtain ⟨hlen, hchars⟩ := hinv.wsGood hwsne hcc
      have hdropnil : st.data.drop (st.wrappedWsIndex + st.wrappedWs.length) = [] := by
        apply List.drop_eq_nil_of_le
        omega
      have hsplit : st.data.take st.wrappedWsIndex ++ st.data.drop st.wrappedWsIndex = st.data :=
        List.take_append_drop _ _
      have htake : nestCheck [] (st.data.take st.wrappedWsIndex) =
          some (stackShape hasWrapper branchType st) := by
        have h2 := nestCheck_append_chars (st.data.take st.wrappedWsIndex)
          (st.data.drop st.wrappedWsIndex) [] hchars
        rw [hsplit] at h2
        rw [← h2]
        exact hinv.balance
      have helms : elmsPreserved st.data (st.data.take st.wrappedWsIndex) := by
        intro e he
        apply elmsPreserved_into_append_chars _ _ hchars e
        rw [hsplit]
        exact he
      have hstR : stRemoveAt st st.wrappedWsIndex st.wrappedWs.length =
          { st with
            data := st.data.take st.wrappedWsIndex
            wrappingPara := st.wrappingPara.afterRemove st.wrappedWsIndex st.wrappedWs.length
            prevElm := st.prevElm.afterRemove st.wrappedWsIndex st.wrappedWs.length
            wrapperIdx := st.wrapperIdx.afterRemove st.wrappedWsIndex st.wrappedWs.length } := by
        unfold stRemoveAt
        rw [hdropnil, List.append_nil]
      dsimp only
      rw [hstR]
      dsimp only
      by_cases hwm : st.wrappedMeta.length > 0
      · have hwm2 : st.wrappedMeta.length ≥ 2 := by
          have := hinv.wmLen
          omega
        rw [if_pos hwm, if_pos hwm2]
        refine ⟨_, rfl, rfl, htake, ?_, ?_, rfl, helms⟩
        · rw [nestCheck_congr _ st.wrappedMeta []
            (updateElmAt_shape _ _ _ (fun e => addWhitespace_type e 3 st.wrappedWs))]
          exact hinv.wmBal
        · exact ObjRef.afterRemove_ne _ _ _ (hinv.paraRef hcc)
      · rw [if_neg hwm]
        have hpr2 : st.wrappingPara.afterRemove st.wrappedWsIndex st.wrappedWs.length ≠
            ObjRef.noRef := ObjRef.afterRemove_ne _ _ _ (hinv.paraRef hcc)
        have hwmnil : st.wrappedMeta = [] := by
          cases h : st.wrappedMeta with
          | nil => rfl
          | cons a b => rw [h] at hwm; simp at hwm
        cases hp : st.wrappingPara.afterRemove st.wrappedWsIndex st.wrappedWs.length with
        | noRef => exact absurd hp hpr2
        | detached =>
          refine ⟨_, rfl, rfl, ?_, ?_, ?_, rfl, ?_⟩
          · simpa [updateRef] using htake
          · rw [hwmnil]
            rfl
          · simp
          · simpa [updateRef] using helms
        | idx i =>
          refine ⟨_, rfl, rfl, ?_, ?_, ?_, rfl, ?_⟩
          · rw [nestCheck_congr _ (st.data.take st.wrappedWsIndex) []
              (updateRef_shape _ (ObjRef.idx i) _ (fun e => addWhitespace_type e 3 st.wrappedWs))]
            exact htake
          · rw [hwmnil]
            rfl
          · simp
          · exact elmsPreserved_trans helms
              (elmsPreserved_updateRef _ (ObjRef.idx i) _ (fun e => addWhitespace_core e 3 st.wrappedWs))
  obtain ⟨stA, hrunA, hctxA, hbalA, hwmA, hprA, hwsA, helmsA⟩ := hstepA
  unfold stopWrapping
  dsimp only
  rw [hrunA]
  dsimp only
  have hclose : nestCheck [] (stA.data ++ [LinItem.elm { type := "/paragraph" }]) =
      some (if hasWrapper then [branchType] else []) := by
    rw [nestCheck_append, hbalA, hshape]
    simp [nestCheck, headIsSlash_close_para, show ("/paragraph".drop 1) = "paragraph" from by decide]
  obtain ⟨stO, hrunO, hctxO, hwmO, hnwO, hwsO, hprO, hbalO, helmsO⟩ :=
    owm_fixup_spec { stA with data := stA.data ++ [LinItem.elm { type := "/paragraph" }] }
      (if hasWrapper then [branchType] else []) hclose hwmA hprA
  rw [hrunO]
  refine ⟨_, rfl, ?_, ?_, rfl, ?_, hbalO, ?_⟩
  · rw [hctxO, hctxA]
  · exact hwmO
  · rw [hwsO]
    exact hwsA
  · exact elmsPreserved_trans helmsA
      (elmsPreserved_trans (elmsPreserved_append_right _ (elmsPreserved_refl stA.data)) helmsO)

/-- Text conversion yields one item per character. -/
theorem gdcft_length (t : List Char) (a : List Nat) :
    (getDataContentFromText t a).length = t.length := by
  unfold getDataContentFromText
  split <;> simp

/-- Character-ness is determined by the shape. -/
theorem isCharItem_shape (it : LinItem) : isCharItem it = (itemTypeOpt it).isNone := by
  cases it <;> rfl

/-- The all-characters test transports along shape equality. -/
theorem all_chars_of_shape (l l2 : List LinItem)
    (h : l.map itemTypeOpt = l2.map itemTypeOpt) :
    l.all isCharItem = l2.all isCharItem := by
  have h1 : ∀ (z : List LinItem), z.all isCharItem = (z.map itemTypeOpt).all Option.isNone := by
    intro z
    induction z with
    | nil => rfl
    | cons a r ih => simp [List.all_cons, isCharItem_shape, ih]
  rw [h1, h1, h]

/-- Shape equality preserves the length. -/
theorem length_of_shape (l l2 : List LinItem)
    (h : l.map itemTypeOpt = l2.map itemTypeOpt) : l.length = l2.length := by
  have := congrArg List.length h
  simpa using this

/-- The expected stack only depends on the context. -/
theorem stackShape_ctx (hasWrapper : Bool) (branchType : String) (a b : LoopSt)
    (h : a.ctx.canCloseWrapper = b.ctx.canCloseWrapper) :
    stackShape hasWrapper branchType a = stackShape hasWrapper branchType b := by
  unfold stackShape
  rw [h]

/-- Keeping the non-data fields and reshaping the data followed by
appended characters preserves the loop invariant when no wrapped
whitespace is pending. -/
theorem LoopInv_keep_append_chars (hasWrapper : Bool) (branchType : String) (st : LoopSt)
    (hinv : LoopInv hasWrapper branchType st) (hws0 : st.wrappedWs = [])
    (D chars : List LinItem) (hD : D.map itemTypeOpt = st.data.map itemTypeOpt)
    (hch : chars.all isCharItem = true) :
    LoopInv hasWrapper branchType { st with data := D ++ chars } := by
  refine ⟨?_, hinv.paraRef, hinv.ccInW, hinv.ccExp, ?_, ?_, hinv.wmBal, hinv.wmLen, hinv.wmWs⟩
  · show nestCheck [] (D ++ chars) = _
    rw [nestCheck_append_chars _ _ _ hch, nestCheck_congr D st.data [] hD]
    exact hinv.balance
  · intro hne
    exact absurd hws0 hne
  · intro _
    exact hws0

/-- The closing steps of the mixed text branch: append the core and the
trailing whitespace, record the trailing run as wrapped whitespace, and
point prevElement at the wrapping paragraph. The loop invariant summary
of the state after the leading-whitespace step yields the invariant of
the final state. -/
theorem LoopInv_text_tail (hasWrapper : Bool) (branchType : String) (stA : LoopSt)
    (hbalA : nestCheck [] stA.data = some (stackShape hasWrapper branchType stA))
    (hprA : stA.ctx.canCloseWrapper = true → stA.wrappingPara ≠ ObjRef.noRef)
    (hciA : stA.ctx.canCloseWrapper = true → stA.ctx.inWrapper = true)
    (hceA : stA.ctx.canCloseWrapper = true → stA.ctx.expectingContent = true)
    (hwmbA : nestCheck [] stA.wrappedMeta = some [])
    (hwmlA : stA.wrappedMeta.length ≠ 1)
    (hwmwA : ∀ it ∈ stA.wrappedMeta, metaWsOk it)
    (horigA : stA.ctx.originallyExpectingContent = false)
    (core trail : List Char) (anns : List Nat) :
    LoopInv hasWrapper branchType
      { stA with
        data := (stA.data ++ getDataContentFromText core anns) ++ getDataContentFromText trail anns
        wrappedWs := trail
        wrappedWsIndex := (stA.data ++ getDataContentFromText core anns).length
        prevElm := stA.wrappingPara } := by
  refine ⟨?_, hprA, hciA, hceA, ?_, ?_, hwmbA, hwmlA, hwmwA⟩
  · show nestCheck [] ((stA.data ++ _) ++ _) = _
    rw [nestCheck_append_chars _ _ _ (gdcft_chars trail anns),
      nestCheck_append_chars _ _ _ (gdcft_chars core anns)]
    exact hbalA
  · intro _ _
    constructor
    · show ((stA.data ++ _) ++ _).length = (stA.data ++ _).length + trail.length
      rw [List.length_append (stA.data ++ _), gdcft_length]
    · show (((stA.data ++ _) ++ _).drop (stA.data ++ _).length).all isCharItem = true
      rw [List.drop_left]
      exact gdcft_chars trail anns
  · intro h
    rw [show ({ stA with
        data := (stA.data ++ getDataContentFromText core anns) ++ getDataContentFromText trail anns
        wrappedWs := trail
        wrappedWsIndex := (stA.data ++ getDataContentFromText core anns).length
        prevElm := stA.wrappingPara } : LoopSt).ctx = stA.ctx from rfl] at h
    rw [horigA] at h
    cases h

/-- The text-node branch preserves the loop invariant and the constant
context fields, and never fails. -/
theorem textStep_ok (hasWrapper : Bool) (branchType : String) (sigWs first isLast : Bool)
    (t : List Char) (st : LoopSt) (hinv : LoopInv hasWrapper branchType st) :
    ∃ st2, textStep sigWs hasWrapper first isLast t st = Except.ok st2 ∧
      LoopInv hasWrapper branchType st2 ∧ ctxConst st2.ctx st.ctx := by
  unfold textStep
  by_cases ht0 : t.isEmpty
  · rw [if_pos ht0]
    exact ⟨st, rfl, hinv, ctxConst_refl _⟩
  rw [if_neg ht0]
  by_cases hoe : st.ctx.originallyExpectingContent
  · -- content context
    rw [if_neg (by simp [hoe])]
    dsimp only
    refine ⟨_, rfl, ?_, ctxConst_refl _⟩
    refine LoopInv_keep_append_chars hasWrapper branchType st hinv (hinv.wsOrig hoe) _ _ ?_
      (gdcft_chars _ _)
    have h1 : ∀ L : List Char,
        (if L.isEmpty then st.data
         else updateRef st.data st.wrapperIdx (fun e => addWhitespace e 1 L)).map itemTypeOpt =
          st.data.map itemTypeOpt := by
      intro L
      split
      · rfl
      · exact updateRef_shape _ _ _ (fun e => addWhitespace_type e 1 L)
    have h2 : ∀ L T : List Char,
        (if T.isEmpty then
          (if L.isEmpty then st.data
           else updateRef st.data st.wrapperIdx (fun e => addWhitespace e 1 L))
         else updateRef
          (if L.isEmpty then st.data
           else updateRef st.data st.wrapperIdx (fun e => addWhitespace e 1 L))
          st.wrapperIdx (fun e => addWhitespace e 2 T)).map itemTypeOpt =
          st.data.map itemTypeOpt := by
      intro L T
      split
      · exact h1 L
      · exact (updateRef_shape _ _ _ (fun e => addWhitespace_type e 2 T)).trans (h1 L)
    exact h2 _ _
  · -- no content expected
    have hoe2 : st.ctx.originallyExpectingContent = false := Bool.eq_false_iff.mpr hoe
    rw [if_pos (by simp [hoe2])]
    by_cases hallws : t.all isJsSpace
    · rw [if_pos hallws]
      by_cases hiw : st.ctx.inWrapper
      · -- whitespace-only inside wrapper
        rw [if_pos hiw]
        dsimp only
        refine ⟨_, rfl, ?_, ctxConst_refl _⟩
        refine ⟨?_, hinv.paraRef, hinv.ccInW, hinv.ccExp, ?_, ?_, hinv.wmBal, hinv.wmLen,
          hinv.wmWs⟩
        · show nestCheck [] (st.data ++ _) = _
          rw [nestCheck_append_chars _ _ _ (gdcft_chars t _)]
          exact hinv.balance
        · intro _ _
          constructor
          · show (st.data ++ _).length = st.data.length + t.length
            rw [List.length_append, gdcft_length]
          · show ((st.data ++ _).drop st.data.length).all isCharItem = true
            rw [List.drop_left]
            exact gdcft_chars t _
        · intro h
          rw [show ({ st with wrappedWs := t, wrappedWsIndex := st.data.length } : LoopSt).ctx = st.ctx from rfl] at h
          exact absurd h hoe
      · -- whitespace-only outside wrapper
        rw [if_neg hiw]
        have hiw2 : st.ctx.inWrapper = false := Bool.eq_false_iff.mpr hiw
        have hcc0 : st.ctx.canCloseWrapper = false := by
          cases hc : st.ctx.canCloseWrapper
          · rfl
          · exact absurd (hinv.ccInW hc) (by rw [hiw2]; simp)
        dsimp only
        suffices key : ∀ d : List LinItem, d.map itemTypeOpt = st.data.map itemTypeOpt →
            ∃ st2, outputWrappedMetaItems true { st with data := d, nextWs := t, wrappedWs := [] } =
              Except.ok st2 ∧ LoopInv hasWrapper branchType st2 ∧ ctxConst st2.ctx st.ctx by
          refine key _ ?_
          cases st.prevElm with
          | noRef =>
            by_cases hhw : hasWrapper
            · rw [if_pos hhw]
              exact updateRef_shape _ _ _ (fun e => addWhitespace_type e 1 t)
            · rw [if_neg hhw]
          | detached => exact updateRef_shape _ _ _ (fun e => addWhitespace_type e 3 t)
          | idx i => exact updateRef_shape _ _ _ (fun e => addWhitespace_type e 3 t)
        intro d hd
        have hb3 : nestCheck []
            ({ st with data := d, nextWs := t, wrappedWs := [] } : LoopSt).data =
            some (stackShape hasWrapper branchType
              ({ st with data := d, nextWs := t, wrappedWs := [] } : LoopSt)) := by
          show nestCheck [] d = _
          rw [nestCheck_congr d st.data [] hd]
          exact hinv.balance
        obtain ⟨stO, hrunO, hctxO, hwmO, hnwO, hwsO, hwiO, hprO, hbalO, helmsO⟩ :=
          owm_restore_spec hasWrapper branchType _ hb3 hinv.wmBal hinv.wmWs
        refine ⟨stO, hrunO, ?_, ?_⟩
        · refine ⟨?_, ?_, ?_, ?_, ?_, ?_, ?_, ?_, ?_⟩
          · rw [stackShape_ctx hasWrapper branchType stO
              { st with data := d, nextWs := t, wrappedWs := [] } (by rw [hctxO])]
            exact hbalO
          · intro hcc
            rw [hctxO] at hcc
            exact absurd hcc (by rw [show ({ st with data := d, nextWs := t, wrappedWs := [] } : LoopSt).ctx = st.ctx from rfl, hcc0]; simp)
          · intro hcc
            rw [hctxO] at hcc
            exact absurd hcc (by rw [show ({ st with data := d, nextWs := t, wrappedWs := [] } : LoopSt).ctx = st.ctx from rfl, hcc0]; simp)
          · intro hcc
            rw [hctxO] at hcc
            exact absurd hcc (by rw [show ({ st with data := d, nextWs := t, wrappedWs := [] } : LoopSt).ctx = st.ctx from rfl, hcc0]; simp)
          · intro hne
            rw [hwsO] at hne
            exact absurd rfl hne
          · intro _
            rw [hwsO]
          · rw [hwmO]
            rfl
          · rw [hwmO]
            simp
          · rw [hwmO]
            intro it hit
            simp at hit
        · rw [hctxO]
          exact ctxConst_refl _
    · -- text with content, no content expected
      rw [if_neg hallws]
      dsimp only
      by_cases hiw : st.ctx.inWrapper
      · -- already wrapping: flush queue, output leading whitespace
        rw [if_neg (by simp [hiw])]
        obtain ⟨stO, hrunO, hctxO, hwmO, hnwO, hwsO, hwiO, hprO, hbalO, helmsO⟩ :=
          owm_restore_spec hasWrapper branchType st hinv.balance hinv.wmBal hinv.wmWs
        rw [hrunO]
        dsimp only
        refine ⟨_, rfl, ?_, ?_⟩
        · have := LoopInv_text_tail hasWrapper branchType
            { stO with data := stO.data ++ getDataContentFromText (leadWs t) stO.ctx.anns }
            (by
              show nestCheck [] (stO.data ++ _) = _
              rw [nestCheck_append_chars _ _ _ (gdcft_chars _ _)]
              rw [stackShape_ctx hasWrapper branchType
                { stO with data := stO.data ++ getDataContentFromText (leadWs t) stO.ctx.anns }
                st (by rw [hctxO])]
              exact hbalO)
            (fun hcc => hprO (hinv.paraRef (by rw [hctxO] at hcc; exact hcc)))
            (fun hcc => by rw [hctxO] at hcc ⊢; exact hinv.ccInW hcc)
            (fun hcc => by rw [hctxO] at hcc ⊢; exact hinv.ccExp hcc)
            (by rw [hwmO]; rfl)
            (by rw [hwmO]; simp)
            (by rw [hwmO]; intro it hit; simp at hit)
            (by rw [hctxO]; exact hoe2)
            (dropTrailWs (t.drop (leadWs t).length)) (trailWs (t.drop (leadWs t).length))
            stO.ctx.anns
          exact this
        · rw [show ∀ z : LoopSt, ({ z with
            data := (z.data ++ getDataContentFromText (dropTrailWs (t.drop (leadWs t).length)) z.ctx.anns) ++ getDataContentFromText (trailWs (t.drop (leadWs t).length)) z.ctx.anns
            wrappedWs := trailWs (t.drop (leadWs t).length)
            wrappedWsIndex := (z.data ++ getDataContentFromText (dropTrailWs (t.drop (leadWs t).length)) z.ctx.anns).length
            prevElm := z.wrappingPara } : LoopSt).ctx = z.ctx from fun _ => rfl]
          rw [hctxO]
          exact ctxConst_refl _
      · -- start wrapping around the text
        have hiw2 : st.ctx.inWrapper = false := Bool.eq_false_iff.mpr hiw
        have hcc0 : st.ctx.canCloseWrapper = false := by
          cases hc : st.ctx.canCloseWrapper
          · rfl
          · exact absurd (hinv.ccInW hc) (by rw [hiw2]; simp)
        rw [if_pos (by simp [hiw2])]
        obtain ⟨hctxW, hprW, hwsW, hwiW, hwmW, hbalW, helmsW⟩ :=
          startWrapping_spec hasWrapper branchType st hinv.balance
        have hshapeW : ∀ d : List LinItem, d.map itemTypeOpt = (startWrapping st).data.map itemTypeOpt →
            nestCheck [] d = some (stackShape hasWrapper branchType (startWrapping st)) := by
          intro d hd
          rw [nestCheck_congr d (startWrapping st).data [] hd, hbalW]
          unfold stackShape
          rw [hctxW, hcc0]
          rfl
        have hciW : (startWrapping st).ctx.canCloseWrapper = true →
            (startWrapping st).ctx.inWrapper = true := by
          intro _
          rw [hctxW]
        have hceW : (startWrapping st).ctx.canCloseWrapper = true →
            (startWrapping st).ctx.expectingContent = true := by
          intro _
          rw [hctxW]
        have horigW : (startWrapping st).ctx.originallyExpectingContent = false := by
          rw [hctxW]
          exact hoe2
        have hconstW : ctxConst (startWrapping st).ctx st.ctx := by
          rw [hctxW]
          exact ⟨rfl, rfl, rfl, rfl⟩
        by_cases hlead : (leadWs t).isEmpty
        · rw [if_pos hlead]
          dsimp only
          refine ⟨_, rfl, ?_, ?_⟩
          · exact LoopInv_text_tail hasWrapper branchType (startWrapping st)
              (hshapeW _ rfl) (fun _ => hprW) hciW hceW
              (by rw [hwmW]; exact hinv.wmBal) (by rw [hwmW]; exact hinv.wmLen)
              (by rw [hwmW]; exact hinv.wmWs) horigW _ _ _
          · exact hconstW
        · rw [if_neg hlead]
          dsimp only
          have hdA : (updateRef
              (match (startWrapping st).prevElm with
               | ObjRef.noRef =>
                 if hasWrapper then updateRef (startWrapping st).data (startWrapping st).wrapperIdx (fun e => addWhitespace e 1 (leadWs t))
                 else (startWrapping st).data
               | r => updateRef (startWrapping st).data r (fun e => addWhitespace e 3 (leadWs t)))
              (startWrapping st).wrappingPara (fun e => addWhitespace e 0 (leadWs t))).map itemTypeOpt =
              (startWrapping st).data.map itemTypeOpt := by
            refine (updateRef_shape _ _ _ (fun e => addWhitespace_type e 0 (leadWs t))).trans ?_
            cases (startWrapping st).prevElm with
            | noRef =>
              by_cases hhw : hasWrapper
              · rw [if_pos hhw]
                exact updateRef_shape _ _ _ (fun e => addWhitespace_type e 1 (leadWs t))
              · rw [if_neg hhw]
            | detached => exact updateRef_shape _ _ _ (fun e => addWhitespace_type e 3 (leadWs t))
            | idx i => exact updateRef_shape _ _ _ (fun e => addWhitespace_type e 3 (leadWs t))
          generalize hDD : updateRef
              (match (startWrapping st).prevElm with
               | ObjRef.noRef =>
                 if hasWrapper then updateRef (startWrapping st).data (startWrapping st).wrapperIdx (fun e => addWhitespace e 1 (leadWs t))
                 else (startWrapping st).data
               | r => updateRef (startWrapping st).data r (fun e => addWhitespace e 3 (leadWs t)))
              (startWrapping st).wrappingPara (fun e => addWhitespace e 0 (leadWs t)) = DD at hdA ⊢
          refine ⟨_, rfl, ?_, ?_⟩
          · exact LoopInv_text_tail hasWrapper branchType { startWrapping st with data := DD }
              (hshapeW _ hdA) (fun _ => hprW) hciW hceW
              (hwmW.symm ▸ hinv.wmBal) (hwmW.symm ▸ hinv.wmLen) (hwmW.symm ▸ hinv.wmWs)
              horigW _ _ _
          · exact hconstW

/-- A built close marker starts with a slash. -/
theorem headIsSlash_append (ty : String) : headIsSlash ("/" ++ ty) = true := by
  unfold headIsSlash
  rw [String.data_append]
  rfl

/-- Dropping the slash of a built close marker recovers the type. -/
theorem slash_drop (ty : String) : ("/" ++ ty).drop 1 = ty := by
  apply String.ext
  rw [String.data_drop, String.data_append]
  rfl

/-- An open element followed by its built close marker is balanced. -/
theorem pair_balanced (e : DataElm) (h : headIsSlash e.type = false) :
    nestCheck [] [LinItem.elm e, LinItem.elm (closeOf e)] = some [] := by
  unfold nestCheck closeOf
  rw [h]
  simp only [if_false, Bool.false_eq_true]
  unfold nestCheck
  rw [headIsSlash_append e.type]
  simp [slash_drop]
  rfl

/-- Annotating the first element does not change the item shapes. -/
theorem setAnnsHead_shape (l : List DataElm) (a : List Nat) :
    ((setAnnsHead l a).map LinItem.elm).map itemTypeOpt = (l.map LinItem.elm).map itemTypeOpt := by
  cases l with
  | nil => rfl
  | cons c cs => simp [setAnnsHead, itemTypeOpt]

/-- Annotating the first element does not change the whitespace records. -/
theorem setAnnsHead_ws (l : List DataElm) (a : List Nat) (e : DataElm)
    (he : e ∈ setAnnsHead l a) :
    ∃ e2 ∈ l, e.internalRec = e2.internalRec := by
  cases l with
  | nil => simp [setAnnsHead] at he
  | cons c cs =>
    rcases List.mem_cons.mp he with h | h
    · exact ⟨c, List.mem_cons_self _ _, by rw [h]⟩
    · exact ⟨e, List.mem_cons_of_mem _ h, rfl⟩

/-- An element without a whitespace record is a sound queued meta item. -/
theorem metaWsOk_of_wsNone (e : DataElm)
    (h : e.internalRec.bind (fun ir => ir.whitespaceRec) = none) : metaWsOk (LinItem.elm e) := by
  intro _ w hw
  rw [h] at hw
  cases hw

/-- Writing wrapped whitespace into slot zero keeps queued meta items
sound. -/
theorem updateElmAt_metaWsOk (l : List LinItem) (i : Nat) (v : List Char)
    (h : ∀ it ∈ l, metaWsOk it) :
    ∀ it ∈ updateElmAt l i (fun e => addWhitespace e 0 v), metaWsOk it := by
  rcases updateElmAt_eq l i (fun e => addWhitespace e 0 v) with heq | ⟨e, hg, heq⟩
  · rw [heq]; exact h
  · rw [heq]
    intro it hit
    have hme := h (LinItem.elm e) (List.get?_mem hg)
    rcases List.mem_or_eq_of_mem_set hit with h2 | h2
    · exact h it h2
    · rw [h2]
      by_cases hv : v.isEmpty
      · have hsame : addWhitespace e 0 v = e := by
          unfold addWhitespace
          rw [if_pos hv]
        rw [hsame]
        exact hme
      · intro _ w hw
        have hvw : (addWhitespace e 0 v).internalRec.bind (fun ir => ir.whitespaceRec) =
            some { ((e.internalRec.getD {}).whitespaceRec.getD {}) with w0 := some v } := by
          unfold addWhitespace
          rw [if_neg hv]
          rfl
        rw [hvw] at hw
        cases hw
        rfl

/-- Well-formedness of the converter environment, matching how VisualEditor
registers its models: the document node, the AlienNode fallback and the
model types named by toDataElement results are registered; no registered
name is a close marker (the registries key plain type names and the slash
prefix is reserved for close markers); the AlienNode fallback is a
childless node class (it preserves its DOM verbatim and never recurses);
a toDataElement result opens with a non-close type; a multi-element result
is already balanced; and toDataElement never pre-fills whitespace
records. -/
structure WfConvEnv (env : ConvEnv) : Prop where
  docReg : (env.lookup "document").isSome
  alienReg : (env.lookup "alien").isSome
  lookupNoSlash : ∀ t info, env.lookup t = some info → headIsSlash t = false
  alienNode : ∀ info, env.lookup "alien" = some info →
    info.kind = MKind.node ∧ info.canHaveChildren = false
  toDataHead : ∀ name doms e rest, env.toDataElement name doms = some (e :: rest) →
    (env.lookup e.type).isSome ∧ headIsSlash e.type = false
  toDataBal : ∀ name doms res, env.toDataElement name doms = some res →
    2 ≤ res.length → nestCheck [] (res.map LinItem.elm) = some []
  toDataWs : ∀ name doms res, env.toDataElement name doms = some res →
    ∀ e ∈ res, e.internalRec.bind (fun ir => ir.whitespaceRec) = none

/-- The facts the element branch needs about a childDataElements array. -/
structure CdeFacts (env : ConvEnv) (cde : List DataElm) : Prop where
  headNoSlash : ∀ c0 cs, cde = c0 :: cs → headIsSlash c0.type = false
  headReg : ∀ c0 cs, cde = c0 :: cs → (env.lookup c0.type).isSome
  bal : 2 ≤ cde.length → nestCheck [] (cde.map LinItem.elm) = some []
  wsNone : ∀ e ∈ cde, e.internalRec.bind (fun ir => ir.whitespaceRec) = none

/-- Unpacking a non-empty createDataElements result. -/
theorem createDataElements_inv (env : ConvEnv) (n : String) (doms : List DomNode)
    (c : DataElm) (cs : List DataElm)
    (h : createDataElements env n doms = some (c :: cs)) :
    ∃ e, env.toDataElement n doms = some (e :: cs) ∧
      c = { e with originalDomElements := doms } := by
  unfold createDataElements at h
  match htd : env.toDataElement n doms with
  | none => rw [htd] at h; cases h
  | some [] => rw [htd] at h; cases h
  | some (e :: rest) =>
    rw [htd] at h
    injection h with h2
    injection h2 with h3 h4
    exact ⟨e, by rw [h4], h3.symm⟩

/-- The created alien elements satisfy the element-branch facts. -/
theorem cdeFacts_alien (env : ConvEnv) (hwf : WfConvEnv env) (doms : List DomNode) :
    CdeFacts env (createAlienElements doms) := by
  refine ⟨?_, ?_, ?_, ?_⟩
  · intro c0 cs hc
    injection hc with h1 h2
    rw [← h1]
    show headIsSlash "alien" = false
    decide
  · intro c0 cs hc
    injection hc with h1 h2
    rw [← h1]
    show (env.lookup "alien").isSome
    exact hwf.alienReg
  · intro h
    simp [createAlienElements, alienToData] at h
  · intro e he
    simp [createAlienElements, alienToData] at he
    rw [he]
    rfl

/-- A registered createDataElements result satisfies the element-branch
facts. -/
theorem cdeFacts_reg (env : ConvEnv) (hwf : WfConvEnv env) (n : String) (doms : List DomNode)
    (c : DataElm) (cs : List DataElm)
    (h : createDataElements env n doms = some (c :: cs)) :
    CdeFacts env (c :: cs) := by
  obtain ⟨e, htd, hc⟩ := createDataElements_inv env n doms c cs h
  have hh := hwf.toDataHead n doms e cs htd
  refine ⟨?_, ?_, ?_, ?_⟩
  · intro c0 cs2 hc2
    injection hc2 with h1 h2
    rw [← h1, hc]
    exact hh.2
  · intro c0 cs2 hc2
    injection hc2 with h1 h2
    rw [← h1, hc]
    exact hh.1
  · intro hlen
    have hb := hwf.toDataBal n doms (e :: cs) htd (by simpa using hlen)
    have hsh : ((c :: cs).map LinItem.elm).map itemTypeOpt =
        ((e :: cs).map LinItem.elm).map itemTypeOpt := by
      rw [hc]
      simp [itemTypeOpt]
    rw [nestCheck_congr _ _ [] hsh]
    exact hb
  · intro e2 he2
    rcases List.mem_cons.mp he2 with h2 | h2
    · rw [h2, hc]
      have := hwf.toDataWs n doms (e :: cs) htd e (List.mem_cons_self _ _)
      exact this
    · exact hwf.toDataWs n doms (e :: cs) htd e2 (List.mem_cons_of_mem _ h2)

/-- The paired-or-balanced output written for a childDataElements array,
with the optional close marker for singletons. -/
theorem cde_pack_balanced (env : ConvEnv) (c0 : DataElm) (cs : List DataElm)
    (hf : CdeFacts env (c0 :: cs)) :
    nestCheck [] ((if cs.isEmpty then [c0, closeOf c0] else c0 :: cs).map LinItem.elm) =
      some [] := by
  cases cs with
  | nil =>
    simp only [List.isEmpty_nil, if_true]
    exact pair_balanced c0 (hf.headNoSlash c0 [] rfl)
  | cons c1 cs2 =>
    simp only [List.isEmpty_cons, if_false, Bool.false_eq_true]
    exact hf.bal (by simp only [List.length_cons]; omega)

/-- Annotating the head keeps the packed output balanced. -/
theorem cde_pack_balanced_ann (env : ConvEnv) (c0 : DataElm) (cs : List DataElm)
    (hf : CdeFacts env (c0 :: cs)) (a : List Nat) :
    nestCheck [] ((setAnnsHead (if cs.isEmpty then [c0, closeOf c0] else c0 :: cs) a).map
      LinItem.elm) = some [] := by
  rw [nestCheck_congr _ _ [] (setAnnsHead_shape _ a)]
  exact cde_pack_balanced env c0 cs hf

/-- The loop invariant without the wrapped-whitespace position clause:
what survives the transient states inside one element iteration. -/
structure CoreInv (hasWrapper : Bool) (branchType : String) (st : LoopSt) : Prop where
  balance : nestCheck [] st.data = some (stackShape hasWrapper branchType st)
  paraRef : st.ctx.canCloseWrapper = true → st.wrappingPara ≠ ObjRef.noRef
  ccInW : st.ctx.canCloseWrapper = true → st.ctx.inWrapper = true
  ccExp : st.ctx.canCloseWrapper = true → st.ctx.expectingContent = true
  wsOrig : st.ctx.originallyExpectingContent = true → st.wrappedWs = []
  wmBal : nestCheck [] st.wrappedMeta = some []
  wmLen : st.wrappedMeta.length ≠ 1
  wmWs : ∀ it ∈ st.wrappedMeta, metaWsOk it

/-- The full invariant yields the reduced one. -/
theorem LoopInv.core {hasWrapper : Bool} {branchType : String} {st : LoopSt}
    (h : LoopInv hasWrapper branchType st) : CoreInv hasWrapper branchType st :=
  ⟨h.balance, h.paraRef, h.ccInW, h.ccExp, h.wsOrig, h.wmBal, h.wmLen, h.wmWs⟩

/-- The reduced invariant plus an empty buffer or a non-closable wrapper
yields the full invariant. -/
theorem CoreInv.toFull {hasWrapper : Bool} {branchType : String} {st : LoopSt}
    (h : CoreInv hasWrapper branchType st)
    (hws : st.wrappedWs = [] ∨ st.ctx.canCloseWrapper = false) :
    LoopInv hasWrapper branchType st := by
  refine ⟨h.balance, h.paraRef, h.ccInW, h.ccExp, ?_, h.wsOrig, h.wmBal, h.wmLen, h.wmWs⟩
  intro hne hcc
  rcases hws with h2 | h2
  · exact absurd h2 hne
  · rw [h2] at hcc
    cases hcc

/-- The post-recursion steps of the annotation branch succeed on a
balanced recursion output and preserve the loop invariant; the context is
untouched. -/
theorem annPost_spec (env : ConvEnv) (hasWrapper : Bool) (branchType : String) (st1 : LoopSt)
    (hinv1 : CoreInv hasWrapper branchType st1) (cns : List DomNode) (sub : List LinItem)
    (hsub : nestCheck [] sub = some []) :
    ∃ st2, annPost env cns sub st1 = Except.ok st2 ∧ LoopInv hasWrapper branchType st2 ∧
      st2.ctx = st1.ctx := by
  obtain ⟨items, hcde2, hbali⟩ : ∃ items,
      (if sub.isEmpty || isAllInstanceOfMeta env true sub then
        match createAlienMetaElements cns with
        | [] => Except.error "element 0 of undefined"
        | m0 :: ms =>
          let pair := (m0 :: ms) ++ [closeOf m0]
          let pair2 := if !st1.ctx.anns.isEmpty then setAnnsHead pair st1.ctx.anns else pair
          Except.ok (pair2.map LinItem.elm)
       else Except.ok sub) = Except.ok items ∧ nestCheck [] items = some [] := by
    by_cases hcase : sub.isEmpty || isAllInstanceOfMeta env true sub
    · rw [if_pos hcase]
      simp only [createAlienMetaElements, alienMetaToData]
      try dsimp only
      by_cases hann : st1.ctx.anns.isEmpty
      · rw [if_neg (by simp [hann])]
        refine ⟨_, rfl, ?_⟩
        exact pair_balanced _ (by show headIsSlash "alienMeta" = false; decide)
      · rw [if_pos (by simp [hann])]
        refine ⟨_, rfl, ?_⟩
        rw [nestCheck_congr _ _ [] (setAnnsHead_shape _ _)]
        exact pair_balanced _ (by show headIsSlash "alienMeta" = false; decide)
    · rw [if_neg hcase]
      exact ⟨sub, rfl, hsub⟩
  obtain ⟨stO, hrunO, hctxO, hwmO, hnwO, hwsO, hwiO, hprO, hbalO, helmsO⟩ :=
    owm_restore_spec hasWrapper branchType st1 hinv1.balance hinv1.wmBal hinv1.wmWs
  unfold annPost
  try dsimp only
  rw [hcde2]
  try dsimp only
  rw [hrunO]
  refine ⟨_, rfl, ?_, hctxO⟩
  refine ⟨?_, ?_, ?_, ?_, ?_, ?_, ?_, ?_, ?_⟩
  · show nestCheck [] (stO.data ++ items) = _
    rw [nestCheck_append, hbalO]
    show nestCheck (stackShape hasWrapper branchType st1) items = _
    rw [nestCheck_balanced_self items hbali]
    rw [stackShape_ctx hasWrapper branchType
      { stO with data := stO.data ++ items, wrappedWs := [] } st1 (by rw [hctxO])]
  · intro hcc
    rw [show ({ stO with data := stO.data ++ items, wrappedWs := [] } : LoopSt).ctx = stO.ctx from rfl, hctxO] at hcc
    exact hprO (hinv1.paraRef hcc)
  · intro hcc
    rw [show ({ stO with data := stO.data ++ items, wrappedWs := [] } : LoopSt).ctx = stO.ctx from rfl, hctxO] at hcc
    show stO.ctx.inWrapper = true
    rw [hctxO]
    exact hinv1.ccInW hcc
  · intro hcc
    rw [show ({ stO with data := stO.data ++ items, wrappedWs := [] } : LoopSt).ctx = stO.ctx from rfl, hctxO] at hcc
    show stO.ctx.expectingContent = true
    rw [hctxO]
    exact hinv1.ccExp hcc
  · intro hne
    exact absurd rfl hne
  · intro _
    rfl
  · rw [hwmO]
    rfl
  · rw [hwmO]
    simp
  · rw [hwmO]
    intro it hit
    simp at hit

/-- The post-recursion steps of the node branch preserve the invariant:
append the balanced output, process next whitespace at the recorded
position and point prevElement there. They need the reduced invariant and
an empty buffer or a non-closable wrapper. -/
theorem nodePost_spec (hasWrapper : Bool) (branchType : String) (st1 : LoopSt)
    (hinv1 : CoreInv hasWrapper branchType st1)
    (hws : st1.wrappedWs = [] ∨ st1.ctx.canCloseWrapper = false)
    (pos : Nat) (sub : List LinItem) (hsub : nestCheck [] sub = some []) :
    LoopInv hasWrapper branchType (nodePost st1 pos sub) ∧
      (nodePost st1 pos sub).ctx = st1.ctx := by
  have hbal2 : nestCheck [] (st1.data ++ sub) = some (stackShape hasWrapper branchType st1) := by
    rw [nestCheck_append, hinv1.balance]
    exact nestCheck_balanced_self sub hsub _
  unfold nodePost procNextWsAt
  dsimp only
  by_cases hnw : st1.nextWs.isEmpty
  · rw [if_pos hnw]
    refine ⟨CoreInv.toFull ⟨hbal2, hinv1.paraRef, hinv1.ccInW, hinv1.ccExp, hinv1.wsOrig,
      hinv1.wmBal, hinv1.wmLen, hinv1.wmWs⟩ hws, rfl⟩
  · rw [if_neg hnw]
    have hbal3 : nestCheck [] (updateElmAt (st1.data ++ sub) pos
        (fun e => addWhitespace e 0 st1.nextWs)) =
        some (stackShape hasWrapper branchType st1) := by
      rw [nestCheck_congr _ (st1.data ++ sub) []
        (updateElmAt_shape _ _ _ (fun e => addWhitespace_type e 0 st1.nextWs))]
      exact hbal2
    refine ⟨CoreInv.toFull ⟨hbal3, hinv1.paraRef, hinv1.ccInW, hinv1.ccExp, hinv1.wsOrig,
      hinv1.wmBal, hinv1.wmLen, hinv1.wmWs⟩ hws, rfl⟩

/-- The content-into-wrapper step of the node branch (source lines
1793-1800): flush the queue and clear both whitespace buffers when
inserting content into a wrapper; it needs only the reduced invariant and
restores the full one. -/
theorem wmStep_spec (hasWrapper : Bool) (branchType : String) (stA : LoopSt)
    (hinvA : CoreInv hasWrapper branchType stA) (cic : Bool)
    (hcchc : stA.ctx.canCloseWrapper = true → cic = true) :
    ∃ stB, (if stA.ctx.inWrapper && cic then
        match outputWrappedMetaItems true stA with
        | Except.error m => Except.error m
        | Except.ok s2 => Except.ok { s2 with wrappedWs := [], nextWs := [] }
      else Except.ok stA) = Except.ok stB ∧
      LoopInv hasWrapper branchType stB ∧ stB.ctx = stA.ctx ∧
      (stB.wrappedWs = [] ∨ stB.ctx.canCloseWrapper = false) ∧
      (stA.ctx.originallyExpectingContent = true → stB.nextWs = stA.nextWs ∨ stB.nextWs = []) ∧
      elmsPreserved stA.data stB.data := by
  by_cases hrun : stA.ctx.inWrapper && cic
  · rw [if_pos hrun]
    obtain ⟨stO, hrunO, hctxO, hwmO, hnwO, hwsO, hwiO, hprO, hbalO, helmsO⟩ :=
      owm_restore_spec hasWrapper branchType stA hinvA.balance hinvA.wmBal hinvA.wmWs
    rw [hrunO]
    refine ⟨_, rfl, ?_, hctxO, Or.inl rfl, fun _ => Or.inr rfl, helmsO⟩
    refine CoreInv.toFull ⟨?_, ?_, ?_, ?_, ?_, ?_, ?_, ?_⟩ (Or.inl rfl)
    · show nestCheck [] stO.data = _
      rw [stackShape_ctx hasWrapper branchType
        { stO with wrappedWs := [], nextWs := [] } stA (by rw [hctxO])]
      exact hbalO
    · intro hcc
      rw [show ({ stO with wrappedWs := [], nextWs := [] } : LoopSt).ctx = stO.ctx from rfl,
        hctxO] at hcc
      exact hprO (hinvA.paraRef hcc)
    · intro hcc
      rw [show ({ stO with wrappedWs := [], nextWs := [] } : LoopSt).ctx = stO.ctx from rfl,
        hctxO] at hcc
      show stO.ctx.inWrapper = true
      rw [hctxO]
      exact hinvA.ccInW hcc
    · intro hcc
      rw [show ({ stO with wrappedWs := [], nextWs := [] } : LoopSt).ctx = stO.ctx from rfl,
        hctxO] at hcc
      show stO.ctx.expectingContent = true
      rw [hctxO]
      exact hinvA.ccExp hcc
    · intro _
      rfl
    · rw [show ({ stO with wrappedWs := [], nextWs := [] } : LoopSt).wrappedMeta = stO.wrappedMeta from rfl, hwmO]
      rfl
    · rw [show ({ stO with wrappedWs := [], nextWs := [] } : LoopSt).wrappedMeta = stO.wrappedMeta from rfl, hwmO]
      simp
    · rw [show ({ stO with wrappedWs := [], nextWs := [] } : LoopSt).wrappedMeta = stO.wrappedMeta from rfl, hwmO]
      intro it hit
      simp at hit
  · rw [if_neg hrun]
    have hccf : stA.ctx.canCloseWrapper = false := by
      cases hc : stA.ctx.canCloseWrapper
      · rfl
      · exact absurd (show (stA.ctx.inWrapper && cic) = true by rw [hinvA.ccInW hc, hcchc hc]; rfl) hrun
    exact ⟨stA, rfl, CoreInv.toFull hinvA (Or.inr hccf), rfl, Or.inr hccf, fun _ => Or.inl rfl,
      elmsPreserved_refl stA.data⟩

/-- setAnnsHead preserves the length. -/
theorem setAnnsHead_length (l : List DataElm) (a : List Nat) :
    (setAnnsHead l a).length = l.length := by
  cases l <;> rfl

/-- setAnnsHead preserves the head type. -/
theorem setAnnsHead_head_type (c0 : DataElm) (cs : List DataElm) (a : List Nat) :
    setAnnsHead (c0 :: cs) a = { c0 with anns := a } :: cs := rfl

/-- The element-branch facts survive annotation of the head. -/
theorem cdeFacts_setAnnsHead (env : ConvEnv) (l : List DataElm) (a : List Nat)
    (hf : CdeFacts env l) : CdeFacts env (setAnnsHead l a) := by
  cases l with
  | nil => exact hf
  | cons c0 cs =>
    rw [setAnnsHead_head_type]
    refine ⟨?_, ?_, ?_, ?_⟩
    · intro d0 ds hd
      injection hd with h1 h2
      rw [← h1]
      exact hf.headNoSlash c0 cs rfl
    · intro d0 ds hd
      injection hd with h1 h2
      rw [← h1]
      exact hf.headReg c0 cs rfl
    · intro hlen
      have hsh : (({ c0 with anns := a } :: cs).map LinItem.elm).map itemTypeOpt =
          ((c0 :: cs).map LinItem.elm).map itemTypeOpt := by
        simp [itemTypeOpt]
      rw [nestCheck_congr _ _ [] hsh]
      exact hf.bal (by simpa using hlen)
    · intro e he
      rcases List.mem_cons.mp he with h | h
      · rw [h]
        exact hf.wsNone c0 (List.mem_cons_self _ _)
      · exact hf.wsNone e (List.mem_cons_of_mem _ h)

/-- Every element of a packed childDataElements array is a sound queued
meta item. -/
theorem pack_metaWsOk (env : ConvEnv) (c0 : DataElm) (cs : List DataElm)
    (hf : CdeFacts env (c0 :: cs)) :
    ∀ it ∈ ((if cs.isEmpty then [c0, closeOf c0] else c0 :: cs).map LinItem.elm), metaWsOk it := by
  intro it hit
  rw [List.mem_map] at hit
  obtain ⟨e, he, hball⟩ := hit
  rw [← hball]
  apply metaWsOk_of_wsNone
  split at he
  · rcases List.mem_cons.mp he with h | h
    · rw [h]
      exact hf.wsNone c0 (List.mem_cons_self _ _)
    · rw [List.mem_singleton.mp h]
      rfl
  · exact hf.wsNone e he

/-- startWrapping with the previous-element update of the annotation and
node branches: the reduced invariant of the result, the constant context
fields, and the new context. -/
theorem startWrapping_core (hasWrapper : Bool) (branchType : String) (st : LoopSt)
    (hinv : LoopInv hasWrapper branchType st) (hcc0 : st.ctx.canCloseWrapper = false) :
    CoreInv hasWrapper branchType
      { startWrapping st with prevElm := (startWrapping st).wrappingPara } ∧
    ctxConst (startWrapping st).ctx st.ctx ∧
    (startWrapping st).ctx =
      { st.ctx with inWrapper := true, canCloseWrapper := true, expectingContent := true } := by
  obtain ⟨hctxW, hprW, hwsW, hwiW, hwmW, hbalW, helmsW⟩ :=
    startWrapping_spec hasWrapper branchType st hinv.balance
  refine ⟨⟨?_, ?_, ?_, ?_, ?_, ?_, ?_, ?_⟩, ?_, hctxW⟩
  · show nestCheck [] (startWrapping st).data = _
    rw [hbalW]
    unfold stackShape
    rw [show ({ startWrapping st with prevElm := (startWrapping st).wrappingPara } : LoopSt).ctx =
      (startWrapping st).ctx from rfl, hctxW, hcc0]
    rfl
  · intro _
    exact hprW
  · intro _
    show (startWrapping st).ctx.inWrapper = true
    rw [hctxW]
  · intro _
    show (startWrapping st).ctx.expectingContent = true
    rw [hctxW]
  · intro h
    have h2 : st.ctx.originallyExpectingContent = true := by
      rw [show ({ startWrapping st with prevElm := (startWrapping st).wrappingPara } : LoopSt).ctx =
        (startWrapping st).ctx from rfl, hctxW] at h
      exact h
    show (startWrapping st).wrappedWs = []
    rw [hwsW]
    exact hinv.wsOrig h2
  · show nestCheck [] (startWrapping st).wrappedMeta = _
    rw [hwmW]
    exact hinv.wmBal
  · show (startWrapping st).wrappedMeta.length ≠ 1
    rw [hwmW]
    exact hinv.wmLen
  · show ∀ it ∈ (startWrapping st).wrappedMeta, metaWsOk it
    rw [hwmW]
    exact hinv.wmWs
  · rw [hctxW]
    exact ⟨rfl, rfl, rfl, rfl⟩

/-- Admissibility of one element plan for the loop: it never fails, done
states keep the invariant, and recursion plans keep it after the
post-processing of a balanced recursion output. -/
def ElemPlanOk (env : ConvEnv) (hasWrapper : Bool) (branchType : String) (st : LoopSt) :
    ElemPlan → Prop
  | ElemPlan.planSkip => True
  | ElemPlan.planFail _ => False
  | ElemPlan.planDone st1 _ => LoopInv hasWrapper branchType st1 ∧ ctxConst st1.ctx st.ctx
  | ElemPlan.planAnnRec st1 _ cns =>
      ctxConst st1.ctx st.ctx ∧
      ∀ sub, nestCheck [] sub = some [] →
        ∃ st2, annPost env cns sub st1 = Except.ok st2 ∧
          LoopInv hasWrapper branchType st2 ∧ ctxConst st2.ctx st.ctx
  | ElemPlan.planNodeRec st1 g pos _ =>
      (env.lookup g.type).isSome ∧ ctxConst st1.ctx st.ctx ∧
      ∀ sub, nestCheck [] sub = some [] →
        LoopInv hasWrapper branchType (nodePost st1 pos sub) ∧
          ctxConst (nodePost st1 pos sub).ctx st.ctx

/-- The node-or-meta-item element processing never fails and yields an
admissible plan, given the invariant and the childDataElements facts. -/
theorem elemMain_spec (env : ConvEnv) (hwf : WfConvEnv env) (hasWrapper : Bool)
    (branchType : String) (childNode : DomNode) (aboutGroup : List DomNode)
    (mc : MClass) (childNodes : List DomNode) (c0 : DataElm) (cs : List DataElm) (st : LoopSt)
    (hinv : LoopInv hasWrapper branchType st) (hf : CdeFacts env (c0 :: cs)) :
    ElemPlanOk env hasWrapper branchType st
      (elemMain env childNode aboutGroup mc childNodes (c0 :: cs) st) := by
  unfold elemMain
  by_cases hA : mc.isAnn
  · rw [if_pos hA]
    dsimp only
    by_cases hcond : !st.ctx.inWrapper && !st.ctx.expectingContent
    · rw [if_pos hcond]
      have hexp0 : st.ctx.expectingContent = false := by
        have h2 := (Bool.and_eq_true_iff.mp hcond).2
        simpa using h2
      have hcc0 : st.ctx.canCloseWrapper = false := by
        cases hc : st.ctx.canCloseWrapper
        · rfl
        · exact absurd (hinv.ccExp hc) (by rw [hexp0]; simp)
      obtain ⟨hcore1, hconst1, hctx1⟩ := startWrapping_core hasWrapper branchType st hinv hcc0
      show ctxConst _ st.ctx ∧ _
      refine ⟨hconst1, ?_⟩
      intro sub hsub
      obtain ⟨st2, hrun2, hinv2, hctx2⟩ :=
        annPost_spec env hasWrapper branchType _ hcore1 childNodes sub hsub
      refine ⟨st2, hrun2, hinv2, ?_⟩
      rw [hctx2]
      exact hconst1
    · rw [if_neg hcond]
      show ctxConst _ st.ctx ∧ _
      refine ⟨ctxConst_refl _, ?_⟩
      intro sub hsub
      obtain ⟨st2, hrun2, hinv2, hctx2⟩ :=
        annPost_spec env hasWrapper branchType st hinv.core childNodes sub hsub
      refine ⟨st2, hrun2, hinv2, ?_⟩
      rw [hctx2]
      exact ctxConst_refl _
  · rw [if_neg hA]
    by_cases hM : mc.isMeta
    · rw [if_pos hM]
      dsimp only
      have hpackb : nestCheck []
          ((if !st.ctx.anns.isEmpty then
              setAnnsHead (if cs.isEmpty then [c0, closeOf c0] else c0 :: cs) st.ctx.anns
            else (if cs.isEmpty then [c0, closeOf c0] else c0 :: cs)).map LinItem.elm) =
          some [] := by
        split
        · exact cde_pack_balanced_ann env c0 cs hf _
        · exact cde_pack_balanced env c0 cs hf
      have hpacklen : 2 ≤ (if !st.ctx.anns.isEmpty then
          setAnnsHead (if cs.isEmpty then [c0, closeOf c0] else c0 :: cs) st.ctx.anns
        else (if cs.isEmpty then [c0, closeOf c0] else c0 :: cs)).length := by
        have hb : 2 ≤ (if cs.isEmpty then [c0, closeOf c0] else c0 :: cs).length := by
          split
          · simp
          · cases cs with
            | nil => simp_all
            | cons c1 cs2 => simp only [List.length_cons]; omega
        split
        · rw [setAnnsHead_length]
          exact hb
        · exact hb
      have hpackws : ∀ it ∈ ((if !st.ctx.anns.isEmpty then
          setAnnsHead (if cs.isEmpty then [c0, closeOf c0] else c0 :: cs) st.ctx.anns
        else (if cs.isEmpty then [c0, closeOf c0] else c0 :: cs)).map LinItem.elm),
          metaWsOk it := by
        split
        · intro it hit
          rw [List.mem_map] at hit
          obtain ⟨e, he, hball⟩ := hit
          rw [← hball]
          apply metaWsOk_of_wsNone
          obtain ⟨e2, he2, hir⟩ := setAnnsHead_ws _ _ _ he
          rw [hir]
          revert he2
          split
          · intro he2
            rcases List.mem_cons.mp he2 with h | h
            · rw [h]
              exact hf.wsNone c0 (List.mem_cons_self _ _)
            · rw [List.mem_singleton.mp h]
              rfl
          · intro he2
            exact hf.wsNone e2 he2
        · exact pack_metaWsOk env c0 cs hf
      by_cases hq : st.ctx.inWrapper && st.ctx.canCloseWrapper
      · rw [if_pos hq]
        have hcc : st.ctx.canCloseWrapper = true := (Bool.and_eq_true_iff.mp hq).2
        by_cases hwse : st.wrappedWs.isEmpty
        · rw [if_neg (by simp [hwse])]
          show LoopInv _ _ _ ∧ ctxConst _ st.ctx
          refine ⟨⟨hinv.balance, hinv.paraRef, hinv.ccInW, hinv.ccExp, ?_, hinv.wsOrig, ?_, ?_, ?_⟩,
            ctxConst_refl _⟩
          · intro hne hcc2
            exact hinv.wsGood hne hcc2
          · show nestCheck [] (st.wrappedMeta ++ _) = some []
            rw [nestCheck_append, hinv.wmBal]
            exact nestCheck_balanced_self _ hpackb _
          · show (st.wrappedMeta ++ _).length ≠ 1
            rw [List.length_append, List.length_map]
            have := hinv.wmLen
            omega
          · intro it hit
            rcases List.mem_append.mp hit with h | h
            · exact hinv.wmWs it h
            · exact hpackws it h
        · rw [if_pos (by simp [hwse])]
          have hwsne : st.wrappedWs ≠ [] := fun h => hwse (by rw [h]; rfl)
          obtain ⟨hlen, hchars⟩ := hinv.wsGood hwsne hcc
          have hdropnil : st.data.drop (st.wrappedWsIndex + st.wrappedWs.length) = [] := by
            apply List.drop_eq_nil_of_le
            omega
          have hsplit : st.data.take st.wrappedWsIndex ++ st.data.drop st.wrappedWsIndex = st.data :=
            List.take_append_drop _ _
          have htake : nestCheck [] (st.data.take st.wrappedWsIndex) =
              some (stackShape hasWrapper branchType st) := by
            have h2 := nestCheck_append_chars (st.data.take st.wrappedWsIndex)
              (st.data.drop st.wrappedWsIndex) [] hchars
            rw [hsplit] at h2
            rw [← h2]
            exact hinv.balance
          have hstR : ∀ (wm2 : List LinItem),
              stRemoveAt { st with wrappedMeta := wm2 } st.wrappedWsIndex st.wrappedWs.length =
              { st with
                data := st.data.take st.wrappedWsIndex
                wrappedMeta := wm2
                wrappingPara := st.wrappingPara.afterRemove st.wrappedWsIndex st.wrappedWs.length
                prevElm := st.prevElm.afterRemove st.wrappedWsIndex st.wrappedWs.length
                wrapperIdx := st.wrapperIdx.afterRemove st.wrappedWsIndex st.wrappedWs.length } := by
            intro wm2
            unfold stRemoveAt
            rw [show ({ st with wrappedMeta := wm2 } : LoopSt).data = st.data from rfl, hdropnil,
              List.append_nil]
          rw [hstR]
          show LoopInv _ _ _ ∧ ctxConst _ st.ctx
          refine ⟨⟨htake, ?_, hinv.ccInW, hinv.ccExp, ?_, ?_, ?_, ?_, ?_⟩, ctxConst_refl _⟩
          · intro hcc2
            exact ObjRef.afterRemove_ne _ _ _ (hinv.paraRef hcc2)
          · intro hne _
            exact absurd rfl hne
          · intro _
            rfl
          · show nestCheck [] (updateElmAt (st.wrappedMeta ++ _) st.wrappedMeta.length _) = some []
            rw [nestCheck_congr _ (st.wrappedMeta ++ _) []
              (updateElmAt_shape _ _ _ (fun e => addWhitespace_type e 0 st.wrappedWs))]
            rw [nestCheck_append, hinv.wmBal]
            exact nestCheck_balanced_self _ hpackb _
          · show (updateElmAt (st.wrappedMeta ++ _) st.wrappedMeta.length _).length ≠ 1
            rw [updateElmAt_length, List.length_append, List.length_map]
            have := hinv.wmLen
            omega
          · apply updateElmAt_metaWsOk
            intro it hit
            rcases List.mem_append.mp hit with h | h
            · exact hinv.wmWs it h
            · exact hpackws it h
      · rw [if_neg hq]
        have hcc0 : st.ctx.canCloseWrapper = false := by
          cases hc : st.ctx.canCloseWrapper
          · rfl
          · exact absurd (show (st.ctx.inWrapper && st.ctx.canCloseWrapper) = true by
              rw [hinv.ccInW hc, hc]; rfl) hq
        obtain ⟨stO, hrunO, hctxO, hwmO, hnwO, hwsO, hwiO, hprO, hbalO, helmsO⟩ :=
          owm_restore_spec hasWrapper branchType st hinv.balance hinv.wmBal hinv.wmWs
        rw [hrunO]
        have hcoreO : CoreInv hasWrapper branchType stO := by
          refine ⟨?_, ?_, ?_, ?_, ?_, ?_, ?_, ?_⟩
          · rw [stackShape_ctx hasWrapper branchType stO st (by rw [hctxO])]
            exact hbalO
          · intro hcc2
            rw [hctxO] at hcc2
            exact hprO (hinv.paraRef hcc2)
          · intro hcc2
            rw [hctxO] at hcc2 ⊢
            exact hinv.ccInW hcc2
          · intro hcc2
            rw [hctxO] at hcc2 ⊢
            exact hinv.ccExp hcc2
          · intro h
            rw [hctxO] at h
            rw [hwsO]
            exact hinv.wsOrig h
          · rw [hwmO]
            rfl
          · rw [hwmO]
            simp
          · rw [hwmO]
            intro it hit
            simp at hit
        have hwsdO : stO.wrappedWs = [] ∨ stO.ctx.canCloseWrapper = false := by
          right
          rw [hctxO]
          exact hcc0
        obtain ⟨hinvP, hctxP⟩ := nodePost_spec hasWrapper branchType stO hcoreO hwsdO
          stO.data.length _ hpackb
        show LoopInv _ _ _ ∧ ctxConst _ st.ctx
        refine ⟨hinvP, ?_⟩
        show ctxConst (nodePost stO stO.data.length
          ((if !st.ctx.anns.isEmpty then
              setAnnsHead (if cs.isEmpty then [c0, closeOf c0] else c0 :: cs) st.ctx.anns
            else (if cs.isEmpty then [c0, closeOf c0] else c0 :: cs)).map LinItem.elm)).ctx st.ctx
        rw [hctxP, hctxO]
        exact ctxConst_refl _
    · rw [if_neg hM]
      dsimp only
      have hreg := hf.headReg c0 cs rfl
      obtain ⟨info0, heq⟩ := Option.isSome_iff_exists.mp hreg
      rw [heq]
      dsimp only
      suffices tail : ∀ (stA : LoopSt) (cnsF : List DomNode) (h0 : DataElm) (hs : List DataElm)
          (infoF : ModelInfo) (cic : Bool), CoreInv hasWrapper branchType stA →
          ctxConst stA.ctx st.ctx → CdeFacts env (h0 :: hs) →
          env.lookup h0.type = some infoF → (stA.ctx.canCloseWrapper = true → cic = true) →
          ElemPlanOk env hasWrapper branchType st
            (match (if stA.ctx.inWrapper && cic then
                match outputWrappedMetaItems true stA with
                | Except.error m => Except.error m
                | Except.ok s2 => Except.ok { s2 with wrappedWs := [], nextWs := [] }
              else Except.ok stA) with
             | Except.error m => ElemPlan.planFail m
             | Except.ok stB =>
               match (if cic && !stB.ctx.anns.isEmpty then setAnnsHead (h0 :: hs) stB.ctx.anns
                 else h0 :: hs) with
               | [] => ElemPlan.planFail "element 0 of undefined"
               | g0 :: gs =>
                 if gs.isEmpty && cnsF.length == 1 && infoF.canHaveChildren &&
                     !infoF.handlesOwnChildren then
                   match outputWrappedMetaItems true stB with
                   | Except.error m => ElemPlan.planFail m
                   | Except.ok stC => ElemPlan.planNodeRec stC g0 stC.data.length cnsF.length
                 else
                   match outputWrappedMetaItems true stB with
                   | Except.error m => ElemPlan.planFail m
                   | Except.ok stC =>
                     ElemPlan.planDone
                       { procNextWsAt { stC with data := stC.data ++ (if gs.isEmpty then [g0, closeOf g0] else g0 :: gs).map LinItem.elm } stC.data.length with prevElm := ObjRef.idx stC.data.length }
                       cnsF.length) by
        have hadj : ∃ (stA : LoopSt) (cnsF : List DomNode) (h0 : DataElm) (hs : List DataElm)
            (infoF : ModelInfo) (cic : Bool),
            (if !st.ctx.expectingContent && info0.isContent then
              Except.ok ({ startWrapping st with prevElm := (startWrapping st).wrappingPara },
                childNodes, c0 :: cs, info0, info0.isContent)
            else if st.ctx.expectingContent && !info0.isContent then
              if st.ctx.inWrapper && st.ctx.canCloseWrapper then
                match stopWrapping st with
                | Except.error m => Except.error m
                | Except.ok s2 => Except.ok (s2, childNodes, c0 :: cs, info0, info0.isContent)
              else
                match createAlienElements (if alienAboutGroup then aboutGroup else [childNode]) with
                | [] => Except.error "element 0 of undefined"
                | b0 :: bs =>
                  match env.lookup b0.type with
                  | none => Except.error "isNodeContent of unregistered type"
                  | some ai => Except.ok (st, (if alienAboutGroup then aboutGroup else [childNode]),
                      b0 :: bs, ai, ai.isContent)
            else Except.ok (st, childNodes, c0 :: cs, info0, info0.isContent)) =
            Except.ok (stA, cnsF, h0 :: hs, infoF, cic) ∧
            CoreInv hasWrapper branchType stA ∧ ctxConst stA.ctx st.ctx ∧
            CdeFacts env (h0 :: hs) ∧ env.lookup h0.type = some infoF ∧
            (stA.ctx.canCloseWrapper = true → cic = true) := by
          by_cases h1 : !st.ctx.expectingContent && info0.isContent
          · rw [if_pos h1]
            have hexp0 : st.ctx.expectingContent = false := by
              have h2 := (Bool.and_eq_true_iff.mp h1).1
              simpa using h2
            have hcic : info0.isContent = true := (Bool.and_eq_true_iff.mp h1).2
            have hcc0 : st.ctx.canCloseWrapper = false := by
              cases hc : st.ctx.canCloseWrapper
              · rfl
              · exact absurd (hinv.ccExp hc) (by rw [hexp0]; simp)
            obtain ⟨hcore1, hconst1, hctx1⟩ := startWrapping_core hasWrapper branchType st hinv hcc0
            exact ⟨_, _, c0, cs, info0, info0.isContent, rfl, hcore1, hconst1, hf, heq,
              fun _ => hcic⟩
          · rw [if_neg h1]
            by_cases h2 : st.ctx.expectingContent && !info0.isContent
            · rw [if_pos h2]
              by_cases h3 : st.ctx.inWrapper && st.ctx.canCloseWrapper
              · rw [if_pos h3]
                have hcc : st.ctx.canCloseWrapper = true := (Bool.and_eq_true_iff.mp h3).2
                obtain ⟨s2, hrun2, hctx2, hwm2, hpr2, hws2, hbal2, helms2⟩ :=
                  stopWrapping_spec hasWrapper branchType st hinv hcc
                rw [hrun2]
                have hcic0 : info0.isContent = false := by
                  have h4 := (Bool.and_eq_true_iff.mp h2).2
                  simpa using h4
                refine ⟨s2, childNodes, c0, cs, info0, info0.isContent, rfl, ?_, ?_, hf, heq, ?_⟩
                · refine ⟨?_, ?_, ?_, ?_, ?_, ?_, ?_, ?_⟩
                  · rw [show stackShape hasWrapper branchType s2 =
                      (if hasWrapper then [branchType] else []) from by
                        unfold stackShape
                        rw [hctx2]
                        rfl]
                    exact hbal2
                  · intro hcc2
                    rw [hctx2] at hcc2
                    simp at hcc2
                  · intro hcc2
                    rw [hctx2] at hcc2
                    simp at hcc2
                  · intro hcc2
                    rw [hctx2] at hcc2
                    simp at hcc2
                  · intro h
                    rw [hws2]
                    apply hinv.wsOrig
                    rw [hctx2] at h
                    exact h
                  · rw [hwm2]
                    rfl
                  · rw [hwm2]
                    simp
                  · rw [hwm2]
                    intro it hit
                    simp at hit
                · rw [hctx2]
                  exact ⟨rfl, rfl, rfl, rfl⟩
                · intro hcc2
                  rw [hctx2] at hcc2
                  simp at hcc2
              · rw [if_neg h3]
                simp only [createAlienElements, alienToData]
                try dsimp only
                obtain ⟨ai, hai⟩ := Option.isSome_iff_exists.mp hwf.alienReg
                rw [show env.lookup ({ type := "alien", internalRec := none, anns := [], originalDomElements := (if alienAboutGroup then aboutGroup else [childNode]) } : DataElm).type = env.lookup "alien" from rfl, hai]
                refine ⟨st, _, _, [], ai, ai.isContent, rfl, hinv.core, ctxConst_refl _, ?_, ?_, ?_⟩
                · exact cdeFacts_alien env hwf (if alienAboutGroup then aboutGroup else [childNode])
                · show env.lookup "alien" = some ai
                  exact hai
                · intro hcc2
                  exact absurd (show (st.ctx.inWrapper && st.ctx.canCloseWrapper) = true by
                    rw [hinv.ccInW hcc2, hcc2]; rfl) h3
            · rw [if_neg h2]
              refine ⟨st, childNodes, c0, cs, info0, info0.isContent, rfl, hinv.core,
                ctxConst_refl _, hf, heq, ?_⟩
              intro hcc2
              have hexp := hinv.ccExp hcc2
              cases hic : info0.isContent
              · exact absurd (show (st.ctx.expectingContent && !info0.isContent) = true by
                  rw [hexp, hic]; rfl) h2
              · rfl
        obtain ⟨stA, cnsF, h0, hs, infoF, cic, hadjEq, hcoreA, hconstA, hfF, hlookF, hcchcA⟩ := hadj
        rw [hadjEq]
        exact tail stA cnsF h0 hs infoF cic hcoreA hconstA hfF hlookF hcchcA
      intro stA cnsF h0 hs infoF cic hcoreA hconstA hfF hlookF hcchcA
      obtain ⟨stB, hrunB, hinvB, hctxB, hwsB, hnwsB, helmsB⟩ :=
        wmStep_spec hasWrapper branchType stA hcoreA cic hcchcA
      rw [hrunB]
      dsimp only
      suffices tail2 : ∀ (g0 : DataElm) (gs : List DataElm), CdeFacts env (g0 :: gs) →
          env.lookup g0.type = some infoF →
          ElemPlanOk env hasWrapper branchType st
            (if gs.isEmpty && cnsF.length == 1 && infoF.canHaveChildren &&
                !infoF.handlesOwnChildren then
              match outputWrappedMetaItems true stB with
              | Except.error m => ElemPlan.planFail m
              | Except.ok stC => ElemPlan.planNodeRec stC g0 stC.data.length cnsF.length
            else
              match outputWrappedMetaItems true stB with
              | Except.error m => ElemPlan.planFail m
              | Except.ok stC =>
                ElemPlan.planDone
                  { procNextWsAt { stC with data := stC.data ++ (if gs.isEmpty then [g0, closeOf g0] else g0 :: gs).map LinItem.elm } stC.data.length with prevElm := ObjRef.idx stC.data.length }
                  cnsF.length) by
        by_cases hann : cic && !stB.ctx.anns.isEmpty
        · rw [if_pos hann, setAnnsHead_head_type]
          exact tail2 _ hs (by
            have := cdeFacts_setAnnsHead env (h0 :: hs) stB.ctx.anns hfF
            rw [setAnnsHead_head_type] at this
            exact this) (by
            show env.lookup h0.type = some infoF
            exact hlookF)
        · rw [if_neg hann]
          exact tail2 h0 hs hfF hlookF
      intro g0 gs hfG hlookG
      obtain ⟨stC, hrunC, hctxC, hwmC, hnwC, hwsC, hwiC, hprC, hbalC, helmsC⟩ :=
        owm_restore_spec hasWrapper branchType stB hinvB.balance hinvB.wmBal hinvB.wmWs
      have hcoreC : CoreInv hasWrapper branchType stC := by
        refine ⟨?_, ?_, ?_, ?_, ?_, ?_, ?_, ?_⟩
        · rw [stackShape_ctx hasWrapper branchType stC stB (by rw [hctxC])]
          exact hbalC
        · intro hcc2
          rw [hctxC] at hcc2
          exact hprC (hinvB.paraRef hcc2)
        · intro hcc2
          rw [hctxC] at hcc2 ⊢
          exact hinvB.ccInW hcc2
        · intro hcc2
          rw [hctxC] at hcc2 ⊢
          exact hinvB.ccExp hcc2
        · intro h
          rw [hctxC] at h
          rw [hwsC]
          exact hinvB.wsOrig h
        · rw [hwmC]
          rfl
        · rw [hwmC]
          simp
        · rw [hwmC]
          intro it hit
          simp at hit
      have hwsdC : stC.wrappedWs = [] ∨ stC.ctx.canCloseWrapper = false := by
        rcases hwsB with h | h
        · left
          rw [hwsC]
          exact h
        · right
          rw [hctxC]
          exact h
      have hconstC : ctxConst stC.ctx st.ctx := by
        rw [hctxC, hctxB]
        exact hconstA
      split
      · rw [hrunC]
        show (env.lookup g0.type).isSome ∧ _
        refine ⟨by rw [hlookG]; rfl, hconstC, ?_⟩
        intro sub hsub
        obtain ⟨hinvP, hctxP⟩ := nodePost_spec hasWrapper branchType stC hcoreC hwsdC
          stC.data.length sub hsub
        refine ⟨hinvP, ?_⟩
        rw [hctxP]
        exact hconstC
      · rw [hrunC]
        have hpackG : nestCheck []
            ((if gs.isEmpty then [g0, closeOf g0] else g0 :: gs).map LinItem.elm) = some [] :=
          cde_pack_balanced env g0 gs hfG
        obtain ⟨hinvP, hctxP⟩ := nodePost_spec hasWrapper branchType stC hcoreC hwsdC
          stC.data.length _ hpackG
        show LoopInv _ _ _ ∧ ctxConst _ st.ctx
        refine ⟨hinvP, ?_⟩
        show ctxConst (nodePost stC stC.data.length
          ((if gs.isEmpty then [g0, closeOf g0] else g0 :: gs).map LinItem.elm)).ctx st.ctx
        rw [hctxP]
        exact hconstC

/-- A non-empty createDataElements result of any resolved class satisfies
the element-branch facts. -/
theorem cdeFacts_mc (env : ConvEnv) (hwf : WfConvEnv env) (mc : MClass) (doms : List DomNode)
    (c : DataElm) (cs : List DataElm)
    (h : createDataElementsMC env mc doms = some (c :: cs)) : CdeFacts env (c :: cs) := by
  cases mc with
  | reg n info =>
    exact cdeFacts_reg env hwf n doms c cs (by simpa [createDataElementsMC] using h)
  | alienClass =>
    have h2 : createAlienElements doms = c :: cs := by
      simpa [createDataElementsMC] using h
    rw [← h2]
    exact cdeFacts_alien env hwf doms

/-- The element-or-comment step of the loop always yields an admissible
plan under the invariant and a well-formed environment. -/
theorem elemStep_spec (env : ConvEnv) (hwf : WfConvEnv env) (hasWrapper : Bool)
    (branchType : String) (childNode : DomNode) (rest : List DomNode) (st : LoopSt)
    (hinv : LoopInv hasWrapper branchType st) :
    ElemPlanOk env hasWrapper branchType st (elemStep env childNode rest st) := by
  unfold elemStep
  dsimp only
  split
  · show True
    trivial
  · suffices key : ∀ (mcA : MClass) (cnsA ag cnsB : List DomNode),
        ElemPlanOk env hasWrapper branchType st
          (match createDataElementsMC env mcA cnsA with
           | none => elemMain env childNode ag MClass.alienClass cnsB (createAlienElements cnsB) st
           | some [] => ElemPlan.planSkip
           | some (c :: cs) =>
             match env.lookup c.type with
             | none => ElemPlan.planFail "prototype of undefined"
             | some info => elemMain env childNode ag (MClass.reg c.type info) cnsA (c :: cs) st) by
      exact key _ _ _ _
    intro mcA cnsA ag cnsB
    cases hcr : createDataElementsMC env mcA cnsA with
    | none =>
      show ElemPlanOk env hasWrapper branchType st
        (elemMain env childNode ag MClass.alienClass cnsB
          (({ type := "alien", internalRec := none, anns := [], originalDomElements := cnsB } : DataElm) :: []) st)
      apply elemMain_spec env hwf hasWrapper branchType childNode ag MClass.alienClass cnsB _ _ st hinv
      have := cdeFacts_alien env hwf cnsB
      exact this
    | some l =>
      cases l with
      | nil =>
        show True
        trivial
      | cons c cs =>
        try dsimp only
        cases hlu : env.lookup c.type with
        | none =>
          have hr := (cdeFacts_mc env hwf mcA cnsA c cs hcr).headReg c cs rfl
          rw [hlu] at hr
          simp at hr
        | some info =>
          try dsimp only
          exact elemMain_spec env hwf hasWrapper branchType childNode ag (MClass.reg c.type info)
            cnsA c cs st hinv (cdeFacts_mc env hwf mcA cnsA c cs hcr)

/-- An open element and its matching close marker cancel over any
stack. -/
theorem nestCheck_pair (S : List String) (e f : DataElm) (he : headIsSlash e.type = false)
    (hf : f.type = "/" ++ e.type) :
    nestCheck S [LinItem.elm e, LinItem.elm f] = some S := by
  unfold nestCheck
  rw [he]
  simp only [Bool.false_eq_true, if_false]
  unfold nestCheck
  rw [hf, headIsSlash_append e.type]
  simp [slash_drop]
  rfl

/-- A single close marker pops its type from the stack. -/
theorem nestCheck_close (S : List String) (t : String) :
    nestCheck (t :: S) [LinItem.elm { type := "/" ++ t }] = some S := by
  show (if headIsSlash ("/" ++ t) then
      if t == ("/" ++ t).drop 1 then nestCheck S [] else none
    else nestCheck (("/" ++ t) :: t :: S) []) = some S
  rw [headIsSlash_append t, slash_drop]
  simp [nestCheck]

/-- A single open element pushes its type. -/
theorem nestCheck_single_open (e : DataElm) (h : headIsSlash e.type = false) :
    nestCheck [] [LinItem.elm e] = some [e.type] := by
  unfold nestCheck
  rw [h]
  simp [nestCheck]

/-- processNextWhitespace on a detached element leaves the data array
alone. -/
theorem procNextWsVal_fst_data (st : LoopSt) (e : DataElm) :
    (procNextWsVal st e).1.data = st.data := by
  unfold procNextWsVal
  split <;> rfl

/-- processNextWhitespace on a detached element keeps its type. -/
theorem procNextWsVal_snd_type (st : LoopSt) (e : DataElm) :
    (procNextWsVal st e).2.type = e.type := by
  unfold procNextWsVal
  split
  · rfl
  · exact addWhitespace_type e 0 st.nextWs

/-- Appending a generated empty paragraph preserves the balance outcome
and the data elements. -/
theorem emptyParaAt_spec (st : LoopSt) (W : List String)
    (h : nestCheck [] st.data = some W) :
    nestCheck [] (emptyParaAt st).data = some W ∧
      elmsPreserved st.data (emptyParaAt st).data := by
  unfold emptyParaAt
  dsimp only
  constructor
  · rw [procNextWsVal_fst_data, nestCheck_append, h]
    show nestCheck W _ = some W
    refine nestCheck_pair W _ _ ?_ ?_
    · rw [procNextWsVal_snd_type]
      decide
    · rw [procNextWsVal_snd_type]
      decide
  · rw [procNextWsVal_fst_data]
    exact elmsPreserved_append_right _ (elmsPreserved_refl st.data)

/-- The childless-node empty paragraph step preserves the balance outcome
and the data elements. -/
theorem finishEmptyPara_spec (binfo : ModelInfo) (branchType : String) (hasWrapper : Bool)
    (st : LoopSt) (W : List String) (h : nestCheck [] st.data = some W) :
    nestCheck [] (finishEmptyPara binfo branchType hasWrapper st).data = some W ∧
      elmsPreserved st.data (finishEmptyPara binfo branchType hasWrapper st).data := by
  unfold finishEmptyPara
  dsimp only
  split
  · exact emptyParaAt_spec st W h
  · exact ⟨h, elmsPreserved_refl st.data⟩

/-- The close-element step turns a wrapper-stack balance into a fully
balanced output and preserves the data elements. -/
theorem finishClose_spec (branchType : String) (hasWrapper : Bool) (st : LoopSt)
    (h : nestCheck [] st.data = some (if hasWrapper then [branchType] else [])) :
    nestCheck [] (finishClose branchType hasWrapper st).data = some [] ∧
      elmsPreserved st.data (finishClose branchType hasWrapper st).data := by
  cases hasWrapper with
  | false =>
    have h2 : nestCheck [] st.data = some [] := by simpa using h
    unfold finishClose
    rw [if_neg (by decide)]
    exact ⟨h2, elmsPreserved_refl st.data⟩
  | true =>
    have h2 : nestCheck [] st.data = some [branchType] := by simpa using h
    unfold finishClose
    rw [if_pos (by decide)]
    dsimp only
    split
    · constructor
      · rw [nestCheck_append,
          nestCheck_congr _ st.data []
            (updateRef_shape _ _ _ (fun e => addWhitespace_type e 2 st.nextWs)),
          h2]
        exact nestCheck_close [] branchType
      · exact elmsPreserved_append_right _
          (elmsPreserved_updateRef _ _ _ (fun e => addWhitespace_core e 2 st.nextWs))
    · constructor
      · rw [nestCheck_append, h2]
        exact nestCheck_close [] branchType
      · exact elmsPreserved_append_right _ (elmsPreserved_refl st.data)

/-- The empty-document step preserves full balance and the data
elements. -/
theorem finishDocPara_spec (env : ConvEnv) (branchType : String) (annWasNone : Bool)
    (st : LoopSt) (h : nestCheck [] st.data = some []) :
    nestCheck [] (finishDocPara env branchType annWasNone st).data = some [] ∧
      elmsPreserved st.data (finishDocPara env branchType annWasNone st).data := by
  unfold finishDocPara
  split
  · exact emptyParaAt_spec st [] h
  · exact ⟨h, elmsPreserved_refl st.data⟩

/-- Ending auto-wrapping at the close of the loop succeeds under the
invariant and leaves the balance at the wrapper stack. -/
theorem finishWrapDone_spec (hasWrapper : Bool) (branchType : String) (st : LoopSt)
    (hinv : LoopInv hasWrapper branchType st) :
    ∃ stA, finishWrapDone st = Except.ok stA ∧
      nestCheck [] stA.data = some (if hasWrapper then [branchType] else []) ∧
      elmsPreserved st.data stA.data := by
  unfold finishWrapDone
  by_cases h1 : (st.ctx.inWrapper && st.ctx.canCloseWrapper) = true
  · rw [if_pos h1]
    have hcc : st.ctx.canCloseWrapper = true := (Bool.and_eq_true_iff.mp h1).2
    obtain ⟨s2, hrun, hctx2, hwm2, hwp2, hws2, hbal2, helms2⟩ :=
      stopWrapping_spec hasWrapper branchType st hinv hcc
    rw [hrun]
    exact ⟨_, rfl, hbal2, helms2⟩
  · rw [if_neg h1]
    have hcc : st.ctx.canCloseWrapper = false := by
      cases hc : st.ctx.canCloseWrapper
      · rfl
      · exact absurd (Bool.and_eq_true_iff.mpr ⟨hinv.ccInW hc, hc⟩) h1
    refine ⟨st, rfl, ?_, elmsPreserved_refl st.data⟩
    have hb := hinv.balance
    rwa [show stackShape hasWrapper branchType st = (if hasWrapper then [branchType] else [])
      from by unfold stackShape; rw [hcc]; rfl] at hb

/-- The exit steps of getDataFromDomSubtree succeed under the loop
invariant and return fully balanced data preserving all data elements. -/
theorem subtreeFinish_spec (env : ConvEnv) (binfo : ModelInfo) (branchType : String)
    (hasWrapper annWasNone : Bool) (st : LoopSt)
    (hinv : LoopInv hasWrapper branchType st) :
    ∃ out, subtreeFinish env binfo branchType hasWrapper annWasNone st = Except.ok out ∧
      nestCheck [] out = some [] ∧ elmsPreserved st.data out := by
  obtain ⟨stA, hrunA, hbalA, helmsA⟩ := finishWrapDone_spec hasWrapper branchType st hinv
  obtain ⟨hbalB, helmsB⟩ := finishEmptyPara_spec binfo branchType hasWrapper stA _ hbalA
  obtain ⟨hbalC, helmsC⟩ := finishClose_spec branchType hasWrapper _ hbalB
  obtain ⟨hbalD, helmsD⟩ := finishDocPara_spec env branchType annWasNone _ hbalC
  unfold subtreeFinish
  rw [hrunA]
  exact ⟨_, rfl, hbalD,
    elmsPreserved_trans (elmsPreserved_trans (elmsPreserved_trans helmsA helmsB) helmsC) helmsD⟩

/-- The entry steps succeed whenever the branch type is registered, and
set up the loop invariant. -/
theorem subtreeInit_spec (env : ConvEnv) (hwf : WfConvEnv env) (prevCtx : Option ConvCtx)
    (w : Option DataElm) (a : Option (List Nat))
    (hreg : (env.lookup (initBranchType prevCtx w)).isSome) :
    ∃ binfo st0, subtreeInit env prevCtx w a = Except.ok (binfo, st0) ∧
      env.lookup (initBranchType prevCtx w) = some binfo ∧
      LoopInv w.isSome (initBranchType prevCtx w) st0 ∧
      st0.ctx.branchType = initBranchType prevCtx w := by
  obtain ⟨binfo, hb⟩ := Option.isSome_iff_exists.mp hreg
  cases w with
  | some wEl =>
    have hb2 : env.lookup wEl.type = some binfo := hb
    have hns : headIsSlash wEl.type = false := hwf.lookupNoSlash wEl.type binfo hb2
    unfold subtreeInit
    dsimp only
    rw [hb2]
    dsimp only
    refine ⟨binfo, _, rfl, hb2, ⟨?_, ?_, ?_, ?_, ?_, ?_, ?_, ?_, ?_⟩, rfl⟩
    · show nestCheck [] [LinItem.elm wEl] = some [wEl.type]
      exact nestCheck_single_open wEl hns
    · intro hcc
      exact absurd hcc Bool.false_ne_true
    · intro hcc
      exact absurd hcc Bool.false_ne_true
    · intro hcc
      exact absurd hcc Bool.false_ne_true
    · intro hne
      exact absurd rfl hne
    · intro _
      rfl
    · rfl
    · simp
    · intro it hit
      simp at hit
  | none =>
    cases prevCtx with
    | some p =>
      have hb2 : env.lookup p.branchType = some binfo := hb
      unfold subtreeInit
      dsimp only
      rw [hb2]
      dsimp only
      refine ⟨binfo, _, rfl, hb2, ⟨?_, ?_, ?_, ?_, ?_, ?_, ?_, ?_, ?_⟩, rfl⟩
      · show nestCheck [] [] = some []
        rfl
      · intro hcc
        exact absurd hcc Bool.false_ne_true
      · intro hcc
        exact absurd hcc Bool.false_ne_true
      · intro hcc
        exact absurd hcc Bool.false_ne_true
      · intro hne
        exact absurd rfl hne
      · intro _
        rfl
      · rfl
      · simp
      · intro it hit
        simp at hit
    | none =>
      have hb2 : env.lookup "document" = some binfo := hb
      unfold subtreeInit
      dsimp only
      rw [hb2]
      dsimp only
      refine ⟨binfo, _, rfl, hb2, ⟨?_, ?_, ?_, ?_, ?_, ?_, ?_, ?_, ?_⟩, rfl⟩
      · show nestCheck [] [] = some []
        rfl
      · intro hcc
        exact absurd hcc Bool.false_ne_true
      · intro hcc
        exact absurd hcc Bool.false_ne_true
      · intro hcc
        exact absurd hcc Bool.false_ne_true
      · intro hne
        exact absurd rfl hne
      · intro _
        rfl
      · rfl
      · simp
      · intro it hit
        simp at hit

/-- Totality and balance of getDataFromDomSubtree, by strong induction on
the DOM size: every invocation with a registered branch type succeeds and
returns fully balanced data, and the child loop keeps the invariant and
the constant context fields. -/
theorem conv_master (env : ConvEnv) (hwf : WfConvEnv env) : ∀ n : Nat,
    (∀ node : DomNode, sizeOf node ≤ n → ∀ (prevCtx : Option ConvCtx) (w : Option DataElm)
        (a : Option (List Nat)),
      (env.lookup (initBranchType prevCtx w)).isSome →
      ∃ out, convSubtree env prevCtx w a node = Except.ok out ∧ nestCheck [] out = some []) ∧
    (∀ children : List DomNode, sizeOf children ≤ n → ∀ (sigWs hasWrapper first : Bool)
        (branchType : String) (st : LoopSt),
      LoopInv hasWrapper branchType st →
      (env.lookup st.ctx.branchType).isSome →
      ∃ st2, convChildren env sigWs hasWrapper children first st = Except.ok st2 ∧
        LoopInv hasWrapper branchType st2 ∧ ctxConst st2.ctx st.ctx) := by
  intro n
  induction n using Nat.strong_induction_on with
  | _ n IH =>
  constructor
  · intro node hsz prevCtx w a hreg
    obtain ⟨binfo, st0, hinit, hlook, hinv0, hbt0⟩ := subtreeInit_spec env hwf prevCtx w a hreg
    rw [convSubtree, hinit]
    try dsimp only
    have hm : sizeOf node.childNodes < n :=
      Nat.lt_of_lt_of_le (childNodes_sizeOf_lt node) hsz
    obtain ⟨st1, hrun1, hinv1, hctx1⟩ := (IH _ hm).2 node.childNodes (Nat.le_refl _)
      binfo.significantWhitespace w.isSome true (initBranchType prevCtx w) st0 hinv0
      (by rw [hbt0]; exact hreg)
    rw [hrun1]
    try dsimp only
    obtain ⟨out, hfin, hbal, helms⟩ := subtreeFinish_spec env binfo st0.ctx.branchType w.isSome
      a.isNone st1 (by rw [hbt0]; exact hinv1)
    exact ⟨out, hfin, hbal⟩
  · intro children hsz sigWs hasWrapper first branchType st hinv hbreg
    cases children with
    | nil =>
      rw [convChildren]
      exact ⟨st, rfl, hinv, ctxConst_refl _⟩
    | cons childNode rest =>
      have hszc : sizeOf childNode < n := by
        simp only [List.cons.sizeOf_spec] at hsz
        omega
      have hszr : sizeOf rest < n := by
        simp only [List.cons.sizeOf_spec] at hsz
        omega
      rw [convChildren]
      try dsimp only
      cases htx : textOf childNode with
      | some t =>
        try dsimp only
        obtain ⟨stT, hrunT, hinvT, hctxT⟩ :=
          textStep_ok hasWrapper branchType sigWs first rest.isEmpty t st hinv
        rw [hrunT]
        try dsimp only
        obtain ⟨st2, hrun2, hinv2, hctx2⟩ := (IH _ hszr).2 rest (Nat.le_refl _) sigWs hasWrapper
          false branchType stT hinvT (by rw [hctxT.2.1]; exact hbreg)
        exact ⟨st2, hrun2, hinv2, ctxConst_trans hctx2 hctxT⟩
      | none =>
        try dsimp only
        have hplan := elemStep_spec env hwf hasWrapper branchType childNode rest st hinv
        cases hps : elemStep env childNode rest st with
        | planSkip =>
          try dsimp only
          exact (IH _ hszr).2 rest (Nat.le_refl _) sigWs hasWrapper false branchType st hinv hbreg
        | planDone st1 consumed =>
          rw [hps] at hplan
          have hplan2 : LoopInv hasWrapper branchType st1 ∧ ctxConst st1.ctx st.ctx := hplan
          try dsimp only
          have hszd : sizeOf (rest.drop (consumed - 1)) < n :=
            Nat.lt_of_le_of_lt (domList_sizeOf_drop_le (consumed - 1) rest) hszr
          obtain ⟨st2, hrun2, hinv2, hctx2⟩ := (IH _ hszd).2 (rest.drop (consumed - 1))
            (Nat.le_refl _) sigWs hasWrapper false branchType st1 hplan2.1
            (by rw [hplan2.2.2.1]; exact hbreg)
          exact ⟨st2, hrun2, hinv2, ctxConst_trans hctx2 hplan2.2⟩
        | planAnnRec st1 childAnns cns =>
          rw [hps] at hplan
          have hplan2 : ctxConst st1.ctx st.ctx ∧
              ∀ sub, nestCheck [] sub = some [] →
                ∃ st2, annPost env cns sub st1 = Except.ok st2 ∧
                  LoopInv hasWrapper branchType st2 ∧ ctxConst st2.ctx st.ctx := hplan
          try dsimp only
          obtain ⟨sub, hrunS, hbalS⟩ := (IH _ hszc).1 childNode (Nat.le_refl _)
            (some st1.ctx) none (some childAnns)
            (by show (env.lookup st1.ctx.branchType).isSome; rw [hplan2.1.2.1]; exact hbreg)
          rw [hrunS]
          try dsimp only
          obtain ⟨st2, hrunP, hinv2, hctx2⟩ := hplan2.2 sub hbalS
          rw [hrunP]
          try dsimp only
          obtain ⟨st3, hrun3, hinv3, hctx3⟩ := (IH _ hszr).2 rest (Nat.le_refl _) sigWs hasWrapper
            false branchType st2 hinv2 (by rw [hctx2.2.1]; exact hbreg)
          exact ⟨st3, hrun3, hinv3, ctxConst_trans hctx3 hctx2⟩
        | planNodeRec st1 g pos consumed =>
          rw [hps] at hplan
          have hplan2 : (env.lookup g.type).isSome ∧ ctxConst st1.ctx st.ctx ∧
              ∀ sub, nestCheck [] sub = some [] →
                LoopInv hasWrapper branchType (nodePost st1 pos sub) ∧
                  ctxConst (nodePost st1 pos sub).ctx st.ctx := hplan
          try dsimp only
          obtain ⟨sub, hrunS, hbalS⟩ := (IH _ hszc).1 childNode (Nat.le_refl _)
            (some st1.ctx) (some g) (some [])
            (by show (env.lookup g.type).isSome; exact hplan2.1)
          rw [hrunS]
          try dsimp only
          obtain ⟨hinvN, hctxN⟩ := hplan2.2.2 sub hbalS
          have hszd : sizeOf (rest.drop (consumed - 1)) < n :=
            Nat.lt_of_le_of_lt (domList_sizeOf_drop_le (consumed - 1) rest) hszr
          obtain ⟨st3, hrun3, hinv3, hctx3⟩ := (IH _ hszd).2 (rest.drop (consumed - 1))
            (Nat.le_refl _) sigWs hasWrapper false branchType (nodePost st1 pos sub) hinvN
            (by rw [hctxN.2.1]; exact hbreg)
          exact ⟨st3, hrun3, hinv3, ctxConst_trans hctx3 hctxN⟩
        | planFail m =>
          rw [hps] at hplan
          exact (hplan : False).elim

/-- getAboutGroup of a node with no following siblings is the node
itself. -/
theorem getAboutGroup_nil (node : DomNode) : getAboutGroup node [] = [node] := by
  unfold getAboutGroup
  cases node.getAttr "about" with
  | none => rfl
  | some a => rfl

/-- The emit arm of the node branch: flushing the queue and appending the
open/close pair of a detached element puts that element into the
output. -/
theorem alien_done_spec (hasWrapper : Bool) (branchType : String) (stB : LoopSt)
    (hinvB : LoopInv hasWrapper branchType stB) (g0 : DataElm) (cnt : Nat)
    (tyOd : String × List DomNode) (hg : elmCore g0 = tyOd) :
    ∃ st1 k, (match outputWrappedMetaItems true stB with
      | Except.error m => ElemPlan.planFail m
      | Except.ok stC =>
        ElemPlan.planDone
          { procNextWsAt { stC with data := stC.data ++ [LinItem.elm g0, LinItem.elm (closeOf g0)] } stC.data.length with
            prevElm := ObjRef.idx stC.data.length } cnt) = ElemPlan.planDone st1 k ∧
      ∃ e, LinItem.elm e ∈ st1.data ∧ elmCore e = tyOd := by
  obtain ⟨stO, hrunO, hctxO, hwmO, hnwO, hwsO, hwiO, hprO, hbalO, helmsO⟩ :=
    owm_restore_spec hasWrapper branchType stB hinvB.balance hinvB.wmBal hinvB.wmWs
  rw [hrunO]
  try dsimp only
  refine ⟨_, cnt, rfl, ?_⟩
  have hmem : LinItem.elm g0 ∈ stO.data ++ [LinItem.elm g0, LinItem.elm (closeOf g0)] :=
    List.mem_append_right _ (List.mem_cons_self _ _)
  have hpres : elmsPreserved (stO.data ++ [LinItem.elm g0, LinItem.elm (closeOf g0)])
      (procNextWsAt { stO with data := stO.data ++ [LinItem.elm g0, LinItem.elm (closeOf g0)] } stO.data.length).data := by
    unfold procNextWsAt
    split
    · exact elmsPreserved_refl _
    · exact elmsPreserved_updateElmAt _ _ _ (fun e => addWhitespace_core e 0 _)
  obtain ⟨e, hmem2, hcore2⟩ := hpres g0 hmem
  exact ⟨e, hmem2, hcore2.trans hg⟩

/-- The node-or-meta branch applied to the AlienNode class and its single
created alien element always completes in place and leaves the alien
element (type and original DOM intact) in the output. -/
theorem elemMain_alien (env : ConvEnv) (hwf : WfConvEnv env) (hasWrapper : Bool)
    (branchType : String) (childNode : DomNode) (ag : List DomNode) (st : LoopSt)
    (hinv : LoopInv hasWrapper branchType st) (ai : ModelInfo)
    (hai : env.lookup "alien" = some ai) :
    ∃ st1 k, elemMain env childNode ag (MClass.reg "alien" ai) ag
        (({ type := "alien", internalRec := none, anns := [], originalDomElements := ag } : DataElm) :: []) st
      = ElemPlan.planDone st1 k ∧
      ∃ e, LinItem.elm e ∈ st1.data ∧ elmCore e = ("alien", ag) := by
  obtain ⟨haiK, haiC⟩ := hwf.alienNode ai hai
  unfold elemMain
  rw [if_neg (show ¬((MClass.reg "alien" ai).isAnn = true) from by
    rw [show (MClass.reg "alien" ai).isAnn = (ai.kind == MKind.annKind) from rfl, haiK]
    decide)]
  rw [if_neg (show ¬((MClass.reg "alien" ai).isMeta = true) from by
    rw [show (MClass.reg "alien" ai).isMeta = (ai.kind == MKind.metaItem) from rfl, haiK]
    decide)]
  try dsimp only
  rw [show env.lookup ({ type := "alien", internalRec := none, anns := [], originalDomElements := ag } : DataElm).type = env.lookup "alien" from rfl, hai]
  try dsimp only
  have hadj : ∃ (stA : LoopSt) (cnF : List DomNode),
      (if !st.ctx.expectingContent && ai.isContent then
        Except.ok ({ startWrapping st with prevElm := (startWrapping st).wrappingPara },
          ag, ({ type := "alien", internalRec := none, anns := [], originalDomElements := ag } : DataElm) :: [], ai, ai.isContent)
      else if st.ctx.expectingContent && !ai.isContent then
        if st.ctx.inWrapper && st.ctx.canCloseWrapper then
          match stopWrapping st with
          | Except.error m => Except.error m
          | Except.ok s2 => Except.ok (s2, ag, ({ type := "alien", internalRec := none, anns := [], originalDomElements := ag } : DataElm) :: [], ai, ai.isContent)
        else
          match createAlienElements (if alienAboutGroup then ag else [childNode]) with
          | [] => Except.error "element 0 of undefined"
          | b0 :: bs =>
            match env.lookup b0.type with
            | none => Except.error "isNodeContent of unregistered type"
            | some ai2 => Except.ok (st, (if alienAboutGroup then ag else [childNode]),
                b0 :: bs, ai2, ai2.isContent)
      else Except.ok (st, ag, ({ type := "alien", internalRec := none, anns := [], originalDomElements := ag } : DataElm) :: [], ai, ai.isContent)) =
      Except.ok (stA, cnF, ({ type := "alien", internalRec := none, anns := [], originalDomElements := ag } : DataElm) :: [], ai, ai.isContent) ∧
      CoreInv hasWrapper branchType stA ∧
      (stA.ctx.canCloseWrapper = true → ai.isContent = true) := by
    by_cases h1 : !st.ctx.expectingContent && ai.isContent
    · rw [if_pos h1]
      have hexp0 : st.ctx.expectingContent = false := by
        have h2 := (Bool.and_eq_true_iff.mp h1).1
        simpa using h2
      have hcic : ai.isContent = true := (Bool.and_eq_true_iff.mp h1).2
      have hcc0 : st.ctx.canCloseWrapper = false := by
        cases hc : st.ctx.canCloseWrapper
        · rfl
        · exact absurd (hinv.ccExp hc) (by rw [hexp0]; simp)
      obtain ⟨hcore1, hconst1, hctx1⟩ := startWrapping_core hasWrapper branchType st hinv hcc0
      exact ⟨_, _, rfl, hcore1, fun _ => hcic⟩
    · rw [if_neg h1]
      by_cases h2 : st.ctx.expectingContent && !ai.isContent
      · rw [if_pos h2]
        by_cases h3 : st.ctx.inWrapper && st.ctx.canCloseWrapper
        · rw [if_pos h3]
          have hcc : st.ctx.canCloseWrapper = true := (Bool.and_eq_true_iff.mp h3).2
          obtain ⟨s2, hrun2, hctx2, hwm2, hpr2, hws2, hbal2, helms2⟩ :=
            stopWrapping_spec hasWrapper branchType st hinv hcc
          rw [hrun2]
          refine ⟨s2, ag, rfl, ?_, ?_⟩
          · refine ⟨?_, ?_, ?_, ?_, ?_, ?_, ?_, ?_⟩
            · rw [show stackShape hasWrapper branchType s2 =
                (if hasWrapper then [branchType] else []) from by
                  unfold stackShape
                  rw [hctx2]
                  rfl]
              exact hbal2
            · intro hcc2
              rw [hctx2] at hcc2
              simp at hcc2
            · intro hcc2
              rw [hctx2] at hcc2
              simp at hcc2
            · intro hcc2
              rw [hctx2] at hcc2
              simp at hcc2
            · intro h
              rw [hws2]
              apply hinv.wsOrig
              rw [hctx2] at h
              exact h
            · rw [hwm2]
              rfl
            · rw [hwm2]
              simp
            · rw [hwm2]
              intro it hit
              simp at hit
          · intro hcc2
            rw [hctx2] at hcc2
            simp at hcc2
        · rw [if_neg h3]
          simp only [createAlienElements, alienToData]
          try dsimp only
          rw [show env.lookup ({ type := "alien", internalRec := none, anns := [], originalDomElements := (if alienAboutGroup then ag else [childNode]) } : DataElm).type = env.lookup "alien" from rfl, hai]
          refine ⟨st, _, rfl, hinv.core, ?_⟩
          intro hcc2
          exact absurd (show (st.ctx.inWrapper && st.ctx.canCloseWrapper) = true by
            rw [hinv.ccInW hcc2, hcc2]; rfl) h3
      · rw [if_neg h2]
        refine ⟨st, ag, rfl, hinv.core, ?_⟩
        intro hcc2
        have hexp := hinv.ccExp hcc2
        cases hic : ai.isContent
        · exact absurd (show (st.ctx.expectingContent && !ai.isContent) = true by
            rw [hexp, hic]; rfl) h2
        · rfl
  obtain ⟨stA, cnF, hadjEq, hcoreA, hcchcA⟩ := hadj
  rw [hadjEq]
  try dsimp only
  obtain ⟨stB, hrunB, hinvB, hctxB, hwsB, hnwsB, helmsB⟩ :=
    wmStep_spec hasWrapper branchType stA hcoreA ai.isContent hcchcA
  rw [hrunB]
  try dsimp only
  by_cases hG : (ai.isContent && !stB.ctx.anns.isEmpty) = true
  · rw [if_pos hG]
    try dsimp only [setAnnsHead]
    rw [haiC]
    simp only [Bool.and_false, Bool.false_and]
    rw [if_neg (show ¬(false = true) by decide)]
    exact alien_done_spec hasWrapper branchType stB hinvB _ cnF.length ("alien", ag) rfl
  · rw [if_neg hG]
    try dsimp only
    rw [haiC]
    simp only [Bool.and_false, Bool.false_and]
    rw [if_neg (show ¬(false = true) by decide)]
    exact alien_done_spec hasWrapper branchType stB hinvB _ cnF.length ("alien", ag) rfl

/-- An element or comment child that the model registry does not match is
never rejected: the loop step completes in place and the output holds an
alien element carrying the original DOM nodes of the about group. -/
theorem elemStep_alien (env : ConvEnv) (hwf : WfConvEnv env) (hasWrapper : Bool)
    (branchType : String) (childNode : DomNode) (rest : List DomNode) (st : LoopSt)
    (hinv : LoopInv hasWrapper branchType st)
    (hig : childNode.getAttr "data-ve-ignore" = none)
    (hmatch : env.matchElement childNode (decide ((getAboutGroup childNode rest).length > 1)) = none) :
    ∃ st1 k, elemStep env childNode rest st = ElemPlan.planDone st1 k ∧
      ∃ e, LinItem.elm e ∈ st1.data ∧
        elmCore e = ("alien", getAboutGroup childNode rest) := by
  obtain ⟨ai, hai⟩ := Option.isSome_iff_exists.mp hwf.alienReg
  have hred : elemStep env childNode rest st =
      elemMain env childNode (getAboutGroup childNode rest) (MClass.reg "alien" ai)
        (getAboutGroup childNode rest)
        (({ type := "alien", internalRec := none, anns := [], originalDomElements := getAboutGroup childNode rest } : DataElm) :: []) st := by
    unfold elemStep
    try dsimp only
    rw [hig]
    try dsimp only
    rw [hmatch]
    try dsimp only
    simp only [MClass.isAnn, MClass.enableAbout, alienAboutGroup, createDataElementsMC,
      createAlienElements, alienToData]
    try dsimp only
    rw [show env.lookup ({ type := "alien", internalRec := none, anns := [], originalDomElements := getAboutGroup childNode rest } : DataElm).type = env.lookup "alien" from rfl, hai]
    rfl
  rw [hred]
  exact elemMain_alien env hwf hasWrapper branchType childNode (getAboutGroup childNode rest)
    st hinv ai hai


/-- Converting a body whose only child is an unmatched element or comment
succeeds and outputs an alien element that preserves the child. -/
theorem conv_alienates (env : ConvEnv) (hwf : WfConvEnv env) (tag : String)
    (attrs : List (String × String)) (child : DomNode)
    (htx : textOf child = none)
    (hig : child.getAttr "data-ve-ignore" = none)
    (hm : env.matchElement child false = none) :
    ∃ out e, getDataFromDom env (DomNode.el tag attrs [child]) = Except.ok out ∧
      LinItem.elm e ∈ out ∧ e.type = "alien" ∧ e.originalDomElements = [child] := by
  have hAG : getAboutGroup child [] = [child] := getAboutGroup_nil child
  have hreg : (env.lookup (initBranchType none none)).isSome := hwf.docReg
  obtain ⟨binfo, st0, hinit, hlook, hinv0, hbt0⟩ := subtreeInit_spec env hwf none none none hreg
  unfold getDataFromDom
  rw [convSubtree, hinit]
  try dsimp only
  rw [show (DomNode.el tag attrs [child]).childNodes = [child] from rfl]
  rw [convChildren]
  try dsimp only
  rw [htx]
  try dsimp only
  have hm2 : env.matchElement child (decide ((getAboutGroup child ([] : List DomNode)).length > 1)) = none := by
    rw [hAG]
    exact hm
  obtain ⟨st1, k, hstep, e0, hmem0, hcore0⟩ :=
    elemStep_alien env hwf (none : Option DataElm).isSome (initBranchType none none)
      child [] st0 hinv0 hig hm2
  rw [hstep]
  try dsimp only
  rw [show List.drop (k - 1) ([] : List DomNode) = [] from List.drop_nil]
  rw [convChildren]
  try dsimp only
  have hplan := elemStep_spec env hwf (none : Option DataElm).isSome (initBranchType none none)
    child [] st0 hinv0
  rw [hstep] at hplan
  have hplan2 : LoopInv (none : Option DataElm).isSome (initBranchType none none) st1 ∧
      ctxConst st1.ctx st0.ctx := hplan
  obtain ⟨out, hfin, hbal, helms⟩ := subtreeFinish_spec env binfo st0.ctx.branchType
    (none : Option DataElm).isSome (none : Option (List Nat)).isNone st1
    (by rw [hbt0]; exact hplan2.1)
  rw [hfin]
  obtain ⟨e, hmem, hcore⟩ := helms e0 hmem0
  have h3 : elmCore e = ("alien", [child]) := by
    rw [hcore.trans hcore0, hAG]
  exact ⟨out, e, rfl, hmem, congrArg Prod.fst h3, congrArg Prod.snd h3⟩

/-- C2: DOM-to-model conversion is total: over every converter environment
(so in particular whatever the matcher, the registry and toDataElement
return, including null) and every input DOM subtree, getDataFromDomSubtree
returns linear data and never an error; and an element or comment child
the matcher does not recognize is alienated: conversion still succeeds and
the output holds an opaque alien element whose originalDomElements
preserve the original DOM child. -/
theorem dom_to_model_total_and_alienates (env : ConvEnv) (hwf : WfConvEnv env) :
    (∀ body : DomNode, ∃ out, getDataFromDom env body = Except.ok out) ∧
    (∀ (tag : String) (attrs : List (String × String)) (child : DomNode),
      textOf child = none → child.getAttr "data-ve-ignore" = none →
      env.matchElement child false = none →
      ∃ out e, getDataFromDom env (DomNode.el tag attrs [child]) = Except.ok out ∧
        LinItem.elm e ∈ out ∧ e.type = "alien" ∧ e.originalDomElements = [child]) := by
  constructor
  · intro body
    obtain ⟨out, hrun, hbal⟩ := (conv_master env hwf (sizeOf body)).1 body (Nat.le_refl _)
      none none none hwf.docReg
    exact ⟨out, hrun⟩
  · intro tag attrs child htx hig hm
    exact conv_alienates env hwf tag attrs child htx hig hm

/-- C8: for every converter environment and every input DOM subtree, the
linear data returned by getDataFromDomSubtree has balanced, well-nested
open and close element markers: the stack checker accepts it and ends on
an empty stack. -/
theorem dom_to_model_balanced (env : ConvEnv) (hwf : WfConvEnv env) (body : DomNode) :
    ∃ out, getDataFromDom env body = Except.ok out ∧ nestCheck [] out = some [] :=
  (conv_master env hwf (sizeOf body)).1 body (Nat.le_refl _) none none none hwf.docReg


/-- Modelled from the spec: a small concrete converter environment with
the registrations VisualEditor always has (document, the alien fallbacks)
plus a paragraph node, a bold annotation and a comment meta item, for
exercising the converter theorems on closed inputs. -/
def demoDocInfo : ModelInfo := { kind := MKind.node, canHaveChildren := true }

def demoParaInfo : ModelInfo :=
  { kind := MKind.node, canContainContent := true, canHaveChildren := true }

def demoBoldInfo : ModelInfo := { kind := MKind.annKind }

def demoMetaInfo : ModelInfo := { kind := MKind.metaItem }

def demoAlienInfo : ModelInfo := { kind := MKind.node }

def demoAlienMetaInfo : ModelInfo := { kind := MKind.metaItem, isAlienMeta := true }

def demoEnv : ConvEnv := {
  matchElement := fun n _ =>
    match n with
    | DomNode.el tag _ _ =>
      if tag == "p" then some "paragraph"
      else if tag == "b" then some "bold"
      else if tag == "meta" then some "commentMeta"
      else none
    | DomNode.comment _ => some "commentMeta"
    | _ => none
  lookup := fun t =>
    if t == "document" then some demoDocInfo
    else if t == "paragraph" then some demoParaInfo
    else if t == "bold" then some demoBoldInfo
    else if t == "commentMeta" then some demoMetaInfo
    else if t == "alien" then some demoAlienInfo
    else if t == "alienMeta" then some demoAlienMetaInfo
    else none
  toDataElement := fun n _ =>
    if n == "paragraph" then some [{ type := "paragraph" }]
    else if n == "bold" then some [{ type := "bold" }]
    else if n == "commentMeta" then some [{ type := "commentMeta" }]
    else none
  annIdx := fun e => if e.type == "bold" then 1 else 0 }

/-- Inverting a successful lookup of the demo registry. -/
theorem demoEnv_lookup_names (t : String) (info : ModelInfo)
    (h : demoEnv.lookup t = some info) :
    t = "document" ∨ t = "paragraph" ∨ t = "bold" ∨ t = "commentMeta" ∨ t = "alien" ∨
      t = "alienMeta" := by
  unfold demoEnv at h
  dsimp only at h
  split at h
  next hc => exact Or.inl (by simpa using hc)
  next hc =>
    split at h
    next hc2 => exact Or.inr (Or.inl (by simpa using hc2))
    next hc2 =>
      split at h
      next hc3 => exact Or.inr (Or.inr (Or.inl (by simpa using hc3)))
      next hc3 =>
        split at h
        next hc4 => exact Or.inr (Or.inr (Or.inr (Or.inl (by simpa using hc4))))
        next hc4 =>
          split at h
          next hc5 => exact Or.inr (Or.inr (Or.inr (Or.inr (Or.inl (by simpa using hc5)))))
          next hc5 =>
            split at h
            next hc6 => exact Or.inr (Or.inr (Or.inr (Or.inr (Or.inr (by simpa using hc6)))))
            next hc6 => exact Option.noConfusion h

/-- The demo environment is well formed. -/
theorem demoEnv_wf : WfConvEnv demoEnv := by
  refine ⟨rfl, rfl, ?_, ?_, ?_, ?_, ?_⟩
  · intro t info h
    rcases demoEnv_lookup_names t info h with h1 | h1 | h1 | h1 | h1 | h1 <;>
      (subst h1; decide)
  · intro info h
    have h0 : demoEnv.lookup "alien" = some demoAlienInfo := rfl
    rw [h0] at h
    injection h with h1
    rw [← h1]
    exact ⟨rfl, rfl⟩
  · intro name doms e rest h
    unfold demoEnv at h
    dsimp only at h
    split at h
    next =>
      injection h with h2
      injection h2 with he hr
      rw [← he]
      exact ⟨rfl, rfl⟩
    next =>
      split at h
      next =>
        injection h with h2
        injection h2 with he hr
        rw [← he]
        exact ⟨rfl, rfl⟩
      next =>
        split at h
        next =>
          injection h with h2
          injection h2 with he hr
          rw [← he]
          exact ⟨rfl, rfl⟩
        next => exact Option.noConfusion h
  · intro name doms res h hlen
    unfold demoEnv at h
    dsimp only at h
    split at h
    next =>
      injection h with h2
      rw [← h2] at hlen
      simp at hlen
    next =>
      split at h
      next =>
        injection h with h2
        rw [← h2] at hlen
        simp at hlen
      next =>
        split at h
        next =>
          injection h with h2
          rw [← h2] at hlen
          simp at hlen
        next => exact Option.noConfusion h
  · intro name doms res h e he
    unfold demoEnv at h
    dsimp only at h
    split at h
    next =>
      injection h with h2
      rw [← h2] at he
      rw [List.mem_singleton] at he
      rw [he]
      rfl
    next =>
      split at h
      next =>
        injection h with h2
        rw [← h2] at he
        rw [List.mem_singleton] at he
        rw [he]
        rfl
      next =>
        split at h
        next =>
          injection h with h2
          rw [← h2] at he
          rw [List.mem_singleton] at he
          rw [he]
          rfl
        next => exact Option.noConfusion h

/-- Witness: the C2 theorem applied to the demo environment, an empty
body, and a body holding one unrecognized element. -/
theorem dom_to_model_total_and_alienates_witness :
    WfConvEnv demoEnv ∧
    (∃ out, getDataFromDom demoEnv (DomNode.el "body" [] []) = Except.ok out) ∧
    (∃ out e, getDataFromDom demoEnv
        (DomNode.el "body" [] [DomNode.el "video" [] []]) = Except.ok out ∧
      LinItem.elm e ∈ out ∧ e.type = "alien" ∧
      e.originalDomElements = [DomNode.el "video" [] []]) :=
  ⟨demoEnv_wf,
   (dom_to_model_total_and_alienates demoEnv demoEnv_wf).1 (DomNode.el "body" [] []),
   (dom_to_model_total_and_alienates demoEnv demoEnv_wf).2 "body" []
     (DomNode.el "video" [] []) rfl rfl rfl⟩

/-- Witness: the C8 theorem applied to the demo environment and a body
with one text child. -/
theorem dom_to_model_balanced_witness :
    WfConvEnv demoEnv ∧
    (∃ out, getDataFromDom demoEnv (DomNode.el "body" [] [DomNode.txt [Char.ofNat 104, Char.ofNat 105]]) = Except.ok out ∧
      nestCheck [] out = some []) :=
  ⟨demoEnv_wf, dom_to_model_balanced demoEnv demoEnv_wf
    (DomNode.el "body" [] [DomNode.txt [Char.ofNat 104, Char.ofNat 105]])⟩


end VE
